import Mathlib

/-!
# one-api routing and reliability core

A shallow embedding of the routing core of the gateway (health store, selection
strategies, routing engine, dispatch loop) together with theorems about it.

Conventions of the embedding:

* Go `int` / `int64` values are `Int`; the counters involved are request counts and
  unix timestamps, far away from the 64-bit boundary, so no wrap-around is modelled.
* Go `float64` values are rationals (`ℚ`), and `toFloat64` rounds a rational to the
  nearest IEEE-754 binary64 number.  The weighted mean of two latencies is evaluated in
  binary64, operation by operation.  The comparisons of a quotient of two counters
  against `0.9` / `0.1` are written with exact quotients; the theorems
  `float64_successRate_adequate` and `float64_failureRate_adequate` show that the
  binary64 evaluation gives the same answer on counters up to `2^50`.
* Go `error` is `Option String` (`none` is `nil`); a `(value, error)` result is an
  `Except String value`.
* The database is explicit state: every function that touches it takes the database
  and returns the new one.
-/

namespace OneApi

/-! ## `model` package: channels -/

/-- Modelled from the spec: the channel status constants of `model/channel.go`
(`status ∈ {enabled, manual-disabled, auto-disabled}`); the declaration itself is not
part of the sources at hand. -/
def ChannelStatusEnabled : Int := 1

/-- Modelled from the spec: status of a channel disabled by an administrator. -/
def ChannelStatusManuallyDisabled : Int := 2

/-- Modelled from the spec: status of a channel disabled by the system. -/
def ChannelStatusAutoDisabled : Int := 3

/-- Modelled from the spec: the fields of `model.Channel` the routing core reads
(`id`, `name`, `status`, optional `weight : int ≥ 1`, optional `priority : int`).
`Weight` is a `*uint` and `Priority` a `*int64` in the callers, hence the options. -/
structure Channel where
  Id : Int
  Name : String
  Status : Int
  Weight : Option Nat
  Priority : Option Int
deriving DecidableEq, Repr

/-! ## `model/channel_health.go` -/

/-- One row of the `channel_health` table. -/
structure ChannelHealth where
  ChannelID : Int
  SuccessCount : Int
  FailureCount : Int
  ConsecutiveFails : Int
  LastSuccessAt : Int
  LastFailureAt : Int
  AvgLatency : Int
  Status : String
  UpdatedAt : Int
deriving DecidableEq, Repr

/-- One row of the `call_metadata` table (`model/call_metadata.go`). -/
structure CallMetadata where
  ID : Int
  GenerationID : String
  RequestID : String
  UserID : Int
  TokenID : Int
  ChannelID : Int
  Model : String
  APIPath : String
  IsStream : Bool
  StatusCode : Int
  LatencyMs : Int
  PromptTokens : Int
  CompletionTokens : Int
  Attempt : Int
  CreatedAt : Int
deriving DecidableEq, Repr

/-- The database: the rows of `channel_health` (primary key `channel_id`), the rows of
`call_metadata` in insertion order, the reading of the wall clock
(`time.Now().Unix()`), and whether queries currently fail. -/
structure DB where
  health : List ChannelHealth
  metadata : List CallMetadata
  now : Int
  failing : Bool

/-- A reachable database without rows, at clock reading `now`. -/
def emptyDB (now : Int) : DB := { health := [], metadata := [], now := now, failing := false }

/-- The row with primary key `channelID`, if any. -/
def DB.findHealth (db : DB) (channelID : Int) : Option ChannelHealth :=
  db.health.find? (fun r => r.ChannelID == channelID)

/-- Row written by `FirstOrCreate` when no row exists: the column defaults of the
struct tags (`default:0`, `default:'unknown'`), `updated_at` stamped by the ORM. -/
def newHealthRow (channelID now : Int) : ChannelHealth :=
  { ChannelID := channelID, SuccessCount := 0, FailureCount := 0, ConsecutiveFails := 0,
    LastSuccessAt := 0, LastFailureAt := 0, AvgLatency := 0, Status := "unknown",
    UpdatedAt := now }

/-- Replace the row that has the primary key of `h`, or append `h` (`DB.Save`). -/
def saveRow (rows : List ChannelHealth) (h : ChannelHealth) : List ChannelHealth :=
  if rows.any (fun r => r.ChannelID == h.ChannelID) then
    rows.map (fun r => if r.ChannelID == h.ChannelID then h else r)
  else rows ++ [h]

/-- The row a successful `GetChannelHealth` hands back: the stored row, or the freshly
created one. -/
def DB.readHealth (db : DB) (channelID : Int) : ChannelHealth :=
  (db.findHealth channelID).getD (newHealthRow channelID db.now)

/-- Go function `GetChannelHealth`: `DB.FirstOrCreate` on the primary key. -/
def GetChannelHealth (db : DB) (channelID : Int) : Except String ChannelHealth × DB :=
  if db.failing then (.error "database error", db)
  else
    match db.findHealth channelID with
    | some health => (.ok health, db)
    | none =>
      let health := newHealthRow channelID db.now
      (.ok health, { db with health := db.health ++ [health] })

/-- Go function `UpdateChannelHealth`: stamp `UpdatedAt` and `DB.Save`. -/
def UpdateChannelHealth (db : DB) (health : ChannelHealth) : Option String × DB :=
  let health := { health with UpdatedAt := db.now }
  if db.failing then (some "database error", db)
  else (none, { db with health := saveRow db.health health })

/-- Rounding of a rational to the nearest integer, ties to the even one. -/
def roundHalfEven (y : ℚ) : Int :=
  if y - ⌊y⌋ < 1 / 2 then ⌊y⌋
  else if y - ⌊y⌋ > 1 / 2 then ⌊y⌋ + 1
  else if ⌊y⌋ % 2 = 0 then ⌊y⌋ else ⌊y⌋ + 1

/-- The IEEE-754 binary64 number nearest to a rational (round to nearest, ties to even;
53-bit significand; exponent range not limited). -/
def toFloat64 (q : ℚ) : ℚ :=
  if q = 0 then 0
  else (roundHalfEven (q / (2 : ℚ) ^ (Int.log 2 |q| - 52)) : ℚ) * (2 : ℚ) ^ (Int.log 2 |q| - 52)

/-- Conversion `int(x)` of a `float64` `x`: truncation toward zero. -/
def truncToInt (x : ℚ) : Int := if 0 ≤ x then ⌊x⌋ else ⌈x⌉

/-- The in-memory part of `OnRequestSuccess`: what happens to the loaded row between
`GetChannelHealth` and `UpdateChannelHealth`.  The moving average of the latency is
evaluated as the Go expression is, in binary64: `alpha` is the `float64` nearest to `0.2`,
the conversions `float64(latency)` and `float64(health.AvgLatency)`, the subtraction, the
two products and the sum are each rounded to the nearest `float64` (the compiler does not
fuse the multiplication and the addition on amd64), and `int(...)` truncates toward
zero. -/
def successUpdate (now latency : Int) (health : ChannelHealth) : ChannelHealth :=
  let health := { health with SuccessCount := health.SuccessCount + 1 }
  let health := { health with LastSuccessAt := now }
  let health := { health with ConsecutiveFails := 0 }
  let alpha : ℚ := toFloat64 0.2
  let health :=
    { health with
      AvgLatency :=
        if health.AvgLatency = 0 then latency
        else truncToInt (toFloat64
          (toFloat64 (alpha * toFloat64 (latency : ℚ)) +
            toFloat64 (toFloat64 (1 - alpha) * toFloat64 (health.AvgLatency : ℚ)))) }
  if health.Status = "unhealthy" then
    let totalRequests : Int := health.SuccessCount + health.FailureCount
    if totalRequests > 0 then
      let successRate : ℚ := (health.SuccessCount : ℚ) / (totalRequests : ℚ)
      if successRate > 0.9 ∧ health.ConsecutiveFails = 0 then
        { health with Status := "healthy" }
      else health
    else health
  else health

/-- Go function `OnRequestSuccess`. -/
def OnRequestSuccess (db : DB) (channelID latency : Int) : Option String × DB :=
  match GetChannelHealth db channelID with
  | (.error err, db) => (some err, db)
  | (.ok health, db) => UpdateChannelHealth db (successUpdate db.now latency health)

/-- The in-memory part of `OnRequestFailure`. -/
def failureUpdate (now : Int) (health : ChannelHealth) : ChannelHealth :=
  let health := { health with FailureCount := health.FailureCount + 1 }
  let health := { health with LastFailureAt := now }
  let health := { health with ConsecutiveFails := health.ConsecutiveFails + 1 }
  let health :=
    if health.ConsecutiveFails ≥ 3 then { health with Status := "unhealthy" } else health
  let totalRequests : Int := health.SuccessCount + health.FailureCount
  if totalRequests ≥ 10 then
    let failureRate : ℚ := (health.FailureCount : ℚ) / (totalRequests : ℚ)
    if failureRate > 0.1 then { health with Status := "unhealthy" } else health
  else health

/-- Go function `OnRequestFailure`; the error code is only logged by callers. -/
def OnRequestFailure (db : DB) (channelID : Int) (_errorCode : String) : Option String × DB :=
  match GetChannelHealth db channelID with
  | (.error err, db) => (some err, db)
  | (.ok health, db) => UpdateChannelHealth db (failureUpdate db.now health)

/-- Go function `IsChannelHealthy`. -/
def IsChannelHealthy (db : DB) (channelID : Int) : Bool × DB :=
  match GetChannelHealth db channelID with
  | (.error _, db) => (false, db)
  | (.ok health, db) => (health.Status == "healthy" || health.Status == "unknown", db)

/-- One call made by the dispatch loop to the health store, with the clock reading at
the time of the call. -/
inductive HealthEvent where
  | success (now latency : Int)
  | failure (now : Int) (errorCode : String)
deriving DecidableEq, Repr

/-- Whether the event is a failure report. -/
def HealthEvent.isFailure : HealthEvent → Bool
  | .success _ _ => false
  | .failure _ _ => true

/-- Perform one health-store call for channel `channelID`. -/
def applyHealthEvent (channelID : Int) (db : DB) : HealthEvent → DB
  | .success now latency => (OnRequestSuccess { db with now := now } channelID latency).2
  | .failure now errorCode => (OnRequestFailure { db with now := now } channelID errorCode).2

/-- Perform a sequence of health-store calls for channel `channelID`, oldest first. -/
def applyHealthEvents (channelID : Int) (db : DB) (events : List HealthEvent) : DB :=
  events.foldl (applyHealthEvent channelID) db

/-- Length of the run of failures at the end of a sequence of events. -/
def trailingFailures (events : List HealthEvent) : Nat :=
  (events.reverse.takeWhile HealthEvent.isFailure).length

/-! ## `controller/relay.go`: retry decision -/

/-- The keys of the request context the dispatch loop reads. -/
structure Context where
  ChannelId : Int
  ChannelName : String
  SpecificChannelId : Option String
  Id : Int
  TokenId : Int
  Group : String
  OriginalModel : String
  RequestId : String
  Path : String
  IsStream : Bool
  PromptTokens : Int
  CompletionTokens : Int
deriving DecidableEq, Repr

/-- Go function `shouldRetry`; Go's `/` on `int` truncates toward zero. -/
def shouldRetry (c : Context) (statusCode : Int) : Bool :=
  if c.SpecificChannelId.isSome then false
  else if statusCode = 429 then true
  else if statusCode.tdiv 100 = 5 then true
  else if statusCode = 400 then false
  else if statusCode.tdiv 100 = 2 then false
  else true


/-! ## `pkg/router/types.go` -/

/-- The `RouterStrategy` constant `weight_rr`. -/
def StrategyWeightRoundRobin : String := "weight_rr"

/-- The `RouterStrategy` constant `priority`. -/
def StrategyPriority : String := "priority"

/-- The `RouterStrategy` constant `lowest_cost`. -/
def StrategyLowestCost : String := "lowest_cost"

/-- The `RouterStrategy` constant `lowest_latency`. -/
def StrategyLowestLatency : String := "lowest_latency"

/-- The `RouterStrategy` constant `round_robin`. -/
def StrategyRoundRobin : String := "round_robin"

/-- Go type `SelectRequest`. -/
structure SelectRequest where
  RequestID : String
  UserID : Int
  Group : String
  Model : String
  Strategy : String
deriving DecidableEq, Repr

/-- Go type `SelectResult`; `DecisionTime` is the measured duration of the decision. -/
structure SelectResult where
  Channel : Channel
  Reason : String
  CandidateCount : Int
  DecisionTime : Int
deriving DecidableEq, Repr

/-- Go type `WeightedChannel`. -/
structure WeightedChannel where
  Channel : Channel
  Weight : Int
  CurrentWeight : Int
  EffectiveWeight : Int
  Priority : Int
deriving DecidableEq, Repr

/-- Go type `ChannelWithMetrics`. -/
structure ChannelWithMetrics where
  Channel : Channel
  AvgLatency : Int
  Cost : ℚ
  SuccessRate : ℚ
  Concurrent : Int
  Status : String
deriving DecidableEq, Repr

/-! ## `pkg/router/strategy.go` -/

/-- The field `state map[int]*WeightedChannel` of `WeightRoundRobinStrategy`.  An entry,
once created, is never replaced, so a `*WeightedChannel` is identified by its key. -/
abbrev WRRState := Int → Option WeightedChannel

/-- The state of `NewWeightRoundRobinStrategy()`. -/
def WRRState.empty : WRRState := fun _ => none

/-- Write through the pointer stored under `id`. -/
def WRRState.set (st : WRRState) (id : Int) (wc : WeightedChannel) : WRRState :=
  fun k => if k = id then some wc else st k

/-- The static weight `WeightRoundRobinStrategy.Select` gives a candidate it has not seen
before: `*ch.Channel.Weight`, or 1 for `nil`. -/
def weightOf (ch : ChannelWithMetrics) : Int :=
  match ch.Channel.Weight with
  | some w => (w : Int)
  | none => 1

/-- The entry `WeightRoundRobinStrategy.Select` creates for a candidate it has not seen
before. -/
def newWeightedChannel (ch : ChannelWithMetrics) : WeightedChannel :=
  { Channel := ch.Channel, Weight := weightOf ch, CurrentWeight := 0,
    EffectiveWeight := weightOf ch, Priority := 0 }

/-- Body of the first loop of `WeightRoundRobinStrategy.Select`: look up the entry of a
candidate, creating it when it does not exist. -/
def WeightRoundRobinStrategy.lookupOrCreate (st : WRRState) (ch : ChannelWithMetrics) :
    WRRState :=
  match st ch.Channel.Id with
  | some _ => st
  | none => st.set ch.Channel.Id (newWeightedChannel ch)

/-- First loop of `WeightRoundRobinStrategy.Select`: look up or create the entry of every
candidate; the resulting `weightedChannels` slice is the list of their keys. -/
def WeightRoundRobinStrategy.collect (st : WRRState) :
    List ChannelWithMetrics → WRRState × List Int
  | [] => (st, [])
  | ch :: rest =>
    let r := WeightRoundRobinStrategy.collect (WeightRoundRobinStrategy.lookupOrCreate st ch) rest
    (r.1, ch.Channel.Id :: r.2)

/-- The variables of the second loop of `WeightRoundRobinStrategy.Select`. -/
structure WRRLoop where
  state : WRRState
  selected : Option Int
  totalWeight : Int

/-- The assignment `wc.CurrentWeight += wc.EffectiveWeight`. -/
def bump (wc : WeightedChannel) : WeightedChannel :=
  { wc with CurrentWeight := wc.CurrentWeight + wc.EffectiveWeight }

/-- One iteration of the second loop of `WeightRoundRobinStrategy.Select`, for the entry
with key `id`. -/
def WeightRoundRobinStrategy.step (acc : WRRLoop) (id : Int) : WRRLoop :=
  match acc.state id with
  | none => acc
  | some wc =>
    let wc := bump wc
    let state := acc.state.set id wc
    let totalWeight := acc.totalWeight + wc.EffectiveWeight
    let better : Bool :=
      match acc.selected.bind state with
      | none => true
      | some sel => decide (wc.CurrentWeight > sel.CurrentWeight)
    { state := state, selected := if better then some id else acc.selected,
      totalWeight := totalWeight }

/-- Go method `WeightRoundRobinStrategy.Select`. -/
def WeightRoundRobinStrategy.Select (st : WRRState) (channels : List ChannelWithMetrics) :
    Option Channel × WRRState :=
  if channels.length = 0 then (none, st)
  else
    let r := WeightRoundRobinStrategy.collect st channels
    let acc := r.2.foldl WeightRoundRobinStrategy.step
      { state := r.1, selected := none, totalWeight := 0 }
    match acc.selected with
    | some id =>
      match acc.state id with
      | some wc =>
        (some wc.Channel,
          acc.state.set id { wc with CurrentWeight := wc.CurrentWeight - acc.totalWeight })
      | none => (none, acc.state)
    | none => (none, acc.state)

/-- Go method `WeightRoundRobinStrategy.OnChannelFailed`. -/
def WeightRoundRobinStrategy.OnChannelFailed (st : WRRState) (channelID : Int) : WRRState :=
  match st channelID with
  | some wc => st.set channelID { wc with EffectiveWeight := max 1 (wc.EffectiveWeight - 1) }
  | none => st

/-- Go method `WeightRoundRobinStrategy.OnChannelSuccess`. -/
def WeightRoundRobinStrategy.OnChannelSuccess (st : WRRState) (channelID : Int) : WRRState :=
  match st channelID with
  | some wc =>
    if wc.EffectiveWeight < wc.Weight then
      st.set channelID { wc with EffectiveWeight := wc.EffectiveWeight + 1 }
    else st
  | none => st

/-- The priority a candidate is grouped under: `*ch.Channel.Priority`, or 0 for `nil`. -/
def priorityOf (ch : ChannelWithMetrics) : Int :=
  match ch.Channel.Priority with
  | some p => p
  | none => 0

/-- The loop of `PriorityStrategy.Select`: the map `priorityGroups` and `maxPriority`. -/
def PriorityStrategy.group :
    List ChannelWithMetrics → (Int → List ChannelWithMetrics) × Int →
      (Int → List ChannelWithMetrics) × Int
  | [], acc => acc
  | ch :: rest, (priorityGroups, maxPriority) =>
    let priority := priorityOf ch
    let priorityGroups : Int → List ChannelWithMetrics :=
      fun k => if k = priority then priorityGroups priority ++ [ch] else priorityGroups k
    let maxPriority := if priority > maxPriority then priority else maxPriority
    PriorityStrategy.group rest (priorityGroups, maxPriority)

/-- Go method `PriorityStrategy.Select`; `rnd` is the value the random source yields, so that
`rand.Intn(n)` is `rnd % n`. -/
def PriorityStrategy.Select (rnd : Nat) (channels : List ChannelWithMetrics) : Option Channel :=
  if channels.length = 0 then none
  else
    let r := PriorityStrategy.group channels (fun _ => [], 0)
    let topChannels := r.1 r.2
    if topChannels.length > 0 then
      (topChannels.get? (rnd % topChannels.length)).map (fun ch => ch.Channel)
    else none

/-- The call `sort.Slice` of the Go standard library on a copy of the slice, for a `less` that
compares a key: the result is a permutation ordered by the key.  Modelled by insertion
sort, which is what the library runs on slices of up to 12 elements. -/
def sortSlice {κ : Type} [LinearOrder κ] (key : ChannelWithMetrics → κ)
    (channels : List ChannelWithMetrics) : List ChannelWithMetrics :=
  channels.insertionSort (fun a b => key a ≤ key b)

/-- Go method `LowestCostStrategy.Select`. -/
def LowestCostStrategy.Select (rnd : Nat) (channels : List ChannelWithMetrics) : Option Channel :=
  if channels.length = 0 then none
  else
    let sorted := sortSlice (fun ch => ch.Cost) channels
    let topN := min 3 sorted.length
    (sorted.get? (rnd % topN)).map (fun ch => ch.Channel)

/-- Go method `LowestLatencyStrategy.Select`. -/
def LowestLatencyStrategy.Select (rnd : Nat) (channels : List ChannelWithMetrics) :
    Option Channel :=
  if channels.length = 0 then none
  else
    let sorted := sortSlice (fun ch => ch.AvgLatency) channels
    let topN := min 3 sorted.length
    (sorted.get? (rnd % topN)).map (fun ch => ch.Channel)

/-- Go method `RoundRobinStrategy.Select`; the state is the field `counter`, which starts at
0 and is only ever incremented here, so it is a natural number for the first `2^63`
calls. -/
def RoundRobinStrategy.Select (counter : Nat) (channels : List ChannelWithMetrics) :
    Option Channel × Nat :=
  if channels.length = 0 then (none, counter)
  else
    let index := counter % channels.length
    ((channels.get? index).map (fun ch => ch.Channel), counter + 1)

/-! ## `pkg/router/engine.go` -/

/-- The mutable parts of `Engine`: the strategy instances held by the factory (only two
of them carry state) and the default strategy. -/
structure Engine where
  wrr : WRRState
  counter : Nat
  defaultStrategy : String

/-- Go function `NewEngine()`. -/
def NewEngine : Engine :=
  { wrr := WRRState.empty, counter := 0, defaultStrategy := StrategyPriority }

/-- Go method `StrategyFactory.GetStrategy`: the name of the strategy instance that is returned. -/
def GetStrategy (strategyType : String) : String :=
  if strategyType = StrategyWeightRoundRobin ∨ strategyType = StrategyPriority ∨
      strategyType = StrategyLowestCost ∨ strategyType = StrategyLowestLatency ∨
      strategyType = StrategyRoundRobin then strategyType
  else StrategyPriority

/-- The call `strategyImpl.Select(channels)` for the strategy instance named `name`. -/
def Engine.runStrategy (e : Engine) (name : String) (rnd : Nat)
    (channels : List ChannelWithMetrics) : Option Channel × Engine :=
  if name = StrategyWeightRoundRobin then
    let r := WeightRoundRobinStrategy.Select e.wrr channels
    (r.1, { e with wrr := r.2 })
  else if name = StrategyLowestCost then (LowestCostStrategy.Select rnd channels, e)
  else if name = StrategyLowestLatency then (LowestLatencyStrategy.Select rnd channels, e)
  else if name = StrategyRoundRobin then
    let r := RoundRobinStrategy.Select e.counter channels
    (r.1, { e with counter := r.2 })
  else (PriorityStrategy.Select rnd channels, e)

/-- Go method `Engine.filterHealthyChannels`. -/
def filterHealthyChannels (db : DB) : List Channel → List Channel × DB
  | [] => ([], db)
  | ch :: rest =>
    if ch.Status = ChannelStatusEnabled then
      let r := IsChannelHealthy db ch.Id
      let rs := filterHealthyChannels r.2 rest
      (if r.1 then ch :: rs.1 else rs.1, rs.2)
    else filterHealthyChannels db rest

/-- Go method `Engine.filterUnknownChannels`. -/
def filterUnknownChannels (db : DB) : List Channel → List Channel × DB
  | [] => ([], db)
  | ch :: rest =>
    if ch.Status = ChannelStatusEnabled then
      let r := GetChannelHealth db ch.Id
      let rs := filterUnknownChannels r.2 rest
      match r.1 with
      | .ok health => (if health.Status = "unknown" then ch :: rs.1 else rs.1, rs.2)
      | .error _ => rs
    else filterUnknownChannels db rest

/-- Go method `Engine.loadChannelMetrics`. -/
def loadChannelMetrics (db : DB) : List Channel → List ChannelWithMetrics × DB
  | [] => ([], db)
  | ch :: rest =>
    let r := GetChannelHealth db ch.Id
    let rs := loadChannelMetrics r.2 rest
    match r.1 with
    | .error _ => rs
    | .ok health =>
      let totalRequests : Int := health.SuccessCount + health.FailureCount
      let successRate : ℚ :=
        if totalRequests > 0 then (health.SuccessCount : ℚ) / (totalRequests : ℚ) else 1
      ({ Channel := ch, AvgLatency := health.AvgLatency, Cost := 0, SuccessRate := successRate,
         Concurrent := 0, Status := health.Status } :: rs.1, rs.2)

/-- Go method `Engine.SelectChannel` from step 3 on (metrics, strategy, result), for the channels
that passed the health filter. -/
def Engine.selectAmong (e : Engine) (db : DB) (rnd : Nat) (elapsed : Int) (req : SelectRequest)
    (channels healthyChannels : List Channel) : Except String SelectResult × Engine × DB :=
  let m := loadChannelMetrics db healthyChannels
  let strategy := if req.Strategy = "" then e.defaultStrategy else req.Strategy
  let strategyImpl := GetStrategy strategy
  let sel := e.runStrategy strategyImpl rnd m.1
  match sel.1 with
  | none => (.error ("strategy " ++ strategy ++ " failed to select channel"), sel.2, m.2)
  | some selectedChannel =>
    (.ok { Channel := selectedChannel,
           Reason := "Selected by " ++ strategyImpl ++ " strategy",
           CandidateCount := channels.length, DecisionTime := elapsed },
      sel.2, m.2)

/-- Go method `Engine.SelectChannel`.  `candidates` is what `e.getCandidateChannels(ctx, group,
model)` returns in the current state of the cache and the channel table, `rnd` the
value of the random source, `elapsed` the measured decision time. -/
def Engine.SelectChannel (e : Engine) (db : DB)
    (candidates : String → String → Except String (List Channel)) (rnd : Nat) (elapsed : Int)
    (req : SelectRequest) : Except String SelectResult × Engine × DB :=
  match candidates req.Group req.Model with
  | .error err => (.error ("failed to get candidate channels: " ++ err), e, db)
  | .ok channels =>
    if channels.length = 0 then
      (.error ("no available channels for group=" ++ req.Group ++ ", model=" ++ req.Model), e, db)
    else
      let healthy := filterHealthyChannels db channels
      if healthy.1.length = 0 then
        let unknown := filterUnknownChannels healthy.2 channels
        if unknown.1.length = 0 then
          (.error ("no healthy channels available for group=" ++ req.Group ++ ", model=" ++
            req.Model), e, unknown.2)
        else e.selectAmong unknown.2 rnd elapsed req channels unknown.1
      else e.selectAmong healthy.2 rnd elapsed req channels healthy.1

/-- Every entry of the map is stored under the id of its channel; this holds for the
empty map and is kept by every method of the strategy. -/
def WRRState.WellFormed (st : WRRState) : Prop :=
  ∀ id wc, st id = some wc → wc.Channel.Id = id

/-- The running weight stored for `id`, 0 when the map has no entry. -/
def WRRState.currentWeight (st : WRRState) (id : Int) : Int :=
  match st id with
  | some wc => wc.CurrentWeight
  | none => 0

/-- Every candidate is either unknown to the map or stored under its id with its static
weight as effective weight: the states met when a strategy serves one fixed candidate
list and receives no failure or success reports. -/
def WRRState.Tracks (st : WRRState) (channels : List ChannelWithMetrics) : Prop :=
  ∀ m ∈ channels, st m.Channel.Id = none ∨
    ∃ wc, st m.Channel.Id = some wc ∧ wc.EffectiveWeight = weightOf m ∧
      wc.Channel.Id = m.Channel.Id

/-- A run of `n` consecutive calls of `WeightRoundRobinStrategy.Select` with the same candidates:
the channels returned, in order, and the final state. -/
def WeightRoundRobinStrategy.selectN (st : WRRState) (channels : List ChannelWithMetrics) :
    Nat → List (Option Channel) × WRRState
  | 0 => ([], st)
  | n + 1 =>
    let r := WeightRoundRobinStrategy.Select st channels
    let rs := WeightRoundRobinStrategy.selectN r.2 channels n
    (r.1 :: rs.1, rs.2)

/-- How often the channel with id `id` occurs among returned channels. -/
def selectionCount (id : Int) (returned : List (Option Channel)) : Nat :=
  returned.countP (fun r => decide (r.map (fun c => c.Id) = some id))

/-- How often channel `id` is selected in the window of `N` consecutive `Select` calls that
follows the first `a` calls made on a new strategy, always with the candidates `channels`. -/
def windowCount (channels : List ChannelWithMetrics) (a N : Nat) (id : Int) : Nat :=
  selectionCount id
    (WeightRoundRobinStrategy.selectN
      (WeightRoundRobinStrategy.selectN WRRState.empty channels a).2 channels N).1

/-- The sum of the candidates' weights. -/
def totalWeightOf (channels : List ChannelWithMetrics) : Int :=
  (channels.map weightOf).sum

/-- The effective weight stored for `id`, 0 when the map has no entry. -/
def WRRState.effectiveWeight (st : WRRState) (id : Int) : Int :=
  match st id with
  | some wc => wc.EffectiveWeight
  | none => 0

/-- The running weight of `id` after the addition of its effective weight. -/
def WRRState.raised (st : WRRState) (id : Int) : Int :=
  st.currentWeight id + st.effectiveWeight id

/-- The invariant of the second loop of `Select` after the keys `P` have been visited,
relative to the map `st1` the loop started with. -/
def WRRLoop.Invariant (st1 : WRRState) (P : List Int) (acc : WRRLoop) : Prop :=
  (∀ id, acc.state id = if id ∈ P then (st1 id).map bump else st1 id) ∧
  acc.totalWeight = (P.map st1.effectiveWeight).sum ∧
  (P = [] → acc.selected = none) ∧
  (P ≠ [] → ∃ sid ∈ P, acc.selected = some sid ∧ ∀ id ∈ P, st1.raised id ≤ st1.raised sid) ∧
  (∀ id ∈ P, (st1 id).isSome = true)

/-- The states a strategy goes through while it serves one fixed candidate list: the
candidates are tracked with their static weights, the running weights add up to zero,
and each of them is above minus the total weight. -/
def WRRState.Balanced (st : WRRState) (channels : List ChannelWithMetrics) : Prop :=
  st.Tracks channels ∧
  (channels.map (fun m => st.currentWeight m.Channel.Id)).sum = 0 ∧
  ∀ m ∈ channels, - totalWeightOf channels < st.currentWeight m.Channel.Id

/-- A candidate for examples: channel `id` with the given weight and priority and no
recorded traffic. -/
def sampleCandidate (id : Int) (weight : Option Nat) (priority : Option Int) :
    ChannelWithMetrics :=
  { Channel := { Id := id, Name := "", Status := ChannelStatusEnabled, Weight := weight,
                 Priority := priority },
    AvgLatency := 0, Cost := 0, SuccessRate := 1, Concurrent := 0, Status := "unknown" }

/-! ## `model/call_metadata.go` -/

/-- Go function `InsertCallMetadata`: `DB.Create`, which assigns the primary key and the creation
time (`autoCreateTime:milli`). -/
def InsertCallMetadata (db : DB) (mta : CallMetadata) : Option String × DB :=
  if db.failing then (some "database error", db)
  else
    (none, { db with
      metadata := db.metadata ++
        [{ mta with ID := (db.metadata.length : Int) + 1, CreatedAt := db.now * 1000 }] })

/-! ## `controller/relay.go`: the dispatch loop -/

/-- Go type `relay/model.ErrorWithStatusCode` (the embedded `Error` flattened; `Code` already
formatted with `%v`). -/
structure ErrorWithStatusCode where
  Message : String
  Typ : String
  Param : String
  Code : String
  StatusCode : Int
deriving DecidableEq, Repr

/-- What one call of `relayHelper` yields: the upstream error (`none` is `nil`), the
measured duration in milliseconds, and whether the response body has been written. -/
structure Outcome where
  err : Option ErrorWithStatusCode
  latencyMs : Int
  written : Bool
deriving DecidableEq, Repr

/-- The collaborators of `Relay` that live outside the dispatch loop.  The upstream and
the random channel picker are indexed by the number of calls made so far, so that any
behaviour over time can be expressed. -/
structure Env where
  /-- The option `config.RetryTimes`. -/
  RetryTimes : Int
  /-- The result of `helper.GenRequestID()`. -/
  GenRequestID : String
  /-- The `k`-th upstream call (`relayHelper`), made with the given context. -/
  relayHelper : Nat → Context → Outcome
  /-- The `k`-th call of `model.CacheGetRandomSatisfiedChannel(group, model, ignoreFirstPriority)`. -/
  CacheGetRandomSatisfiedChannel : Nat → String → String → Bool → Except String Channel
  /-- The function `middleware.SetupContextForSelectedChannel(c, channel, modelName)`. -/
  SetupContextForSelectedChannel : Context → Channel → String → Context
  /-- The function `helper.MessageWithRequestId`. -/
  MessageWithRequestId : String → String → String

/-- One upstream invocation as seen by `Relay`: the channel the call was dispatched to,
the attempt number recorded for it, and the status the upstream answered with (`none` for
success). -/
structure Dispatch where
  channelId : Int
  attempt : Int
  status : Option Int
deriving DecidableEq, Repr

/-- Go function `logCallMetadata`. -/
def logCallMetadata (c : Context) (db : DB) (generationID : String) (attempt latency : Int)
    (bizErr : Option ErrorWithStatusCode) : DB :=
  let status : Int := match bizErr with
    | some e => e.StatusCode
    | none => 200
  let mta : CallMetadata :=
    { ID := 0, GenerationID := generationID, RequestID := c.RequestId, UserID := c.Id,
      TokenID := c.TokenId, ChannelID := c.ChannelId, Model := c.OriginalModel,
      APIPath := c.Path, IsStream := c.IsStream, StatusCode := status, LatencyMs := latency,
      PromptTokens := c.PromptTokens, CompletionTokens := c.CompletionTokens,
      Attempt := attempt, CreatedAt := 0 }
  (InsertCallMetadata db mta).2

/-- Everything `Relay` reads and writes while it runs. -/
structure RelayState where
  c : Context
  db : DB
  headers : List (String × String)
  /-- Upstream invocations so far, oldest first. -/
  dispatched : List Dispatch
  /-- Number of calls of the channel picker so far. -/
  picks : Nat
  /-- The arguments of the `processChannelRelayError` tasks started so far. -/
  spawned : List (Int × String × ErrorWithStatusCode)
  /-- The arguments of the `monitor.Emit` calls so far. -/
  emitted : List (Int × Bool)
  bizErr : Option ErrorWithStatusCode
  lastLatency : Int
  lastFailedChannelId : Int
  /-- The flag `c.Writer.Written()`. -/
  written : Bool
  /-- Whether the handler has executed `return`. -/
  returned : Bool
  /-- The body written by `c.JSON`, if any: status and error object. -/
  response : Option (Int × ErrorWithStatusCode)

/-- The start of a request: the context and database handed to `Relay`. -/
def RelayState.init (c : Context) (db : DB) : RelayState :=
  { c := c, db := db, headers := [], dispatched := [], picks := 0, spawned := [], emitted := [],
    bizErr := none, lastLatency := 0, lastFailedChannelId := 0, written := false,
    returned := false, response := none }

/-- Body of the retry loop of `Relay` from `SetupContextForSelectedChannel` to
`logCallMetadata`: dispatch the request to the freshly selected `channel` and record the
attempt.  `i` is the loop variable. -/
def retryDispatch (env : Env) (generationID originalModel : String) (retryTimes i : Int)
    (channel : Channel) (s : RelayState) : RelayState :=
  let c := env.SetupContextForSelectedChannel s.c channel originalModel
  let headers := s.headers ++ [("X-OneAPI-Channel", toString channel.Id)]
  let headers :=
    if channel.Name ≠ "" then headers ++ [("X-OneAPI-Channel-Name", channel.Name)] else headers
  let out := env.relayHelper s.dispatched.length c
  let retryLatency := out.latencyMs
  let attempt := retryTimes - i + 1
  let db := logCallMetadata c s.db generationID attempt retryLatency out.err
  { s with
    c := c, headers := headers, db := db, bizErr := out.err, lastLatency := retryLatency,
    written := s.written || out.written,
    dispatched := s.dispatched ++
      [{ channelId := channel.Id, attempt := attempt,
         status := out.err.map (fun e => e.StatusCode) }] }

/-- Body of the retry loop after a successful retry: health update, latency header,
`return`. -/
def retrySucceeded (channel : Channel) (s : RelayState) : RelayState :=
  let db := (OnRequestSuccess s.db channel.Id s.lastLatency).2
  let headers :=
    if ¬ s.written then s.headers ++ [("X-OneAPI-Latency-Ms", toString s.lastLatency)]
    else s.headers
  { s with db := db, headers := headers, returned := true }

/-- Body of the retry loop after a failed retry: remember the failed channel, update its
health, start the error-processing task. -/
def retryFailed (bizErr : ErrorWithStatusCode) (s : RelayState) : RelayState :=
  let channelId := s.c.ChannelId
  let channelName := s.c.ChannelName
  let db := (OnRequestFailure s.db channelId bizErr.Code).2
  { s with
    lastFailedChannelId := channelId, db := db,
    spawned := s.spawned ++ [(channelId, channelName, bizErr)] }

/-- The `for i := retryTimes; i > 0; i--` loop of `Relay`; the first argument is the
current value of `i`. -/
def retryLoop (env : Env) (generationID : String) (group originalModel : String)
    (retryTimes : Int) : Nat → RelayState → RelayState
  | 0, s => s
  | n + 1, s =>
    let i : Int := (n : Int) + 1
    let picked := env.CacheGetRandomSatisfiedChannel s.picks group originalModel
      (decide (i ≠ retryTimes))
    let s : RelayState := { s with picks := s.picks + 1 }
    match picked with
    | .error _ => s
    | .ok channel =>
      if channel.Id = s.lastFailedChannelId then
        retryLoop env generationID group originalModel retryTimes n s
      else
        let s := retryDispatch env generationID originalModel retryTimes i channel s
        match s.bizErr with
        | none => retrySucceeded channel s
        | some bizErr =>
          retryLoop env generationID group originalModel retryTimes n (retryFailed bizErr s)

/-- Go function `Relay` up to the first `logCallMetadata`: headers, first upstream call, its record. -/
def firstAttempt (env : Env) (c : Context) (db : DB) : RelayState :=
  let s := RelayState.init c db
  let generationID := env.GenRequestID
  let headers := s.headers ++ [("X-OneAPI-Generation-Id", generationID)]
  let channelId := c.ChannelId
  let channelName := c.ChannelName
  let headers :=
    if channelId ≠ 0 then headers ++ [("X-OneAPI-Channel", toString channelId)] else headers
  let headers :=
    if channelName ≠ "" then headers ++ [("X-OneAPI-Channel-Name", channelName)] else headers
  let out := env.relayHelper s.dispatched.length c
  let latency := out.latencyMs
  let db := logCallMetadata c db generationID 0 latency out.err
  { s with
    headers := headers, db := db, bizErr := out.err, lastLatency := latency,
    written := s.written || out.written,
    dispatched := s.dispatched ++
      [{ channelId := channelId, attempt := 0, status := out.err.map (fun e => e.StatusCode) }] }

/-- Go function `Relay` after a successful first attempt. -/
def firstSucceeded (channelId : Int) (s : RelayState) : RelayState :=
  let db := if channelId ≠ 0 then (OnRequestSuccess s.db channelId s.lastLatency).2 else s.db
  let headers :=
    if ¬ s.written then s.headers ++ [("X-OneAPI-Latency-Ms", toString s.lastLatency)]
    else s.headers
  { s with db := db, headers := headers, emitted := s.emitted ++ [(channelId, true)],
           returned := true }

/-- Go function `Relay` after a failed first attempt, up to the retry decision. -/
def firstFailed (channelId : Int) (channelName : String) (bizErr : ErrorWithStatusCode)
    (s : RelayState) : RelayState :=
  let db := if channelId ≠ 0 then (OnRequestFailure s.db channelId bizErr.Code).2 else s.db
  { s with
    db := db, lastFailedChannelId := channelId,
    spawned := s.spawned ++ [(channelId, channelName, bizErr)] }

/-- The final `if bizErr != nil` block of `Relay`. -/
def respondError (env : Env) (requestId : String) (s : RelayState) : RelayState :=
  match s.bizErr with
  | none => s
  | some bizErr =>
    let headers :=
      if ¬ s.written then s.headers ++ [("X-OneAPI-Latency-Ms", toString s.lastLatency)]
      else s.headers
    let message :=
      if bizErr.StatusCode = 429 then "当前分组上游负载已饱和，请稍后再试" else bizErr.Message
    let bizErr : ErrorWithStatusCode :=
      { bizErr with Message := env.MessageWithRequestId message requestId }
    { s with headers := headers, response := some (bizErr.StatusCode, bizErr) }

/-- The retry budget `Relay` enters its loop with. -/
def retryBudget (env : Env) (c : Context) (bizErr : ErrorWithStatusCode) : Int :=
  if ¬ shouldRetry c bizErr.StatusCode then 0 else env.RetryTimes

/-- Go function `Relay`. -/
def Relay (env : Env) (c : Context) (db : DB) : RelayState :=
  let channelId := c.ChannelId
  let channelName := c.ChannelName
  let s := firstAttempt env c db
  match s.bizErr with
  | none => firstSucceeded channelId s
  | some bizErr =>
    let s := firstFailed channelId channelName bizErr s
    let group := c.Group
    let originalModel := c.OriginalModel
    let requestId := c.RequestId
    let retryTimes := retryBudget env c bizErr
    let s := retryLoop env env.GenRequestID group originalModel retryTimes retryTimes.toNat s
    if s.returned then s else respondError env requestId s

/-- A context for examples: user 1 of group "default" asking for model "m" on channel
`channelId`, no channel pinned. -/
def sampleContext (channelId : Int) : Context :=
  { ChannelId := channelId, ChannelName := "", SpecificChannelId := none, Id := 1, TokenId := 1,
    Group := "default", OriginalModel := "m", RequestId := "r", Path := "/v1/chat/completions",
    IsStream := false, PromptTokens := 0, CompletionTokens := 0 }

/-- An enabled channel for examples. -/
def sampleChannel (id : Int) : Channel :=
  { Id := id, Name := "", Status := ChannelStatusEnabled, Weight := none, Priority := none }

/-- An upstream error for examples. -/
def sampleError (status : Int) : ErrorWithStatusCode :=
  { Message := "upstream error", Typ := "upstream_error", Param := "", Code := "e",
    StatusCode := status }

/-- An environment for examples: the upstream answers its `k`-th call with the `k`-th
status of `statuses` (success when there is none, or when the status is 200), the
picker returns the channels with ids `picks` in turn, and the context set-up stores the
selected channel's id and name. -/
def sampleEnv (retryTimes : Int) (statuses : List Int) (picks : List Int) : Env :=
  { RetryTimes := retryTimes
    GenRequestID := "g"
    relayHelper := fun k _ =>
      match statuses.get? k with
      | some st => if st = 200 then ⟨none, 10, false⟩ else ⟨some (sampleError st), 10, false⟩
      | none => ⟨none, 10, false⟩
    CacheGetRandomSatisfiedChannel := fun k _ _ _ =>
      match picks.get? k with
      | some id => .ok (sampleChannel id)
      | none => .error "no channel"
    SetupContextForSelectedChannel := fun c ch _ =>
      { c with ChannelId := ch.Id, ChannelName := ch.Name }
    MessageWithRequestId := fun m r => m ++ " (request id: " ++ r ++ ")" }

/-! ## Sweeper, call sequences and invariants used by the later theorems -/

/-- Modelled from the spec: the function `model.GetAllChannels(0, 0, "all")`, which reads
every row of the channel table; it fails when the database does. -/
def GetAllChannels (db : DB) (table : List Channel) : Except String (List Channel) :=
  if db.failing then .error "database error" else .ok table

/-- Modelled from the spec: the function `model.UpdateChannelStatusById`, which marks
the channel with the given id with the given status (`disable_channel(id, reason =
"auto")` for the auto-disabled status). -/
def UpdateChannelStatusById (table : List Channel) (id : Int) (status : Int) : List Channel :=
  table.map (fun ch => if ch.Id = id then { ch with Status := status } else ch)

/-- Body of the loop `for _, channel := range channels` of `performHealthCheck`; the state
is the database and the channel table. -/
def healthCheckChannel (st : DB × List Channel) (channel : Channel) : DB × List Channel :=
  if channel.Status ≠ ChannelStatusEnabled then st
  else
    let r := GetChannelHealth st.1 channel.Id
    match r.1 with
    | .error _ => (r.2, st.2)
    | .ok health =>
      let stale : Bool := decide (r.2.now - health.UpdatedAt > 300)
      let health := if stale then { health with Status := "unknown" } else health
      let db := if stale then (UpdateChannelHealth r.2 health).2 else r.2
      if health.Status = "unhealthy" ∧ health.ConsecutiveFails ≥ 5 then
        (db, UpdateChannelStatusById st.2 channel.Id ChannelStatusAutoDisabled)
      else (db, st.2)

/-- Go function `performHealthCheck`: one pass of the sweeper over the channel table. -/
def performHealthCheck (db : DB) (table : List Channel) : DB × List Channel :=
  match GetAllChannels db table with
  | .error _ => (db, table)
  | .ok channels => channels.foldl healthCheckChannel (db, table)

/-- A health row for examples. -/
def sampleHealth (id : Int) (status : String) (consecutiveFails updatedAt : Int) :
    ChannelHealth :=
  { ChannelID := id, SuccessCount := 0, FailureCount := consecutiveFails,
    ConsecutiveFails := consecutiveFails, LastSuccessAt := 0, LastFailureAt := updatedAt,
    AvgLatency := 0, Status := status, UpdatedAt := updatedAt }

/-- A reachable database for examples, with the given health rows at clock reading `now`. -/
def sampleDB (now : Int) (rows : List ChannelHealth) : DB :=
  { health := rows, metadata := [], now := now, failing := false }

/-- The facts about the telemetry rows and the attempt numbers of one request that hold
from the first upstream call on: the inserts succeed, the rows written for the request are
appended to `pre` and mirror the upstream invocations, the first invocation has attempt 0,
attempt numbers increase, the invocation at position `k` has an attempt number between
`k` and the number of picker calls, and at most `rt` picker calls were made. -/
def RelayState.Logged (s : RelayState) (g : String) (pre : List CallMetadata) (rt : Int) :
    Prop :=
  s.db.failing = false ∧
  (∃ rows : List CallMetadata, s.db.metadata = pre ++ rows ∧
    rows.map (fun r => (r.GenerationID, r.Attempt)) =
      s.dispatched.map (fun d => (g, d.attempt))) ∧
  (∃ d rest, s.dispatched = d :: rest ∧ d.attempt = 0) ∧
  (s.dispatched.map (fun d => d.attempt)).Pairwise (fun a b => a < b) ∧
  (∀ (k : Nat) (d : Dispatch), s.dispatched[k]? = some d →
    (k : Int) ≤ d.attempt ∧ d.attempt + ((s.dispatched.length : Int) - 1 - k) ≤ s.picks) ∧
  (s.picks : Int) ≤ rt

/-- One call made to a `WeightRoundRobinStrategy`. -/
inductive WRROp where
  | select (channels : List ChannelWithMetrics)
  | failed (channelID : Int)
  | success (channelID : Int)

/-- The state of the strategy after one call. -/
def applyWRROp (st : WRRState) : WRROp → WRRState
  | .select channels => (WeightRoundRobinStrategy.Select st channels).2
  | .failed channelID => WeightRoundRobinStrategy.OnChannelFailed st channelID
  | .success channelID => WeightRoundRobinStrategy.OnChannelSuccess st channelID

/-- The state of the strategy after a sequence of calls, oldest first. -/
def applyWRROps (st : WRRState) (ops : List WRROp) : WRRState :=
  ops.foldl applyWRROp st

/-- The effective weight of an entry with static weight at least 1 lies between 1 and the
static weight. -/
def WeightedChannel.Clamped (wc : WeightedChannel) : Prop :=
  1 ≤ wc.Weight → 1 ≤ wc.EffectiveWeight ∧ wc.EffectiveWeight ≤ wc.Weight

/-- A run of `n` consecutive calls of `RoundRobinStrategy.Select` with the same
candidates: the channels returned, in order, and the final counter. -/
def RoundRobinStrategy.selectN (counter : Nat) (channels : List ChannelWithMetrics) :
    Nat → List (Option Channel) × Nat
  | 0 => ([], counter)
  | n + 1 =>
    let r := RoundRobinStrategy.Select counter channels
    let rs := RoundRobinStrategy.selectN r.2 channels n
    (r.1 :: rs.1, rs.2)

/-! ## Event counts -/

/-- Number of success reports in a sequence of events. -/
def successCountOf (events : List HealthEvent) : Nat :=
  events.countP (fun e => !e.isFailure)

/-- Number of failure reports in a sequence of events. -/
def failureCountOf (events : List HealthEvent) : Nat :=
  events.countP HealthEvent.isFailure

/-! ## `pkg/router/cache.go` -/

/-- The local cache `lru.Cache[string, []*model.Channel]` of capacity 1000: its entries,
most recently used first. -/
abbrev LRU := List (String × List Channel)

/-- The capacity `NewChannelCache` creates the local cache with. -/
def lruSize : Nat := 1000

/-- Method `Get` of the LRU cache: a hit moves the entry to the front. -/
def LRU.Get (l : LRU) (key : String) : Option (List Channel) × LRU :=
  match l.find? (fun e => e.1 == key) with
  | some e => (some e.2, e :: l.filter (fun x => !(x.1 == key)))
  | none => (none, l)

/-- Method `Add` of the LRU cache: the entry becomes the most recently used one and the
oldest entry is evicted when the capacity is exceeded. -/
def LRU.Add (l : LRU) (key : String) (value : List Channel) : LRU :=
  let l := (key, value) :: l.filter (fun x => !(x.1 == key))
  if l.length > lruSize then l.dropLast else l

/-- Method `Purge` of the LRU cache. -/
def LRU.Purge (_l : LRU) : LRU := []

/-- The shared key-value store behind `common.RDB` together with the switch
`common.RedisEnabled`: the entries with their expiry times, the reading of the clock, and
whether commands currently fail. -/
structure Redis where
  enabled : Bool
  entries : List (String × String × Int)
  now : Int
  failing : Bool

/-- The command `RDB.Get(ctx, key).Result()`: the value of a live entry, or an error
(`redis.Nil` for a missing key). -/
def Redis.Get (r : Redis) (key : String) : Except String String :=
  if r.failing then .error "redis error"
  else
    match r.entries.find? (fun e => e.1 == key && decide (r.now < e.2.2)) with
    | some e => .ok e.2.1
    | none => .error "redis: nil"

/-- The command `RDB.Set(ctx, key, data, ttl)`; a failed command changes nothing. -/
def Redis.Set (r : Redis) (key data : String) (ttl : Int) : Redis :=
  if r.failing then r
  else { r with entries := (key, data, r.now + ttl) :: r.entries.filter (fun e => !(e.1 == key)) }

/-- Whether a key matches the glob pattern `router:channels:*`, that is, starts with
`router:channels:`. -/
def matchesRouterChannels (key : String) : Bool :=
  decide (List.IsPrefix "router:channels:".data key.data)

/-- The loop of `Invalidate` over `RDB.Scan(ctx, 0, "router:channels:*", 0).Iterator()`:
every key the scan yields is deleted; when the commands fail the scan yields nothing
and the error is only logged. -/
def Redis.scanDel (r : Redis) : Redis :=
  if r.failing then r
  else { r with entries := r.entries.filter (fun e => !matchesRouterChannels e.1) }

/-- What `ChannelCache.GetChannels` needs from outside the cache: the source of truth
`model.GetSatisfiedChannels` and the JSON encoding of a channel list. -/
structure CacheEnv where
  GetSatisfiedChannels : String → String → Except String (List Channel)
  /-- The function `json.Marshal` on `[]*model.Channel`. -/
  marshal : List Channel → Except String String
  /-- The function `json.Unmarshal` into `[]*model.Channel`. -/
  unmarshal : String → Except String (List Channel)

/-- Go type `ChannelCache` with the state it works on: the local LRU cache, the shared
store, and the calls of `model.GetSatisfiedChannels` made so far (group and model). -/
structure ChannelCache where
  localCache : LRU
  redis : Redis
  queries : List (String × String)

/-- The state of `NewChannelCache()` next to a given shared store. -/
def NewChannelCache (redis : Redis) : ChannelCache :=
  { localCache := [], redis := redis, queries := [] }

/-- The cache key `fmt.Sprintf("%s:%s", group, modelName)`. -/
def cacheKey (group modelName : String) : String := group ++ ":" ++ modelName

/-- Go method `ChannelCache.writeToCache`. -/
def ChannelCache.writeToCache (env : CacheEnv) (c : ChannelCache) (key : String)
    (channels : List Channel) : ChannelCache :=
  let c := { c with localCache := c.localCache.Add key channels }
  if c.redis.enabled then
    let redisKey := "router:channels:" ++ key
    match env.marshal channels with
    | .ok data => { c with redis := c.redis.Set redisKey data 60 }
    | .error _ => c
  else c

/-- Go method `ChannelCache.GetChannels`. -/
def ChannelCache.GetChannels (env : CacheEnv) (c : ChannelCache) (group modelName : String) :
    Except String (List Channel) × ChannelCache :=
  let key := cacheKey group modelName
  match c.localCache.Get key with
  | (some channels, l) => (.ok channels, { c with localCache := l })
  | (none, _) =>
    let cached : Option (List Channel) :=
      if c.redis.enabled then
        match c.redis.Get ("router:channels:" ++ key) with
        | .ok data =>
          match env.unmarshal data with
          | .ok channels => some channels
          | .error _ => none
        | .error _ => none
      else none
    match cached with
    | some channels => (.ok channels, { c with localCache := c.localCache.Add key channels })
    | none =>
      let c := { c with queries := c.queries ++ [(group, modelName)] }
      match env.GetSatisfiedChannels group modelName with
      | .error err => (.error err, c)
      | .ok channels => (.ok channels, c.writeToCache env key channels)

/-- Go method `ChannelCache.Invalidate`. -/
def ChannelCache.Invalidate (c : ChannelCache) (_channelID : Int) : ChannelCache :=
  let c := { c with localCache := c.localCache.Purge }
  if c.redis.enabled then { c with redis := c.redis.scanDel } else c

/-! ## Entries of the weighted round-robin map -/

/-- The entry `WeightRoundRobinStrategy.Select` works with for a candidate: the one stored
under the candidate's id, or the one it creates when there is none. -/
def WRRState.entry (st : WRRState) (m : ChannelWithMetrics) : WeightedChannel :=
  (st m.Channel.Id).getD (newWeightedChannel m)

/-- The running weight of a candidate after the addition of its effective weight. -/
def WRRState.raisedOf (st : WRRState) (m : ChannelWithMetrics) : Int :=
  (st.entry m).CurrentWeight + (st.entry m).EffectiveWeight

/-- The sum of the candidates' effective weights. -/
def WRRState.totalOf (st : WRRState) (channels : List ChannelWithMetrics) : Int :=
  (channels.map (fun m => (st.entry m).EffectiveWeight)).sum

/-! ## Slices of `LowestLatencyStrategy.Select` -/

/-- The two slices a call of `LowestLatencyStrategy.Select` works on: the argument
`channels`, whose backing array the caller keeps using, and the local slice `sorted`
(`nil` before the `make`). -/
structure SelectSlices where
  channels : List ChannelWithMetrics
  sorted : List ChannelWithMetrics
deriving DecidableEq

/-- The statements `sorted := make([]*ChannelWithMetrics, len(channels))` and
`copy(sorted, channels)`: a new backing array that holds the elements of `channels` in
the same order. -/
def SelectSlices.makeCopy (mem : SelectSlices) : SelectSlices :=
  { mem with sorted := mem.channels }

/-- The statement `sort.Slice(sorted, less)` with `less` comparing `AvgLatency`: the slice
`sorted` is sorted in place, no other slice is written. -/
def SelectSlices.sortSorted (mem : SelectSlices) : SelectSlices :=
  { mem with sorted := sortSlice (fun ch => ch.AvgLatency) mem.sorted }

/-- Go method `LowestLatencyStrategy.Select` statement by statement, with the slices it
reads and writes as explicit state: the returned channel and the contents of the slices
when the method returns. -/
def LowestLatencyStrategy.selectSlices (rnd : Nat) (channels : List ChannelWithMetrics) :
    Option Channel × SelectSlices :=
  let mem : SelectSlices := { channels := channels, sorted := [] }
  if mem.channels.length = 0 then (none, mem)
  else
    let mem := mem.makeCopy
    let mem := mem.sortSorted
    let topN := min 3 mem.sorted.length
    ((mem.sorted.get? (rnd % topN)).map (fun ch => ch.Channel), mem)

/-- A candidate for examples: channel `id` with the given average latency. -/
def sampleLatency (id latency : Int) : ChannelWithMetrics :=
  { sampleCandidate id none none with AvgLatency := latency }

/-! ## Picker calls and telemetry rows of a request -/

theorem find_map_replace_ne (rows : List ChannelHealth) (h : ChannelHealth) (id : Int)
    (hid : ¬ h.ChannelID = id) :
    (rows.map (fun r => if r.ChannelID == h.ChannelID then h else r)).find?
        (fun r => r.ChannelID == id) = rows.find? (fun r => r.ChannelID == id) := by
  induction rows with
  | nil => rfl
  | cons r rs ih =>
    rw [List.map_cons]
    by_cases hr : r.ChannelID = h.ChannelID
    · have hrid : ¬ r.ChannelID = id := by rw [hr]; exact hid
      rw [if_pos (by simpa using hr), List.find?_cons_of_neg _ (by simpa using hid),
        List.find?_cons_of_neg _ (by simpa using hrid)]
      exact ih
    · rw [if_neg (by simpa using hr)]
      by_cases hrid : r.ChannelID = id
      · rw [List.find?_cons_of_pos _ (by simpa using hrid),
          List.find?_cons_of_pos _ (by simpa using hrid)]
      · rw [List.find?_cons_of_neg _ (by simpa using hrid),
          List.find?_cons_of_neg _ (by simpa using hrid)]
        exact ih

theorem find_map_replace_eq (rows : List ChannelHealth) (h : ChannelHealth)
    (hany : rows.any (fun r => r.ChannelID == h.ChannelID) = true) :
    (rows.map (fun r => if r.ChannelID == h.ChannelID then h else r)).find?
        (fun r => r.ChannelID == h.ChannelID) = some h := by
  induction rows with
  | nil => simp at hany
  | cons r rs ih =>
    rw [List.map_cons]
    by_cases hr : r.ChannelID = h.ChannelID
    · rw [if_pos (by simpa using hr), List.find?_cons_of_pos _ (by simp)]
    · rw [if_neg (by simpa using hr), List.find?_cons_of_neg _ (by simpa using hr)]
      apply ih
      simpa [hr] using hany

theorem find_saveRow (rows : List ChannelHealth) (h : ChannelHealth) (id : Int) :
    (saveRow rows h).find? (fun r => r.ChannelID == id) =
      if h.ChannelID = id then some h else rows.find? (fun r => r.ChannelID == id) := by
  unfold saveRow
  by_cases hany : rows.any (fun r => r.ChannelID == h.ChannelID) = true
  · rw [if_pos hany]
    by_cases hid : h.ChannelID = id
    · rw [if_pos hid, ← hid]
      exact find_map_replace_eq rows h hany
    · rw [if_neg hid]
      exact find_map_replace_ne rows h id hid
  · rw [if_neg hany]
    have hnone : ∀ x ∈ rows, ¬ x.ChannelID = h.ChannelID := by simpa using hany
    rw [List.find?_append]
    by_cases hid : h.ChannelID = id
    · have : rows.find? (fun r => r.ChannelID == id) = none := by
        rw [List.find?_eq_none]
        intro x hx
        simpa [← hid] using hnone x hx
      rw [this, if_pos hid]
      simp [hid]
    · rw [if_neg hid, List.find?_cons_of_neg _ (by simpa using hid)]
      simp

theorem findHealth_channelID {db : DB} {id : Int} {h : ChannelHealth}
    (hf : db.findHealth id = some h) : h.ChannelID = id := by
  have := List.find?_some hf
  simpa using this

theorem readHealth_channelID (db : DB) (id : Int) : (db.readHealth id).ChannelID = id := by
  unfold DB.readHealth
  cases hf : db.findHealth id with
  | none => simp [newHealthRow]
  | some h => simpa using findHealth_channelID hf

theorem GetChannelHealth_failing {db : DB} (hfail : db.failing = true) (id : Int) :
    GetChannelHealth db id = (.error "database error", db) := by
  simp [GetChannelHealth, hfail]

theorem GetChannelHealth_fst {db : DB} (hok : db.failing = false) (id : Int) :
    (GetChannelHealth db id).1 = .ok (db.readHealth id) := by
  unfold GetChannelHealth DB.readHealth
  cases hf : db.findHealth id <;> simp [hok]

theorem GetChannelHealth_now (db : DB) (id : Int) : (GetChannelHealth db id).2.now = db.now := by
  unfold GetChannelHealth
  cases hf : db.findHealth id <;> cases hfail : db.failing <;> simp

theorem GetChannelHealth_failing_eq (db : DB) (id : Int) :
    (GetChannelHealth db id).2.failing = db.failing := by
  unfold GetChannelHealth
  cases hf : db.findHealth id <;> cases hfail : db.failing <;> simp [hfail]

/-- Reading a row never changes what any later read returns. -/
theorem GetChannelHealth_readHealth (db : DB) (id id2 : Int) :
    (GetChannelHealth db id).2.readHealth id2 = db.readHealth id2 := by
  unfold GetChannelHealth
  cases hfail : db.failing
  · cases hf : db.findHealth id with
    | some h => simp
    | none =>
      simp only [Bool.false_eq_true, if_false, DB.readHealth, DB.findHealth]
      rw [List.find?_append]
      simp only [DB.findHealth] at hf
      by_cases hid : id = id2
      · subst hid
        simp [hf, newHealthRow]
      · cases hf2 : db.health.find? (fun r => r.ChannelID == id2) with
        | some h2 => simp
        | none => simp [newHealthRow, hid]
  · simp

theorem UpdateChannelHealth_findHealth {db : DB} (hok : db.failing = false)
    (h : ChannelHealth) (id : Int) :
    (UpdateChannelHealth db h).2.findHealth id =
      if h.ChannelID = id then some { h with UpdatedAt := db.now } else db.findHealth id := by
  simp only [UpdateChannelHealth, hok, Bool.false_eq_true, if_false, DB.findHealth]
  exact find_saveRow db.health { h with UpdatedAt := db.now } id

theorem GetChannelHealth_snd_findHealth_ne (db : DB) {id id2 : Int} (hne : ¬ id = id2) :
    (GetChannelHealth db id).2.findHealth id2 = db.findHealth id2 := by
  unfold GetChannelHealth
  cases hfail : db.failing
  · cases hf : db.findHealth id with
    | some h => simp
    | none =>
      simp only [Bool.false_eq_true, if_false, DB.findHealth]
      rw [List.find?_append]
      cases hf2 : db.health.find? (fun r => r.ChannelID == id2) with
      | some h2 => simp
      | none => simp [newHealthRow, hne]
  · simp

/-- What `OnRequestFailure` leaves in the table for the channel it was called for. -/
theorem OnRequestFailure_findHealth {db : DB} (hok : db.failing = false) (id : Int)
    (code : String) :
    (OnRequestFailure db id code).2.findHealth id =
      some { failureUpdate db.now (db.readHealth id) with UpdatedAt := db.now } := by
  have h1 := GetChannelHealth_fst hok id
  have h2 := GetChannelHealth_now db id
  have h3 := GetChannelHealth_failing_eq db id
  unfold OnRequestFailure
  rcases hg : GetChannelHealth db id with ⟨r, db1⟩
  rw [hg] at h1 h2 h3
  simp only at h1 h2 h3
  subst h1
  simp only
  rw [UpdateChannelHealth_findHealth (by rw [h3, hok]), h2, if_pos]
  simp [failureUpdate, readHealth_channelID]
  split <;> split <;> try split
  all_goals simp [readHealth_channelID]

/-- What `OnRequestSuccess` leaves in the table for the channel it was called for. -/
theorem OnRequestSuccess_findHealth {db : DB} (hok : db.failing = false) (id latency : Int) :
    (OnRequestSuccess db id latency).2.findHealth id =
      some { successUpdate db.now latency (db.readHealth id) with UpdatedAt := db.now } := by
  have h1 := GetChannelHealth_fst hok id
  have h2 := GetChannelHealth_now db id
  have h3 := GetChannelHealth_failing_eq db id
  unfold OnRequestSuccess
  rcases hg : GetChannelHealth db id with ⟨r, db1⟩
  rw [hg] at h1 h2 h3
  simp only at h1 h2 h3
  subst h1
  simp only
  rw [UpdateChannelHealth_findHealth (by rw [h3, hok]), h2, if_pos]
  simp only [successUpdate]
  split <;> split <;> try split
  all_goals try split
  all_goals simp [readHealth_channelID]

/-! ## Health store: the update rules -/

theorem failureUpdate_fields (now : Int) (h : ChannelHealth) :
    (failureUpdate now h).FailureCount = h.FailureCount + 1 ∧
    (failureUpdate now h).SuccessCount = h.SuccessCount ∧
    (failureUpdate now h).ConsecutiveFails = h.ConsecutiveFails + 1 ∧
    (failureUpdate now h).AvgLatency = h.AvgLatency := by
  simp only [failureUpdate]
  split <;> split <;> try split
  all_goals simp

theorem failureUpdate_status (now : Int) (h : ChannelHealth) :
    (failureUpdate now h).Status =
      if h.ConsecutiveFails + 1 ≥ 3 ∨
          (h.SuccessCount + (h.FailureCount + 1) ≥ 10 ∧
            ((h.FailureCount + 1 : Int) : ℚ) / ((h.SuccessCount + (h.FailureCount + 1) : Int) : ℚ)
              > 0.1)
      then "unhealthy" else h.Status := by
  simp only [failureUpdate]
  by_cases h3 : h.ConsecutiveFails + 1 ≥ 3
  · simp only [h3, if_true, true_or]
    split
    · split <;> rfl
    · rfl
  · simp only [h3, if_false, false_or]
    by_cases h10 : h.SuccessCount + (h.FailureCount + 1) ≥ 10
    · simp only [h10, if_true, true_and]
      split <;> rfl
    · simp only [h10, if_false, false_and]

theorem successUpdate_fields (now latency : Int) (h : ChannelHealth) :
    (successUpdate now latency h).SuccessCount = h.SuccessCount + 1 ∧
    (successUpdate now latency h).FailureCount = h.FailureCount ∧
    (successUpdate now latency h).ConsecutiveFails = 0 := by
  simp only [successUpdate]
  split <;> split <;> try split
  all_goals try split
  all_goals simp

theorem successUpdate_status (now latency : Int) (h : ChannelHealth) :
    (successUpdate now latency h).Status =
      if h.Status = "unhealthy" ∧ h.SuccessCount + 1 + h.FailureCount > 0 ∧
          ((h.SuccessCount + 1 : Int) : ℚ) / ((h.SuccessCount + 1 + h.FailureCount : Int) : ℚ) > 0.9
      then "healthy" else h.Status := by
  simp only [successUpdate, and_true]
  split_ifs <;> first | rfl | (exfalso; tauto)

theorem readHealth_setNow_consecutiveFails (db : DB) (t id : Int) :
    (({ db with now := t } : DB).readHealth id).ConsecutiveFails =
      (db.readHealth id).ConsecutiveFails := by
  simp only [DB.readHealth, DB.findHealth]
  cases db.health.find? (fun r => r.ChannelID == id) <;> simp [newHealthRow]

theorem readHealth_of_findHealth {db : DB} {id : Int} {h : ChannelHealth}
    (hf : db.findHealth id = some h) : db.readHealth id = h := by
  simp [DB.readHealth, hf]

theorem OnRequestFailure_failing (db : DB) (id : Int) (code : String) :
    (OnRequestFailure db id code).2.failing = db.failing := by
  have h3 := GetChannelHealth_failing_eq db id
  unfold OnRequestFailure
  rcases hg : GetChannelHealth db id with ⟨r, db1⟩
  rw [hg] at h3
  cases r with
  | error e => simpa using h3
  | ok h =>
    simp only [UpdateChannelHealth]
    split <;> simpa using h3

theorem OnRequestSuccess_failing (db : DB) (id latency : Int) :
    (OnRequestSuccess db id latency).2.failing = db.failing := by
  have h3 := GetChannelHealth_failing_eq db id
  unfold OnRequestSuccess
  rcases hg : GetChannelHealth db id with ⟨r, db1⟩
  rw [hg] at h3
  cases r with
  | error e => simpa using h3
  | ok h =>
    simp only [UpdateChannelHealth]
    split <;> simpa using h3

theorem applyHealthEvent_failing (id : Int) (db : DB) (e : HealthEvent) :
    (applyHealthEvent id db e).failing = db.failing := by
  cases e with
  | success now latency => simp [applyHealthEvent, OnRequestSuccess_failing]
  | failure now code => simp [applyHealthEvent, OnRequestFailure_failing]

theorem applyHealthEvents_failing (id : Int) (events : List HealthEvent) (db : DB) :
    (applyHealthEvents id db events).failing = db.failing := by
  induction events generalizing db with
  | nil => rfl
  | cons e es ih =>
    simp only [applyHealthEvents, List.foldl_cons] at ih ⊢
    rw [ih, applyHealthEvent_failing]

theorem applyHealthEvents_append (id : Int) (db : DB) (es : List HealthEvent) (e : HealthEvent) :
    applyHealthEvents id db (es ++ [e]) = applyHealthEvent id (applyHealthEvents id db es) e := by
  simp [applyHealthEvents, List.foldl_append]

theorem trailingFailures_append (es : List HealthEvent) (e : HealthEvent) :
    trailingFailures (es ++ [e]) = if e.isFailure then trailingFailures es + 1 else 0 := by
  simp only [trailingFailures, List.reverse_append, List.reverse_cons, List.reverse_nil,
    List.nil_append, List.singleton_append, List.takeWhile_cons]
  cases e.isFailure <;> simp

theorem applyHealthEvent_consecutiveFails {db : DB} (hok : db.failing = false) (id : Int)
    (e : HealthEvent) :
    ((applyHealthEvent id db e).readHealth id).ConsecutiveFails =
      if e.isFailure then (db.readHealth id).ConsecutiveFails + 1 else 0 := by
  cases e with
  | success now latency =>
    have hf := @OnRequestSuccess_findHealth { db with now := now } hok id latency
    simp only [applyHealthEvent, HealthEvent.isFailure]
    rw [readHealth_of_findHealth hf]
    simpa using (successUpdate_fields now latency _).2.2
  | failure now code =>
    have hf := @OnRequestFailure_findHealth { db with now := now } hok id code
    simp only [applyHealthEvent, HealthEvent.isFailure]
    rw [readHealth_of_findHealth hf]
    have := (failureUpdate_fields now (({ db with now := now } : DB).readHealth id)).2.2.1
    rw [readHealth_setNow_consecutiveFails] at this
    simpa using this

/-! ## Adequacy of the exact comparisons for binary64 arithmetic -/

theorem roundHalfEven_ge (y : ℚ) (n : Int) (h : (n : ℚ) ≤ y) : n ≤ roundHalfEven y := by
  have hf : n ≤ ⌊y⌋ := Int.le_floor.mpr h
  unfold roundHalfEven
  split_ifs <;> omega

theorem roundHalfEven_le (y : ℚ) (n : Int) (h : y ≤ (n : ℚ)) : roundHalfEven y ≤ n := by
  have h1 : (⌊y⌋ : ℚ) ≤ y := Int.floor_le y
  have hfn : ⌊y⌋ ≤ n := by
    have : ((⌊y⌋ : Int) : ℚ) ≤ (n : ℚ) := le_trans h1 h
    exact_mod_cast this
  unfold roundHalfEven
  split_ifs with a b c
  · exact hfn
  · -- fractional part above one half: y is not an integer, so the floor is below n
    have : (⌊y⌋ : ℚ) < n := by linarith
    have : ⌊y⌋ < n := by exact_mod_cast this
    omega
  · exact hfn
  · have hy : y - ⌊y⌋ = 1 / 2 := le_antisymm (not_lt.mp b) (not_lt.mp a)
    have : (⌊y⌋ : ℚ) < n := by linarith
    have : ⌊y⌋ < n := by exact_mod_cast this
    omega

/-- When rounding lands above an integer `M`. -/
theorem roundHalfEven_gt_iff (y : ℚ) (M : Int) :
    M < roundHalfEven y ↔ ((M : ℚ) + 1 / 2 < y ∨ (y = (M : ℚ) + 1 / 2 ∧ M % 2 = 1)) := by
  have h1 : (⌊y⌋ : ℚ) ≤ y := Int.floor_le y
  have h2 : y < (⌊y⌋ : ℚ) + 1 := Int.lt_floor_add_one y
  unfold roundHalfEven
  split_ifs with a b c
  · constructor
    · intro h
      have : M + 1 ≤ ⌊y⌋ := h
      have : ((M + 1 : Int) : ℚ) ≤ (⌊y⌋ : ℚ) := by exact_mod_cast this
      push_cast at this
      left; linarith
    · rintro (h | ⟨h, _⟩)
      · have : (M : ℚ) < (⌊y⌋ : ℚ) := by linarith
        exact_mod_cast this
      · exfalso
        have h3 : (M : ℚ) < (⌊y⌋ : ℚ) + 1 := by linarith
        have h4 : (⌊y⌋ : ℚ) < (M : ℚ) + 1 := by linarith
        have h5 : M < ⌊y⌋ + 1 := by exact_mod_cast h3
        have h6 : ⌊y⌋ < M + 1 := by exact_mod_cast h4
        have h7 : ⌊y⌋ = M := by omega
        rw [h7] at a
        linarith
  · constructor
    · intro h
      have : M ≤ ⌊y⌋ := by omega
      have : (M : ℚ) ≤ (⌊y⌋ : ℚ) := by exact_mod_cast this
      left; linarith
    · rintro (h | ⟨h, _⟩)
      · have h3 : (M : ℚ) < (⌊y⌋ : ℚ) + 1 := by linarith
        have h5 : M < ⌊y⌋ + 1 := by exact_mod_cast h3
        exact h5
      · have h3 : (M : ℚ) < (⌊y⌋ : ℚ) + 1 := by linarith
        have h5 : M < ⌊y⌋ + 1 := by exact_mod_cast h3
        exact h5
  · have hy : y - ⌊y⌋ = 1 / 2 := le_antisymm (not_lt.mp b) (not_lt.mp a)
    constructor
    · intro h
      have : M + 1 ≤ ⌊y⌋ := h
      have : ((M + 1 : Int) : ℚ) ≤ (⌊y⌋ : ℚ) := by exact_mod_cast this
      push_cast at this
      left; linarith
    · rintro (h | ⟨h, hodd⟩)
      · have : (M : ℚ) < (⌊y⌋ : ℚ) := by linarith
        exact_mod_cast this
      · exfalso
        have h3 : (⌊y⌋ : ℚ) = (M : ℚ) := by linarith
        have h4 : ⌊y⌋ = M := by exact_mod_cast h3
        omega
  · have hy : y - ⌊y⌋ = 1 / 2 := le_antisymm (not_lt.mp b) (not_lt.mp a)
    constructor
    · intro h
      have : M ≤ ⌊y⌋ := by omega
      have hle : (M : ℚ) ≤ (⌊y⌋ : ℚ) := by exact_mod_cast this
      rcases eq_or_lt_of_le this with heq | hlt
      · right
        constructor
        · rw [heq]; linarith
        · rw [heq]; omega
      · left
        have : M + 1 ≤ ⌊y⌋ := hlt
        have : ((M + 1 : Int) : ℚ) ≤ (⌊y⌋ : ℚ) := by exact_mod_cast this
        push_cast at this
        linarith
    · rintro (h | ⟨h, hodd⟩)
      · have h3 : (M : ℚ) < (⌊y⌋ : ℚ) + 1 := by linarith
        exact_mod_cast h3
      · have h3 : (M : ℚ) < (⌊y⌋ : ℚ) + 1 := by linarith
        exact_mod_cast h3


theorem roundHalfEven_eq_of_near (y : ℚ) (n : Int) (h1 : (n : ℚ) - 1 / 2 < y)
    (h2 : y < (n : ℚ) + 1 / 2) : roundHalfEven y = n := by
  have hge : n - 1 < roundHalfEven y := by
    rw [roundHalfEven_gt_iff]
    left; push_cast; linarith
  have hle : ¬ n < roundHalfEven y := by
    rw [roundHalfEven_gt_iff]
    rintro (h | ⟨h, _⟩) <;> linarith
  omega

theorem log_two_eq_of_bounds (q : ℚ) (k : Int) (h1 : (2 : ℚ) ^ k ≤ q)
    (h2 : q < (2 : ℚ) ^ (k + 1)) : Int.log 2 q = k := by
  have hq : 0 < q := lt_of_lt_of_le (zpow_pos (by norm_num) k) h1
  have a : k ≤ Int.log 2 q := (Int.zpow_le_iff_le_log (by norm_num) hq).mp (by exact_mod_cast h1)
  have b : Int.log 2 q < k + 1 :=
    (Int.lt_zpow_iff_log_lt (by norm_num) hq).mp (by exact_mod_cast h2)
  omega

theorem toFloat64_of_log (q : ℚ) (hq : 0 < q) (k : Int) (hk : Int.log 2 q = k) :
    toFloat64 q = (roundHalfEven (q / (2 : ℚ) ^ (k - 52)) : ℚ) * (2 : ℚ) ^ (k - 52) := by
  unfold toFloat64
  rw [if_neg (ne_of_gt hq), abs_of_pos hq, hk]

theorem toFloat64_bounds (q : ℚ) (hq : 0 < q) (k : Int) (hk : Int.log 2 q = k) :
    (2 : ℚ) ^ k ≤ toFloat64 q ∧ toFloat64 q ≤ (2 : ℚ) ^ (k + 1) := by
  have hE : (0 : ℚ) < (2 : ℚ) ^ (k - 52) := zpow_pos (by norm_num) _
  have h1 : (2 : ℚ) ^ k ≤ q := by
    have := Int.zpow_log_le_self (b := 2) (by norm_num) hq
    rw [hk] at this
    exact_mod_cast this
  have h2 : q < (2 : ℚ) ^ (k + 1) := by
    have := Int.lt_zpow_succ_log_self (b := 2) (by norm_num) q
    rw [hk] at this
    exact_mod_cast this
  have e1 : (2 : ℚ) ^ k = (2 : ℚ) ^ (52 : Int) * (2 : ℚ) ^ (k - 52) := by
    rw [← zpow_add₀ (by norm_num : (2 : ℚ) ≠ 0)]; congr 1; ring
  have e2 : (2 : ℚ) ^ (k + 1) = (2 : ℚ) ^ (53 : Int) * (2 : ℚ) ^ (k - 52) := by
    rw [← zpow_add₀ (by norm_num : (2 : ℚ) ≠ 0)]; congr 1; ring
  have c52 : (2 : ℚ) ^ (52 : Int) = ((4503599627370496 : Int) : ℚ) := by norm_num
  have c53 : (2 : ℚ) ^ (53 : Int) = ((9007199254740992 : Int) : ℚ) := by norm_num
  rw [toFloat64_of_log q hq k hk, e1, e2]
  constructor
  · apply mul_le_mul_of_nonneg_right _ (le_of_lt hE)
    rw [c52]
    have : (4503599627370496 : Int) ≤ roundHalfEven (q / (2 : ℚ) ^ (k - 52)) := by
      apply roundHalfEven_ge
      rw [le_div_iff₀ hE, ← c52, ← e1]
      exact h1
    exact_mod_cast this
  · apply mul_le_mul_of_nonneg_right _ (le_of_lt hE)
    rw [c53]
    have : roundHalfEven (q / (2 : ℚ) ^ (k - 52)) ≤ (9007199254740992 : Int) := by
      apply roundHalfEven_le
      rw [div_le_iff₀ hE, ← c53, ← e2]
      exact le_of_lt h2
    exact_mod_cast this

/-- The literal `0.9` as a binary64 number. -/
theorem toFloat64_nine_tenths :
    toFloat64 (9 / 10) = (8106479329266893 : ℚ) / (2 : ℚ) ^ (53 : Nat) := by
  have hk : Int.log 2 ((9 : ℚ) / 10) = -1 := by
    apply log_two_eq_of_bounds <;> norm_num
  rw [toFloat64_of_log _ (by norm_num) _ hk]
  have hr : roundHalfEven ((9 : ℚ) / 10 / (2 : ℚ) ^ ((-1 : Int) - 52)) = 8106479329266893 := by
    apply roundHalfEven_eq_of_near <;> norm_num
  rw [hr]
  norm_num

/-- The literal `0.1` as a binary64 number. -/
theorem toFloat64_one_tenth :
    toFloat64 (1 / 10) = (7205759403792794 : ℚ) / (2 : ℚ) ^ (56 : Nat) := by
  have hk : Int.log 2 ((1 : ℚ) / 10) = -4 := by
    apply log_two_eq_of_bounds <;> norm_num
  rw [toFloat64_of_log _ (by norm_num) _ hk]
  have hr : roundHalfEven ((1 : ℚ) / 10 / (2 : ℚ) ^ ((-4 : Int) - 52)) = 7205759403792794 := by
    apply roundHalfEven_eq_of_near <;> norm_num
  rw [hr]
  norm_num


/-- The binary64 quotient of two counters exceeds the binary64 literal `0.9` exactly
when the exact quotient exceeds nine tenths, for totals up to `2^50`. -/
theorem float64_quotient_gt_nine_tenths (s t : Int) (hs : 0 ≤ s) (hst : s ≤ t) (ht : 0 < t)
    (hb : t ≤ 2 ^ 50) :
    toFloat64 ((s : ℚ) / (t : ℚ)) > toFloat64 (9 / 10) ↔ (s : ℚ) / (t : ℚ) > 9 / 10 := by
  have htq : (0 : ℚ) < (t : ℚ) := by exact_mod_cast ht
  have hrhs : (s : ℚ) / (t : ℚ) > 9 / 10 ↔ 9 * t < 10 * s := by
    rw [gt_iff_lt, lt_div_iff₀ htq]
    constructor
    · intro h
      have : (9 : ℚ) * t < 10 * s := by linarith
      exact_mod_cast this
    · intro h
      have : (9 : ℚ) * t < 10 * s := by exact_mod_cast h
      linarith
  rw [hrhs, toFloat64_nine_tenths]
  rcases eq_or_lt_of_le hs with h0 | hpos
  · -- s = 0
    subst h0
    simp only [Int.cast_zero, zero_div, toFloat64, if_true]
    constructor
    · intro h; norm_num at h
    · intro h; omega
  · have hsq : (0 : ℚ) < (s : ℚ) := by exact_mod_cast hpos
    have hx : (0 : ℚ) < (s : ℚ) / (t : ℚ) := div_pos hsq htq
    obtain ⟨hlo, hhi⟩ := toFloat64_bounds _ hx _ rfl
    have hle : (2 : ℚ) ^ (Int.log 2 ((s : ℚ) / (t : ℚ))) ≤ (s : ℚ) / (t : ℚ) := by
      have := Int.zpow_log_le_self (b := 2) (by norm_num) hx
      exact_mod_cast this
    have hlt : (s : ℚ) / (t : ℚ) < (2 : ℚ) ^ (Int.log 2 ((s : ℚ) / (t : ℚ)) + 1) := by
      have := Int.lt_zpow_succ_log_self (b := 2) (by norm_num) ((s : ℚ) / (t : ℚ))
      exact_mod_cast this
    generalize hk : Int.log 2 ((s : ℚ) / (t : ℚ)) = k at hlo hhi hle hlt
    rcases lt_trichotomy k (-1) with hk1 | hk1 | hk1
    · -- quotient below one half
      have hpow : (2 : ℚ) ^ (k + 1) ≤ (2 : ℚ) ^ (-1 : Int) :=
        zpow_le_zpow_right₀ (by norm_num) (by omega)
      have hhalf : (2 : ℚ) ^ (-1 : Int) = 1 / 2 := by norm_num
      rw [hhalf] at hpow
      constructor
      · intro h
        exfalso
        have : (8106479329266893 : ℚ) / (2 : ℚ) ^ (53 : Nat) > 1 / 2 := by norm_num
        linarith
      · intro h
        exfalso
        have h2 : (s : ℚ) / (t : ℚ) < 1 / 2 := lt_of_lt_of_le hlt hpow
        rw [div_lt_iff₀ htq] at h2
        have h3 : (2 : ℚ) * s < t := by linarith
        have h4 : 2 * s < t := by exact_mod_cast h3
        omega
    · -- quotient in [1/2, 1)
      subst hk1
      rw [toFloat64_of_log _ hx _ hk]
      have hE : ((-1 : Int) - 52) = (-53 : Int) := by norm_num
      rw [hE]
      have hEpos : (0 : ℚ) < (2 : ℚ) ^ (-53 : Int) := zpow_pos (by norm_num) _
      have hc : (8106479329266893 : ℚ) / (2 : ℚ) ^ (53 : Nat) =
          ((8106479329266893 : Int) : ℚ) * (2 : ℚ) ^ (-53 : Int) := by norm_num
      rw [hc, gt_iff_lt, mul_lt_mul_right hEpos, Int.cast_lt, roundHalfEven_gt_iff]
      have hy : (s : ℚ) / (t : ℚ) / (2 : ℚ) ^ (-53 : Int) =
          ((s * 9007199254740992 : Int) : ℚ) / (t : ℚ) := by
        push_cast
        field_simp
        norm_num
      rw [hy]
      constructor
      · rintro (h | ⟨h, _⟩)
        · rw [lt_div_iff₀ htq] at h
          have h2 : ((16212958658533787 : Int) : ℚ) * t <
              ((18014398509481984 * s : Int) : ℚ) := by
            push_cast; push_cast at h; linarith
          have h3 : 16212958658533787 * t < 18014398509481984 * s := by
            exact_mod_cast h2
          linarith
        · rw [div_eq_iff (ne_of_gt htq)] at h
          have h2 : ((18014398509481984 * s : Int) : ℚ) =
              ((16212958658533787 : Int) : ℚ) * t := by
            push_cast; push_cast at h; linarith
          have h3 : 18014398509481984 * s = 16212958658533787 * t := by
            exact_mod_cast h2
          linarith
      · intro h
        have h3 : 16212958658533787 * t ≤ 18014398509481984 * s := by
          have hb2 : t ≤ 1125899906842624 := by simpa using hb
          have h4 : 9 * t + 1 ≤ 10 * s := by omega
          linarith
        rcases eq_or_lt_of_le h3 with heq | hlt2
        · right
          refine ⟨?_, by norm_num⟩
          rw [div_eq_iff (ne_of_gt htq)]
          have h2 : ((18014398509481984 * s : Int) : ℚ) =
              ((16212958658533787 : Int) : ℚ) * t := by
            exact_mod_cast heq.symm
          push_cast at h2 ⊢
          linarith
        · left
          rw [lt_div_iff₀ htq]
          have h2 : ((16212958658533787 : Int) : ℚ) * t <
              ((18014398509481984 * s : Int) : ℚ) := by
            exact_mod_cast hlt2
          push_cast at h2 ⊢
          linarith
    · -- quotient at least one: s = t
      have hpow : (2 : ℚ) ^ (0 : Int) ≤ (2 : ℚ) ^ k :=
        zpow_le_zpow_right₀ (by norm_num) (by omega)
      have hone : (2 : ℚ) ^ (0 : Int) = 1 := by norm_num
      rw [hone] at hpow
      constructor
      · intro _
        have h2 : (1 : ℚ) ≤ (s : ℚ) / (t : ℚ) := le_trans hpow hle
        rw [le_div_iff₀ htq] at h2
        have h3 : (t : ℚ) ≤ s := by linarith
        have h4 : t ≤ s := by exact_mod_cast h3
        omega
      · intro _
        have : (8106479329266893 : ℚ) / (2 : ℚ) ^ (53 : Nat) < 1 := by norm_num
        linarith


/-- The binary64 quotient of two counters exceeds the binary64 literal `0.1` exactly
when the exact quotient exceeds one tenth, for totals up to `2^50`. -/
theorem float64_quotient_gt_one_tenth (f t : Int) (hf : 0 ≤ f) (ht : 0 < t)
    (hb : t ≤ 2 ^ 50) :
    toFloat64 ((f : ℚ) / (t : ℚ)) > toFloat64 (1 / 10) ↔ (f : ℚ) / (t : ℚ) > 1 / 10 := by
  have htq : (0 : ℚ) < (t : ℚ) := by exact_mod_cast ht
  have hrhs : (f : ℚ) / (t : ℚ) > 1 / 10 ↔ t < 10 * f := by
    rw [gt_iff_lt, lt_div_iff₀ htq]
    constructor
    · intro h
      have : (t : ℚ) < 10 * f := by linarith
      exact_mod_cast this
    · intro h
      have : (t : ℚ) < 10 * f := by exact_mod_cast h
      linarith
  rw [hrhs, toFloat64_one_tenth]
  rcases eq_or_lt_of_le hf with h0 | hpos
  · subst h0
    simp only [Int.cast_zero, zero_div, toFloat64, if_true]
    constructor
    · intro h; norm_num at h
    · intro h; omega
  · have hfq : (0 : ℚ) < (f : ℚ) := by exact_mod_cast hpos
    have hx : (0 : ℚ) < (f : ℚ) / (t : ℚ) := div_pos hfq htq
    obtain ⟨hlo, hhi⟩ := toFloat64_bounds _ hx _ rfl
    have hle : (2 : ℚ) ^ (Int.log 2 ((f : ℚ) / (t : ℚ))) ≤ (f : ℚ) / (t : ℚ) := by
      have := Int.zpow_log_le_self (b := 2) (by norm_num) hx
      exact_mod_cast this
    have hlt : (f : ℚ) / (t : ℚ) < (2 : ℚ) ^ (Int.log 2 ((f : ℚ) / (t : ℚ)) + 1) := by
      have := Int.lt_zpow_succ_log_self (b := 2) (by norm_num) ((f : ℚ) / (t : ℚ))
      exact_mod_cast this
    generalize hk : Int.log 2 ((f : ℚ) / (t : ℚ)) = k at hlo hhi hle hlt
    rcases lt_trichotomy k (-4) with hk1 | hk1 | hk1
    · -- quotient below one sixteenth
      have hpow : (2 : ℚ) ^ (k + 1) ≤ (2 : ℚ) ^ (-4 : Int) :=
        zpow_le_zpow_right₀ (by norm_num) (by omega)
      have hval : (2 : ℚ) ^ (-4 : Int) = 1 / 16 := by norm_num
      rw [hval] at hpow
      constructor
      · intro h
        exfalso
        have : (7205759403792794 : ℚ) / (2 : ℚ) ^ (56 : Nat) > 1 / 16 := by norm_num
        linarith
      · intro h
        exfalso
        have h2 : (f : ℚ) / (t : ℚ) < 1 / 16 := lt_of_lt_of_le hlt hpow
        rw [div_lt_iff₀ htq] at h2
        have h3 : (16 : ℚ) * f < t := by linarith
        have h4 : 16 * f < t := by exact_mod_cast h3
        omega
    · -- quotient in [1/16, 1/8)
      subst hk1
      rw [toFloat64_of_log _ hx _ hk]
      have hE : ((-4 : Int) - 52) = (-56 : Int) := by norm_num
      rw [hE]
      have hEpos : (0 : ℚ) < (2 : ℚ) ^ (-56 : Int) := zpow_pos (by norm_num) _
      have hc : (7205759403792794 : ℚ) / (2 : ℚ) ^ (56 : Nat) =
          ((7205759403792794 : Int) : ℚ) * (2 : ℚ) ^ (-56 : Int) := by norm_num
      rw [hc, gt_iff_lt, mul_lt_mul_right hEpos, Int.cast_lt, roundHalfEven_gt_iff]
      have hy : (f : ℚ) / (t : ℚ) / (2 : ℚ) ^ (-56 : Int) =
          ((f * 72057594037927936 : Int) : ℚ) / (t : ℚ) := by
        push_cast
        field_simp
        norm_num
      rw [hy]
      constructor
      · rintro (h | ⟨_, h⟩)
        · rw [lt_div_iff₀ htq] at h
          have h2 : ((14411518807585589 : Int) : ℚ) * t <
              ((144115188075855872 * f : Int) : ℚ) := by
            push_cast; push_cast at h; linarith
          have h3 : 14411518807585589 * t < 144115188075855872 * f := by
            exact_mod_cast h2
          linarith
        · norm_num at h
      · intro h
        left
        have h3 : 14411518807585589 * t < 144115188075855872 * f := by
          have hb2 : t ≤ 1125899906842624 := by simpa using hb
          have h4 : t + 1 ≤ 10 * f := by omega
          linarith
        rw [lt_div_iff₀ htq]
        have h2 : ((14411518807585589 : Int) : ℚ) * t <
            ((144115188075855872 * f : Int) : ℚ) := by
          exact_mod_cast h3
        push_cast at h2 ⊢
        linarith
    · -- quotient at least one eighth
      have hpow : (2 : ℚ) ^ (-3 : Int) ≤ (2 : ℚ) ^ k :=
        zpow_le_zpow_right₀ (by norm_num) (by omega)
      have hval : (2 : ℚ) ^ (-3 : Int) = 1 / 8 := by norm_num
      rw [hval] at hpow
      constructor
      · intro _
        have h2 : (1 : ℚ) / 8 ≤ (f : ℚ) / (t : ℚ) := le_trans hpow hle
        rw [le_div_iff₀ htq] at h2
        have h3 : (t : ℚ) ≤ 8 * f := by linarith
        have h4 : t ≤ 8 * f := by exact_mod_cast h3
        omega
      · intro _
        have : (7205759403792794 : ℚ) / (2 : ℚ) ^ (56 : Nat) < 1 / 8 := by norm_num
        linarith


theorem roundHalfEven_intCast (m : Int) : roundHalfEven (m : ℚ) = m := by
  apply roundHalfEven_eq_of_near <;> linarith

/-- The conversion `float64(n)` of an integer below `2^53` in absolute value is exact. -/
theorem toFloat64_intCast (n : Int) (hn : |n| < 2 ^ 53) : toFloat64 (n : ℚ) = (n : ℚ) := by
  unfold toFloat64
  by_cases h0 : (n : ℚ) = 0
  · rw [if_pos h0, h0]
  · rw [if_neg h0]
    have hpos : (0 : ℚ) < |(n : ℚ)| := abs_pos.mpr h0
    have hlt : |(n : ℚ)| < (2 : ℚ) ^ (53 : Int) := by
      have : ((|n| : Int) : ℚ) < ((2 ^ 53 : Int) : ℚ) := by exact_mod_cast hn
      rw [Int.cast_abs] at this
      norm_num at this ⊢
      exact this
    have hk : Int.log 2 |(n : ℚ)| < 53 :=
      (Int.lt_zpow_iff_log_lt (by norm_num) hpos).mp (by exact_mod_cast hlt)
    obtain ⟨j, hj⟩ : ∃ j : Nat, Int.log 2 |(n : ℚ)| - 52 = -(j : Int) :=
      ⟨(52 - Int.log 2 |(n : ℚ)|).toNat, by omega⟩
    rw [hj, zpow_neg, zpow_natCast]
    have hy : (n : ℚ) / ((2 : ℚ) ^ j)⁻¹ = ((n * 2 ^ j : Int) : ℚ) := by
      push_cast
      field_simp
    rw [hy, roundHalfEven_intCast]
    push_cast
    field_simp

/-- Adequacy of the exact comparison in `successUpdate`: on counters below `2^50` the Go
expression `float64(s) / float64(t) > 0.9`, evaluated in binary64, has the value of the
exact comparison. -/
theorem float64_successRate_adequate (s t : Int) (hs : 0 ≤ s) (hst : s ≤ t) (ht : 0 < t)
    (hb : t ≤ 2 ^ 50) :
    toFloat64 (toFloat64 (s : ℚ) / toFloat64 (t : ℚ)) > toFloat64 (9 / 10) ↔
      (s : ℚ) / (t : ℚ) > 0.9 := by
  have h1 : |s| < 2 ^ 53 := by
    rw [abs_of_nonneg hs]
    have hb2 : t ≤ 1125899906842624 := by simpa using hb
    norm_num
    omega
  have h2 : |t| < 2 ^ 53 := by
    rw [abs_of_pos ht]
    have hb2 : t ≤ 1125899906842624 := by simpa using hb
    norm_num
    omega
  rw [toFloat64_intCast s h1, toFloat64_intCast t h2,
    float64_quotient_gt_nine_tenths s t hs hst ht hb]
  norm_num

/-- Adequacy of the exact comparison in `failureUpdate`: on counters below `2^50` the Go
expression `float64(f) / float64(t) > 0.1`, evaluated in binary64, has the value of the
exact comparison. -/
theorem float64_failureRate_adequate (f t : Int) (hf : 0 ≤ f) (hft : f ≤ t) (ht : 0 < t)
    (hb : t ≤ 2 ^ 50) :
    toFloat64 (toFloat64 (f : ℚ) / toFloat64 (t : ℚ)) > toFloat64 (1 / 10) ↔
      (f : ℚ) / (t : ℚ) > 0.1 := by
  have h1 : |f| < 2 ^ 53 := by
    rw [abs_of_nonneg hf]
    have hb2 : t ≤ 1125899906842624 := by simpa using hb
    norm_num
    omega
  have h2 : |t| < 2 ^ 53 := by
    rw [abs_of_pos ht]
    have hb2 : t ≤ 1125899906842624 := by simpa using hb
    norm_num
    omega
  rw [toFloat64_intCast f h1, toFloat64_intCast t h2,
    float64_quotient_gt_one_tenth f t hf ht hb]
  norm_num

/-! ## Claims -/

/-- C2: `shouldRetry` is false when a specific channel is pinned; otherwise it is true for
429 and for 500 ≤ s < 600, false for 400 and for 200 ≤ s < 300, and true for any
other status. -/
theorem shouldRetry_spec (c : Context) (s : Int) :
    shouldRetry c s =
      if c.SpecificChannelId.isSome then false
      else if s = 429 ∨ (500 ≤ s ∧ s < 600) then true
      else if s = 400 ∨ (200 ≤ s ∧ s < 300) then false
      else true := by
  have h5 : s.tdiv 100 = 5 ↔ (500 ≤ s ∧ s < 600) := by
    rcases Int.le_total 0 s with hs | hs
    · rw [Int.tdiv_eq_ediv hs (by norm_num)]; omega
    · have hnn : (0 : Int) ≤ -s := by omega
      have h2 : (-s).tdiv 100 = (-s) / 100 := Int.tdiv_eq_ediv hnn (by norm_num)
      have h3 : s.tdiv 100 = -((-s).tdiv 100) := by
        rw [← Int.neg_tdiv, neg_neg]
      rw [h3, h2]; omega
  have h2 : s.tdiv 100 = 2 ↔ (200 ≤ s ∧ s < 300) := by
    rcases Int.le_total 0 s with hs | hs
    · rw [Int.tdiv_eq_ediv hs (by norm_num)]; omega
    · have hnn : (0 : Int) ≤ -s := by omega
      have h2 : (-s).tdiv 100 = (-s) / 100 := Int.tdiv_eq_ediv hnn (by norm_num)
      have h3 : s.tdiv 100 = -((-s).tdiv 100) := by
        rw [← Int.neg_tdiv, neg_neg]
      rw [h3, h2]; omega
  unfold shouldRetry
  by_cases hp : c.SpecificChannelId.isSome = true
  · simp [hp]
  · simp only [hp, if_false, h5, h2]
    by_cases h429 : s = 429
    · simp [h429]
    · by_cases h5xx : 500 ≤ s ∧ s < 600
      · simp [h5xx]
      · by_cases h400 : s = 400
        · simp [h400]
        · simp [h429, h5xx, h400]

/-- C3: `OnRequestFailure` stores a record with `failure_count` and `consecutive_fails`
each increased by one; its status is `unhealthy` if the new `consecutive_fails` is at
least 3 or if the new total is at least 10 with a failure rate above 10%, and the old
status otherwise. -/
theorem OnRequestFailure_record (db : DB) (channelID : Int) (errorCode : String)
    (h : ChannelHealth) (hget : (GetChannelHealth db channelID).1 = .ok h) :
    ∃ h2, (OnRequestFailure db channelID errorCode).2.findHealth channelID = some h2 ∧
      h2.FailureCount = h.FailureCount + 1 ∧
      h2.ConsecutiveFails = h.ConsecutiveFails + 1 ∧
      h2.SuccessCount = h.SuccessCount ∧
      h2.Status =
        if h2.ConsecutiveFails ≥ 3 ∨
            (h2.SuccessCount + h2.FailureCount ≥ 10 ∧
              (h2.FailureCount : ℚ) / ((h2.SuccessCount + h2.FailureCount : Int) : ℚ) > 10 / 100)
        then "unhealthy" else h.Status := by
  have hok : db.failing = false := by
    cases hfail : db.failing with
    | false => rfl
    | true => rw [GetChannelHealth_failing hfail] at hget; simp at hget
  have hread : db.readHealth channelID = h := by
    rw [GetChannelHealth_fst hok] at hget
    exact Except.ok.inj hget
  refine ⟨_, OnRequestFailure_findHealth hok channelID errorCode, ?_⟩
  rw [hread]
  obtain ⟨hF, hS, hC, _⟩ := failureUpdate_fields db.now h
  refine ⟨hF, hC, hS, ?_⟩
  show (failureUpdate db.now h).Status = _
  rw [failureUpdate_status]
  simp only [hF, hS, hC]
  have e : (10 : ℚ) / 100 = 0.1 := by norm_num
  rw [e]

/-- Instance of C3: the first failure reported for an untracked channel. -/
theorem OnRequestFailure_record_witness :
    ∃ h2, (OnRequestFailure (emptyDB 0) 7 "e").2.findHealth 7 = some h2 ∧
      h2.FailureCount = (newHealthRow 7 0).FailureCount + 1 ∧
      h2.ConsecutiveFails = (newHealthRow 7 0).ConsecutiveFails + 1 ∧
      h2.SuccessCount = (newHealthRow 7 0).SuccessCount ∧
      h2.Status =
        if h2.ConsecutiveFails ≥ 3 ∨
            (h2.SuccessCount + h2.FailureCount ≥ 10 ∧
              (h2.FailureCount : ℚ) / ((h2.SuccessCount + h2.FailureCount : Int) : ℚ) > 10 / 100)
        then "unhealthy" else (newHealthRow 7 0).Status :=
  OnRequestFailure_record (emptyDB 0) 7 "e" (newHealthRow 7 0) rfl

/-- C4: `OnRequestSuccess` changes the status exactly when the record was `unhealthy` and
the updated success rate is strictly above 0.9, and the new status is then `healthy`.
A record made unhealthy by three failures is still unhealthy after 27 successes and
healthy after the 28th. -/
theorem OnRequestSuccess_status :
    (∀ (db : DB) (channelID latency : Int) (h : ChannelHealth),
      (GetChannelHealth db channelID).1 = .ok h → 0 ≤ h.SuccessCount → 0 ≤ h.FailureCount →
      ∃ h2, (OnRequestSuccess db channelID latency).2.findHealth channelID = some h2 ∧
        (h2.Status ≠ h.Status ↔
          (h.Status = "unhealthy" ∧
            (h2.SuccessCount : ℚ) / ((h2.SuccessCount + h2.FailureCount : Int) : ℚ) > 9 / 10)) ∧
        (h2.Status ≠ h.Status → h2.Status = "healthy")) ∧
    ((applyHealthEvents 1 (emptyDB 0)
        (List.replicate 3 (.failure 0 "500"))).findHealth 1).map (·.Status)
      = some "unhealthy" ∧
    ((applyHealthEvents 1 (emptyDB 0)
        (List.replicate 3 (.failure 0 "500") ++ List.replicate 27 (.success 0 100))).findHealth 1).map
        (·.Status) = some "unhealthy" ∧
    ((applyHealthEvents 1 (emptyDB 0)
        (List.replicate 3 (.failure 0 "500") ++ List.replicate 28 (.success 0 100))).findHealth 1).map
        (·.Status) = some "healthy" := by
  refine ⟨?_, by decide, by decide!, by decide!⟩
  intro db channelID latency h hget hs hf
  have hok : db.failing = false := by
    cases hfail : db.failing with
    | false => rfl
    | true => rw [GetChannelHealth_failing hfail] at hget; simp at hget
  have hread : db.readHealth channelID = h := by
    rw [GetChannelHealth_fst hok] at hget
    exact Except.ok.inj hget
  refine ⟨_, OnRequestSuccess_findHealth hok channelID latency, ?_⟩
  rw [hread]
  obtain ⟨hS, hF, _⟩ := successUpdate_fields db.now latency h
  have hst := successUpdate_status db.now latency h
  have hpos : h.SuccessCount + 1 + h.FailureCount > 0 := by omega
  have e : (9 : ℚ) / 10 = 0.9 := by norm_num
  show ((successUpdate db.now latency h).Status ≠ h.Status ↔ _) ∧
    ((successUpdate db.now latency h).Status ≠ h.Status → (successUpdate db.now latency h).Status = _)
  simp only [hS, hF, e]
  by_cases hc : h.Status = "unhealthy" ∧ h.SuccessCount + 1 + h.FailureCount > 0 ∧
      ((h.SuccessCount + 1 : Int) : ℚ) / ((h.SuccessCount + 1 + h.FailureCount : Int) : ℚ) > 0.9
  · rw [if_pos hc] at hst
    rw [hst]
    refine ⟨⟨fun _ => ⟨hc.1, hc.2.2⟩, fun _ => ?_⟩, fun _ => rfl⟩
    rw [hc.1]; decide
  · rw [if_neg hc] at hst
    rw [hst]
    refine ⟨⟨fun hne => absurd rfl hne, fun hh => ?_⟩, fun hne => absurd rfl hne⟩
    exact absurd ⟨hh.1, hpos, hh.2⟩ hc

/-- Instance of C4: the first success reported for an untracked channel. -/
theorem OnRequestSuccess_status_witness :
    ∃ h2, (OnRequestSuccess (emptyDB 0) 7 120).2.findHealth 7 = some h2 ∧
      (h2.Status ≠ (newHealthRow 7 0).Status ↔
        ((newHealthRow 7 0).Status = "unhealthy" ∧
          (h2.SuccessCount : ℚ) / ((h2.SuccessCount + h2.FailureCount : Int) : ℚ) > 9 / 10)) ∧
      (h2.Status ≠ (newHealthRow 7 0).Status → h2.Status = "healthy") :=
  OnRequestSuccess_status.1 (emptyDB 0) 7 120 (newHealthRow 7 0) rfl (by decide)
    (by decide)

/-- C5: starting from a record with `consecutive_fails = 0`, after any sequence of
`OnRequestSuccess` / `OnRequestFailure` calls `consecutive_fails` equals the length of
the trailing run of failures; it is 0 exactly when the sequence is empty or ends with a
success. -/
theorem consecutiveFails_eq_trailingFailures (db : DB) (channelID : Int)
    (events : List HealthEvent) (hok : db.failing = false)
    (hfresh : (db.readHealth channelID).ConsecutiveFails = 0) :
    ((applyHealthEvents channelID db events).readHealth channelID).ConsecutiveFails
        = trailingFailures events ∧
    (((applyHealthEvents channelID db events).readHealth channelID).ConsecutiveFails = 0 ↔
        events = [] ∨ ∃ e, events.getLast? = some e ∧ e.isFailure = false) := by
  have main : ((applyHealthEvents channelID db events).readHealth channelID).ConsecutiveFails
        = trailingFailures events := by
    induction events using List.reverseRecOn with
    | nil => simpa [applyHealthEvents, trailingFailures] using hfresh
    | append_singleton es e ih =>
      rw [applyHealthEvents_append, trailingFailures_append,
        applyHealthEvent_consecutiveFails (by rw [applyHealthEvents_failing, hok]), ih]
      cases e.isFailure <;> simp
  refine ⟨main, ?_⟩
  rw [main]
  rcases List.eq_nil_or_concat events with hnil | ⟨es, e, rfl⟩
  · subst hnil
    simp [trailingFailures]
  · rw [List.concat_eq_append, trailingFailures_append]
    cases he : e.isFailure
    · simp [he]
    · simp only [he, if_true, List.getLast?_append, List.getLast?_singleton]
      constructor
      · intro h; omega
      · rintro (h | ⟨e2, h1, h2⟩)
        · simp at h
        · have h1b : e = e2 := by simpa [Option.or] using h1
          subst h1b; rw [he] at h2; cases h2

/-- Instance of C5: success, failure, failure on an untracked channel. -/
theorem consecutiveFails_eq_trailingFailures_witness :
    ((applyHealthEvents 3 (emptyDB 0)
        [.success 1 50, .failure 2 "500", .failure 3 "500"]).readHealth 3).ConsecutiveFails
        = trailingFailures [.success 1 50, .failure 2 "500", .failure 3 "500"] ∧
    (((applyHealthEvents 3 (emptyDB 0)
        [.success 1 50, .failure 2 "500", .failure 3 "500"]).readHealth 3).ConsecutiveFails = 0 ↔
        [HealthEvent.success 1 50, .failure 2 "500", .failure 3 "500"] = [] ∨
          ∃ e, [HealthEvent.success 1 50, .failure 2 "500", .failure 3 "500"].getLast? = some e ∧
            e.isFailure = false) :=
  consecutiveFails_eq_trailingFailures (emptyDB 0) 3 _ rfl (by decide)

/-! ## Dispatch loop -/

theorem retryDispatch_dispatched (env : Env) (g m : String) (rt i : Int) (ch : Channel)
    (s : RelayState) :
    (retryDispatch env g m rt i ch s).dispatched =
      s.dispatched ++ [(Dispatch.mk ch.Id (rt - i + 1)
        ((env.relayHelper s.dispatched.length
          (env.SetupContextForSelectedChannel s.c ch m)).err.map (fun e => e.StatusCode)))] := by
  simp only [retryDispatch]

theorem respondError_dispatched (env : Env) (r : String) (s : RelayState) :
    (respondError env r s).dispatched = s.dispatched := by
  unfold respondError
  split <;> rfl

theorem firstAttempt_dispatched (env : Env) (c : Context) (db : DB) :
    (firstAttempt env c db).dispatched =
      [Dispatch.mk c.ChannelId 0 ((env.relayHelper 0 c).err.map (fun e => e.StatusCode))] := by
  simp only [firstAttempt, RelayState.init]
  rfl

theorem firstAttempt_bizErr (env : Env) (c : Context) (db : DB) :
    (firstAttempt env c db).bizErr = (env.relayHelper 0 c).err := by
  simp only [firstAttempt, RelayState.init]
  rfl

theorem shouldRetry_pinned (c : Context) (s : Int) (h : c.SpecificChannelId.isSome = true) :
    shouldRetry c s = false := by
  simp [shouldRetry, h]

theorem shouldRetry_badRequest (c : Context) : shouldRetry c 400 = false := by
  unfold shouldRetry
  split
  · rfl
  · decide

theorem retryLoop_dispatched_length (env : Env) (g : String) (grp mdl : String)
    (rt : Int) (n : Nat) (s : RelayState) :
    s.dispatched.length ≤ (retryLoop env g grp mdl rt n s).dispatched.length ∧
    (retryLoop env g grp mdl rt n s).dispatched.length ≤ s.dispatched.length + n := by
  induction n generalizing s with
  | zero => simp [retryLoop]
  | succ n ih =>
    simp only [retryLoop]
    split
    · simp
    · rename_i channel _
      split
      · have := ih { s with picks := s.picks + 1 }
        simp only at this
        omega
      · split
        · simp [retrySucceeded, retryDispatch_dispatched]
        · rename_i bizErr _
          have h := ih (retryFailed bizErr (retryDispatch env g mdl rt (↑n + 1) channel
            { s with picks := s.picks + 1 }))
          have e1 : (retryFailed bizErr (retryDispatch env g mdl rt (↑n + 1) channel
              { s with picks := s.picks + 1 })).dispatched.length = s.dispatched.length + 1 := by
            simp [retryFailed, retryDispatch_dispatched]
          rw [e1] at h
          constructor <;> omega

/-- C6: `Relay` performs at least one and at most `1 + retry_times` upstream invocations,
and exactly one when `retry_times = 0`, when a specific channel is pinned, or when the
first attempt fails with status 400. -/
theorem Relay_dispatch_count (env : Env) (c : Context) (db : DB) :
    1 ≤ (Relay env c db).dispatched.length ∧
    (Relay env c db).dispatched.length ≤ 1 + env.RetryTimes.toNat ∧
    ((env.RetryTimes = 0 ∨ c.SpecificChannelId.isSome = true ∨
        (env.relayHelper 0 c).err.map (fun e => e.StatusCode) = some 400) →
      (Relay env c db).dispatched.length = 1) := by
  unfold Relay
  simp only
  have hb0 := firstAttempt_bizErr env c db
  have hd0 := firstAttempt_dispatched env c db
  split
  · simp [firstSucceeded, hd0]
  · rename_i bizErr hbiz
    have hout : (env.relayHelper 0 c).err = some bizErr := by rw [← hb0, hbiz]
    generalize hrt : retryBudget env c bizErr = rt
    have hrt_le : rt.toNat ≤ env.RetryTimes.toNat := by
      rw [← hrt]; unfold retryBudget; split <;> simp
    have hrt0 : (env.RetryTimes = 0 ∨ c.SpecificChannelId.isSome = true ∨
        bizErr.StatusCode = 400) → rt.toNat = 0 := by
      intro h
      rw [← hrt]; unfold retryBudget
      rcases h with h | h | h
      · rw [h]; split <;> rfl
      · rw [shouldRetry_pinned c _ h]; simp
      · rw [h, shouldRetry_badRequest]; simp
    have hb := retryLoop_dispatched_length env env.GenRequestID c.Group c.OriginalModel rt
      rt.toNat (firstFailed c.ChannelId c.ChannelName bizErr (firstAttempt env c db))
    have hlen0 : (firstFailed c.ChannelId c.ChannelName bizErr
        (firstAttempt env c db)).dispatched.length = 1 := by
      simp [firstFailed, hd0]
    rw [hlen0] at hb
    have key : ∀ r : RelayState, r.dispatched = (retryLoop env env.GenRequestID c.Group
        c.OriginalModel rt rt.toNat (firstFailed c.ChannelId c.ChannelName bizErr
          (firstAttempt env c db))).dispatched →
        1 ≤ r.dispatched.length ∧ r.dispatched.length ≤ 1 + env.RetryTimes.toNat ∧
        ((env.RetryTimes = 0 ∨ c.SpecificChannelId.isSome = true ∨
          Option.map (fun e => e.StatusCode) (env.relayHelper 0 c).err = some 400) →
          r.dispatched.length = 1) := by
      intro r hr
      rw [hr, hout]
      refine ⟨by omega, by omega, fun h => ?_⟩
      have : rt.toNat = 0 := hrt0 (by simpa using h)
      omega
    split
    · exact key _ rfl
    · exact key _ (respondError_dispatched _ _ _)

/-- The retry loop keeps the relation between consecutive upstream invocations: the
earlier one failed, and the later one went to a different channel. -/
theorem retryLoop_chain (env : Env)
    (hsetup : ∀ c ch m, (env.SetupContextForSelectedChannel c ch m).ChannelId = ch.Id)
    (g grp mdl : String) (rt : Int) (n : Nat) (s : RelayState)
    (hchain : List.Chain' (fun a b : Dispatch => a.status.isSome = true ∧ b.channelId ≠ a.channelId)
      s.dispatched)
    (hlast : ∀ d ∈ s.dispatched.getLast?,
      d.status.isSome = true ∧ d.channelId = s.lastFailedChannelId) :
    List.Chain' (fun a b : Dispatch => a.status.isSome = true ∧ b.channelId ≠ a.channelId)
      (retryLoop env g grp mdl rt n s).dispatched := by
  induction n generalizing s with
  | zero => simpa [retryLoop] using hchain
  | succ n ih =>
    simp only [retryLoop]
    split
    · exact hchain
    · rename_i channel _
      split
      · exact ih { s with picks := s.picks + 1 } hchain hlast
      · rename_i hne
        have hnew : List.Chain' (fun a b : Dispatch => a.status.isSome = true ∧ b.channelId ≠ a.channelId)
            (retryDispatch env g mdl rt (↑n + 1) channel
              { s with picks := s.picks + 1 }).dispatched := by
          rw [retryDispatch_dispatched, List.chain'_append]
          refine ⟨hchain, List.chain'_singleton _, ?_⟩
          intro x hx y hy
          simp only [List.head?_cons, Option.mem_def, Option.some.injEq] at hy
          subst hy
          obtain ⟨h1, h2⟩ := hlast x hx
          refine ⟨h1, ?_⟩
          simp only
          rw [h2]
          exact hne
        split
        · simpa [retrySucceeded] using hnew
        · rename_i bizErr hbiz
          apply ih
          · simpa [retryFailed] using hnew
          · intro d hd
            simp only [retryFailed, retryDispatch_dispatched, List.getLast?_append,
              List.getLast?_singleton, Option.mem_def] at hd
            have hd2 : (Dispatch.mk channel.Id (rt - (↑n + 1) + 1)
                ((env.relayHelper s.dispatched.length
                  (env.SetupContextForSelectedChannel s.c channel mdl)).err.map
                    (fun e => e.StatusCode))) = d := by
              simpa [Option.or] using hd
            subst hd2
            have hb : (env.relayHelper s.dispatched.length
                (env.SetupContextForSelectedChannel s.c channel mdl)).err = some bizErr := by
              simpa [retryDispatch] using hbiz
            refine ⟨by simp [hb], ?_⟩
            simp [retryFailed, retryDispatch, hsetup]

/-- C7: in every execution of `Relay`, each upstream invocation after the first goes to a
channel whose id differs from the id of the channel of the immediately preceding
(failed) invocation, provided the context set-up stores the selected channel's id. -/
theorem Relay_skips_last_failed_channel (env : Env) (c : Context) (db : DB)
    (hsetup : ∀ c ch m, (env.SetupContextForSelectedChannel c ch m).ChannelId = ch.Id) :
    List.Chain' (fun a b : Dispatch => a.status.isSome = true ∧ b.channelId ≠ a.channelId)
      (Relay env c db).dispatched := by
  unfold Relay
  simp only
  have hb0 := firstAttempt_bizErr env c db
  have hd0 := firstAttempt_dispatched env c db
  split
  · simp [firstSucceeded, hd0]
  · rename_i bizErr hbiz
    have hout : (env.relayHelper 0 c).err = some bizErr := by rw [← hb0, hbiz]
    have key := retryLoop_chain env hsetup env.GenRequestID c.Group c.OriginalModel
      (retryBudget env c bizErr) (retryBudget env c bizErr).toNat
      (firstFailed c.ChannelId c.ChannelName bizErr (firstAttempt env c db))
      (by simp [firstFailed, hd0])
      (by
        intro d hd
        simp only [firstFailed, hd0, List.getLast?_singleton, Option.mem_def,
          Option.some.injEq] at hd
        subst hd
        simp [firstFailed, hout])
    split
    · exact key
    · rw [respondError_dispatched]; exact key

/-- Instance of C7: two retries after a failed first attempt on channel 1; the picker
offers channel 1 again and then channels 2 and 3. -/
theorem Relay_skips_last_failed_channel_witness :
    (∀ c ch m, ((sampleEnv 3 [500, 500, 200] [1, 2, 3]).SetupContextForSelectedChannel c ch
        m).ChannelId = ch.Id) ∧
    List.Chain' (fun a b : Dispatch => a.status.isSome = true ∧ b.channelId ≠ a.channelId)
      (Relay (sampleEnv 3 [500, 500, 200] [1, 2, 3]) (sampleContext 1) (emptyDB 0)).dispatched :=
  ⟨fun _ _ _ => rfl,
    Relay_skips_last_failed_channel _ _ _ (fun _ _ _ => rfl)⟩

/-- C8 (evaluation at the failing input): with `retry_times = 2`, a first attempt
answered 500 and a retry answered 400, `Relay` still performs a third upstream
invocation after the 400. -/
theorem Relay_retries_after_400 :
    (Relay (sampleEnv 2 [500, 400, 500] [2, 3]) (sampleContext 1) (emptyDB 0)).dispatched =
      [⟨1, 0, some 500⟩, ⟨2, 1, some 400⟩, ⟨3, 2, some 500⟩] := by
  decide

/-! ## Strategies: the selected channel is a candidate -/

theorem collect_snd (st : WRRState) (ms : List ChannelWithMetrics) :
    (WeightRoundRobinStrategy.collect st ms).2 = ms.map (fun m => m.Channel.Id) := by
  induction ms generalizing st with
  | nil => rfl
  | cons m rest ih => simp [WeightRoundRobinStrategy.collect, ih]

theorem WRRState.set_wellFormed {st : WRRState} (hwf : st.WellFormed) (id : Int)
    (wc : WeightedChannel) (hid : wc.Channel.Id = id) : (st.set id wc).WellFormed := by
  intro k w hk
  unfold WRRState.set at hk
  split at hk
  · rename_i hki
    cases hk; rw [hki]; exact hid
  · exact hwf k w hk

theorem collect_wellFormed (st : WRRState) (hwf : st.WellFormed) (ms : List ChannelWithMetrics) :
    (WeightRoundRobinStrategy.collect st ms).1.WellFormed := by
  induction ms generalizing st with
  | nil => exact hwf
  | cons m rest ih =>
    simp only [WeightRoundRobinStrategy.collect]
    apply ih
    unfold WeightRoundRobinStrategy.lookupOrCreate
    split
    · exact hwf
    · exact WRRState.set_wellFormed hwf _ _ rfl

theorem step_wellFormed (acc : WRRLoop) (id : Int) (hwf : acc.state.WellFormed) :
    (WeightRoundRobinStrategy.step acc id).state.WellFormed := by
  unfold WeightRoundRobinStrategy.step
  split
  · exact hwf
  · rename_i wc hwc
    exact WRRState.set_wellFormed hwf _ _ (hwf id wc hwc)

theorem step_selected (acc : WRRLoop) (id sid : Int)
    (h : (WeightRoundRobinStrategy.step acc id).selected = some sid) :
    sid = id ∨ acc.selected = some sid := by
  unfold WeightRoundRobinStrategy.step at h
  split at h
  · exact Or.inr h
  · simp only at h
    split at h
    · left; cases h; rfl
    · exact Or.inr h

theorem foldl_step_inv (ids : List Int) (acc : WRRLoop) (hwf : acc.state.WellFormed) :
    (ids.foldl WeightRoundRobinStrategy.step acc).state.WellFormed ∧
    ∀ sid, (ids.foldl WeightRoundRobinStrategy.step acc).selected = some sid →
      sid ∈ ids ∨ acc.selected = some sid := by
  induction ids generalizing acc with
  | nil => exact ⟨hwf, fun sid h => Or.inr h⟩
  | cons id rest ih =>
    simp only [List.foldl_cons]
    obtain ⟨h1, h2⟩ := ih (WeightRoundRobinStrategy.step acc id) (step_wellFormed acc id hwf)
    refine ⟨h1, fun sid h => ?_⟩
    rcases h2 sid h with h3 | h3
    · left; exact List.mem_cons_of_mem _ h3
    · rcases step_selected acc id sid h3 with h4 | h4
      · left; rw [h4]; exact List.mem_cons_self _ _
      · right; exact h4

/-- The weighted round-robin strategy returns a channel carrying the id of a candidate,
and keeps its map well-formed. -/
theorem WeightRoundRobinStrategy_Select_mem (st : WRRState) (hwf : st.WellFormed)
    (ms : List ChannelWithMetrics) :
    (WeightRoundRobinStrategy.Select st ms).2.WellFormed ∧
    ∀ c, (WeightRoundRobinStrategy.Select st ms).1 = some c →
      ∃ m ∈ ms, m.Channel.Id = c.Id := by
  unfold WeightRoundRobinStrategy.Select
  split
  · exact ⟨hwf, fun c h => by simp at h⟩
  · simp only
    obtain ⟨h1, h2⟩ := foldl_step_inv (WeightRoundRobinStrategy.collect st ms).2
      { state := (WeightRoundRobinStrategy.collect st ms).1, selected := none, totalWeight := 0 }
      (collect_wellFormed st hwf ms)
    split
    · rename_i id hsel
      split
      · rename_i wc hwc
        refine ⟨WRRState.set_wellFormed h1 _ _ (h1 id wc hwc), ?_⟩
        intro c hc
        simp only [Option.some.injEq] at hc
        subst hc
        rcases h2 id hsel with h3 | h3
        · rw [collect_snd] at h3
          obtain ⟨m, hm, hmid⟩ := List.mem_map.mp h3
          exact ⟨m, hm, by rw [hmid, h1 id wc hwc]⟩
        · simp at h3
      · exact ⟨h1, fun c h => by simp at h⟩
    · exact ⟨h1, fun c h => by simp at h⟩

theorem group_fst (ms : List ChannelWithMetrics) (g : Int → List ChannelWithMetrics) (mx : Int)
    (k : Int) :
    (PriorityStrategy.group ms (g, mx)).1 k = g k ++ ms.filter (fun m => priorityOf m = k) := by
  induction ms generalizing g mx with
  | nil => simp [PriorityStrategy.group]
  | cons m rest ih =>
    simp only [PriorityStrategy.group]
    rw [ih]
    by_cases hk : k = priorityOf m
    · subst hk; simp
    · have : ¬ priorityOf m = k := fun e => hk e.symm
      simp [hk, this]

theorem PriorityStrategy_Select_mem (rnd : Nat) (ms : List ChannelWithMetrics) (c : Channel)
    (h : PriorityStrategy.Select rnd ms = some c) : ∃ m ∈ ms, m.Channel = c := by
  unfold PriorityStrategy.Select at h
  split at h
  · simp at h
  · simp only at h
    split at h
    · rw [group_fst] at h
      simp only [List.nil_append, Option.map_eq_some'] at h
      obtain ⟨m, hm, hmc⟩ := h
      have := List.get?_mem hm
      exact ⟨m, (List.mem_filter.mp this).1, hmc⟩
    · simp at h

theorem sortSlice_mem {κ : Type} [LinearOrder κ] (key : ChannelWithMetrics → κ)
    (ms : List ChannelWithMetrics) (m : ChannelWithMetrics) :
    m ∈ sortSlice key ms ↔ m ∈ ms :=
  (List.perm_insertionSort _ ms).mem_iff

theorem LowestCostStrategy_Select_mem (rnd : Nat) (ms : List ChannelWithMetrics) (c : Channel)
    (h : LowestCostStrategy.Select rnd ms = some c) : ∃ m ∈ ms, m.Channel = c := by
  unfold LowestCostStrategy.Select at h
  split at h
  · simp at h
  · simp only [Option.map_eq_some'] at h
    obtain ⟨m, hm, hmc⟩ := h
    exact ⟨m, (sortSlice_mem _ ms m).mp (List.get?_mem hm), hmc⟩

theorem LowestLatencyStrategy_Select_mem (rnd : Nat) (ms : List ChannelWithMetrics) (c : Channel)
    (h : LowestLatencyStrategy.Select rnd ms = some c) : ∃ m ∈ ms, m.Channel = c := by
  unfold LowestLatencyStrategy.Select at h
  split at h
  · simp at h
  · simp only [Option.map_eq_some'] at h
    obtain ⟨m, hm, hmc⟩ := h
    exact ⟨m, (sortSlice_mem _ ms m).mp (List.get?_mem hm), hmc⟩

theorem RoundRobinStrategy_Select_mem (counter : Nat) (ms : List ChannelWithMetrics) (c : Channel)
    (h : (RoundRobinStrategy.Select counter ms).1 = some c) : ∃ m ∈ ms, m.Channel = c := by
  unfold RoundRobinStrategy.Select at h
  split at h
  · simp at h
  · simp only [Option.map_eq_some'] at h
    obtain ⟨m, hm, hmc⟩ := h
    exact ⟨m, List.get?_mem hm, hmc⟩

theorem runStrategy_mem (e : Engine) (hwf : e.wrr.WellFormed) (name : String) (rnd : Nat)
    (ms : List ChannelWithMetrics) :
    (e.runStrategy name rnd ms).2.wrr.WellFormed ∧
    ∀ c, (e.runStrategy name rnd ms).1 = some c → ∃ m ∈ ms, m.Channel.Id = c.Id := by
  unfold Engine.runStrategy
  split
  · exact WeightRoundRobinStrategy_Select_mem e.wrr hwf ms
  · split
    · refine ⟨hwf, fun c h => ?_⟩
      obtain ⟨m, hm, hmc⟩ := LowestCostStrategy_Select_mem rnd ms c h
      exact ⟨m, hm, by rw [hmc]⟩
    · split
      · refine ⟨hwf, fun c h => ?_⟩
        obtain ⟨m, hm, hmc⟩ := LowestLatencyStrategy_Select_mem rnd ms c h
        exact ⟨m, hm, by rw [hmc]⟩
      · split
        · refine ⟨hwf, fun c h => ?_⟩
          obtain ⟨m, hm, hmc⟩ := RoundRobinStrategy_Select_mem e.counter ms c h
          exact ⟨m, hm, by rw [hmc]⟩
        · refine ⟨hwf, fun c h => ?_⟩
          obtain ⟨m, hm, hmc⟩ := PriorityStrategy_Select_mem rnd ms c h
          exact ⟨m, hm, by rw [hmc]⟩

/-! ## Routing engine: health filters -/

theorem IsChannelHealthy_snd (db : DB) (id : Int) :
    (IsChannelHealthy db id).2 = (GetChannelHealth db id).2 := by
  unfold IsChannelHealthy
  rcases hg : GetChannelHealth db id with ⟨r, db1⟩
  cases r <;> rfl

theorem IsChannelHealthy_true {db : DB} {id : Int} (h : (IsChannelHealthy db id).1 = true) :
    db.failing = false ∧
      ((db.readHealth id).Status = "healthy" ∨ (db.readHealth id).Status = "unknown") := by
  cases hfail : db.failing with
  | true =>
    unfold IsChannelHealthy at h
    rw [GetChannelHealth_failing hfail] at h
    simp at h
  | false =>
    refine ⟨rfl, ?_⟩
    have h1 := GetChannelHealth_fst hfail id
    unfold IsChannelHealthy at h
    rcases hg : GetChannelHealth db id with ⟨r, db1⟩
    rw [hg] at h h1
    simp only at h1
    subst h1
    simpa using h

theorem filterHealthyChannels_spec (chs : List Channel) (db : DB) :
    (∀ id, (filterHealthyChannels db chs).2.readHealth id = db.readHealth id) ∧
    (filterHealthyChannels db chs).2.failing = db.failing ∧
    ∀ ch ∈ (filterHealthyChannels db chs).1,
      ch ∈ chs ∧ ch.Status = ChannelStatusEnabled ∧
        ((db.readHealth ch.Id).Status = "healthy" ∨ (db.readHealth ch.Id).Status = "unknown") := by
  induction chs generalizing db with
  | nil => simp [filterHealthyChannels]
  | cons c rest ih =>
    simp only [filterHealthyChannels]
    split
    · rename_i hen
      obtain ⟨h1, h2, h3⟩ := ih (IsChannelHealthy db c.Id).2
      have hr : ∀ id, (IsChannelHealthy db c.Id).2.readHealth id = db.readHealth id := by
        intro id; rw [IsChannelHealthy_snd]; exact GetChannelHealth_readHealth db c.Id id
      have hf : (IsChannelHealthy db c.Id).2.failing = db.failing := by
        rw [IsChannelHealthy_snd]; exact GetChannelHealth_failing_eq db c.Id
      refine ⟨fun id => by rw [h1, hr], by rw [h2, hf], ?_⟩
      intro ch hch
      have hrest : ch ∈ (filterHealthyChannels (IsChannelHealthy db c.Id).2 rest).1 →
          ch ∈ c :: rest ∧ ch.Status = ChannelStatusEnabled ∧
          ((db.readHealth ch.Id).Status = "healthy" ∨ (db.readHealth ch.Id).Status = "unknown") := by
        intro hm
        obtain ⟨a, b, d⟩ := h3 ch hm
        rw [hr] at d
        exact ⟨List.mem_cons_of_mem _ a, b, d⟩
      split at hch
      · rename_i hok
        rcases List.mem_cons.mp hch with heq | hm
        · subst heq
          exact ⟨List.mem_cons_self _ _, hen, (IsChannelHealthy_true hok).2⟩
        · exact hrest hm
      · exact hrest hch
    · obtain ⟨h1, h2, h3⟩ := ih db
      refine ⟨h1, h2, fun ch hch => ?_⟩
      obtain ⟨a, b, d⟩ := h3 ch hch
      exact ⟨List.mem_cons_of_mem _ a, b, d⟩

theorem filterUnknownChannels_spec (chs : List Channel) (db : DB) :
    (∀ id, (filterUnknownChannels db chs).2.readHealth id = db.readHealth id) ∧
    (filterUnknownChannels db chs).2.failing = db.failing ∧
    ∀ ch ∈ (filterUnknownChannels db chs).1,
      ch ∈ chs ∧ ch.Status = ChannelStatusEnabled ∧ (db.readHealth ch.Id).Status = "unknown" := by
  induction chs generalizing db with
  | nil => simp [filterUnknownChannels]
  | cons c rest ih =>
    simp only [filterUnknownChannels]
    split
    · rename_i hen
      obtain ⟨h1, h2, h3⟩ := ih (GetChannelHealth db c.Id).2
      have hr : ∀ id, (GetChannelHealth db c.Id).2.readHealth id = db.readHealth id :=
        fun id => GetChannelHealth_readHealth db c.Id id
      have hf := GetChannelHealth_failing_eq db c.Id
      have hrest : ∀ ch, ch ∈ (filterUnknownChannels (GetChannelHealth db c.Id).2 rest).1 →
          ch ∈ c :: rest ∧ ch.Status = ChannelStatusEnabled ∧
          (db.readHealth ch.Id).Status = "unknown" := by
        intro ch hm
        obtain ⟨a, b, d⟩ := h3 ch hm
        rw [hr] at d
        exact ⟨List.mem_cons_of_mem _ a, b, d⟩
      split
      · rename_i health hget
        refine ⟨fun id => by rw [h1, hr], by rw [h2, hf], ?_⟩
        intro ch hch
        split at hch
        · rename_i hunk
          rcases List.mem_cons.mp hch with heq | hm
          · subst heq
            refine ⟨List.mem_cons_self _ _, hen, ?_⟩
            have hok : db.failing = false := by
              cases hfail : db.failing with
              | false => rfl
              | true => rw [GetChannelHealth_failing hfail] at hget; simp at hget
            rw [GetChannelHealth_fst hok] at hget
            cases hget
            exact hunk
          · exact hrest ch hm
        · exact hrest ch hch
      · exact ⟨fun id => by rw [h1, hr], by rw [h2, hf], hrest⟩
    · obtain ⟨h1, h2, h3⟩ := ih db
      refine ⟨h1, h2, fun ch hch => ?_⟩
      obtain ⟨a, b, d⟩ := h3 ch hch
      exact ⟨List.mem_cons_of_mem _ a, b, d⟩

theorem loadChannelMetrics_mem (chs : List Channel) (db : DB) :
    ∀ m ∈ (loadChannelMetrics db chs).1, m.Channel ∈ chs := by
  induction chs generalizing db with
  | nil => simp [loadChannelMetrics]
  | cons c rest ih =>
    simp only [loadChannelMetrics]
    intro m hm
    split at hm
    · exact List.mem_cons_of_mem _ (ih _ m hm)
    · rcases List.mem_cons.mp hm with heq | hm2
      · subst heq; exact List.mem_cons_self _ _
      · exact List.mem_cons_of_mem _ (ih _ m hm2)

theorem selectAmong_mem (e : Engine) (hwf : e.wrr.WellFormed) (db : DB) (rnd : Nat)
    (elapsed : Int) (req : SelectRequest) (channels healthy : List Channel) (res : SelectResult)
    (h : (e.selectAmong db rnd elapsed req channels healthy).1 = .ok res) :
    ∃ ch ∈ healthy, ch.Id = res.Channel.Id := by
  unfold Engine.selectAmong at h
  simp only at h
  split at h
  · simp at h
  · rename_i c hsel
    simp only [Except.ok.injEq] at h
    subst h
    obtain ⟨m, hm, hmc⟩ := (runStrategy_mem e hwf _ rnd _).2 c hsel
    exact ⟨m.Channel, loadChannelMetrics_mem healthy db m hm, hmc⟩

/-- C1: whenever `Engine.SelectChannel` succeeds, the returned channel carries the id of a
candidate for (group, model) that is enabled and whose health status is `healthy` or
`unknown`, whichever strategy is used. -/
theorem SelectChannel_returns_enabled_healthy (e : Engine) (db : DB)
    (candidates : String → String → Except String (List Channel)) (rnd : Nat) (elapsed : Int)
    (req : SelectRequest) (res : SelectResult) (hwf : e.wrr.WellFormed)
    (hres : (e.SelectChannel db candidates rnd elapsed req).1 = .ok res) :
    ∃ channels, candidates req.Group req.Model = .ok channels ∧
      ∃ ch ∈ channels, ch.Id = res.Channel.Id ∧ ch.Status = ChannelStatusEnabled ∧
        ((db.readHealth ch.Id).Status = "healthy" ∨ (db.readHealth ch.Id).Status = "unknown") := by
  unfold Engine.SelectChannel at hres
  split at hres
  · simp at hres
  · rename_i channels hc
    refine ⟨channels, hc, ?_⟩
    split at hres
    · simp at hres
    · simp only at hres
      obtain ⟨f1, f2, f3⟩ := filterHealthyChannels_spec channels db
      split at hres
      · obtain ⟨u1, u2, u3⟩ := filterUnknownChannels_spec channels (filterHealthyChannels db channels).2
        split at hres
        · simp at hres
        · obtain ⟨ch, hch, hid⟩ := selectAmong_mem e hwf _ rnd elapsed req channels _ res hres
          obtain ⟨a, b, d⟩ := u3 ch hch
          rw [f1] at d
          exact ⟨ch, a, hid, b, Or.inr d⟩
      · obtain ⟨ch, hch, hid⟩ := selectAmong_mem e hwf _ rnd elapsed req channels _ res hres
        obtain ⟨a, b, d⟩ := f3 ch hch
        exact ⟨ch, a, hid, b, d⟩

/-! ## Smooth weighted round-robin: running weights -/

theorem lookupOrCreate_other (st : WRRState) (m : ChannelWithMetrics) (id : Int)
    (hid : id ≠ m.Channel.Id) : WeightRoundRobinStrategy.lookupOrCreate st m id = st id := by
  unfold WeightRoundRobinStrategy.lookupOrCreate
  cases h : st m.Channel.Id with
  | some wc => rfl
  | none => simp [WRRState.set, hid]

theorem lookupOrCreate_self (st : WRRState) (m : ChannelWithMetrics) :
    WeightRoundRobinStrategy.lookupOrCreate st m m.Channel.Id =
      some ((st m.Channel.Id).getD (newWeightedChannel m)) := by
  unfold WeightRoundRobinStrategy.lookupOrCreate
  cases h : st m.Channel.Id with
  | some wc => simp [h]
  | none => simp [WRRState.set]

theorem collect_fst (l : List ChannelWithMetrics)
    (hnd : (l.map (fun m => m.Channel.Id)).Nodup) (st : WRRState) :
    (∀ id, id ∉ l.map (fun m => m.Channel.Id) →
      (WeightRoundRobinStrategy.collect st l).1 id = st id) ∧
    (∀ m ∈ l, (WeightRoundRobinStrategy.collect st l).1 m.Channel.Id =
      some ((st m.Channel.Id).getD (newWeightedChannel m))) := by
  induction l generalizing st with
  | nil => simp [WeightRoundRobinStrategy.collect]
  | cons m rest ih =>
    simp only [List.map_cons, List.nodup_cons] at hnd
    obtain ⟨hm, hrest⟩ := hnd
    simp only [WeightRoundRobinStrategy.collect]
    obtain ⟨ih1, ih2⟩ := ih hrest (WeightRoundRobinStrategy.lookupOrCreate st m)
    constructor
    · intro id hid
      simp only [List.map_cons, List.mem_cons, not_or] at hid
      rw [ih1 id hid.2, lookupOrCreate_other st m id hid.1]
    · intro m' hm'
      rcases List.mem_cons.mp hm' with heq | hin
      · subst heq
        rw [ih1 _ hm, lookupOrCreate_self]
      · have hne : m'.Channel.Id ≠ m.Channel.Id := by
          intro e
          apply hm
          rw [← e]
          exact List.mem_map_of_mem _ hin
        rw [ih2 m' hin, lookupOrCreate_other _ _ _ hne]

theorem step_loopInv (st1 : WRRState) (P : List Int) (acc : WRRLoop) (id : Int)
    (hinv : WRRLoop.Invariant st1 P acc) (hid : id ∉ P) (hsome : (st1 id).isSome = true) :
    WRRLoop.Invariant st1 (P ++ [id]) (WeightRoundRobinStrategy.step acc id) := by
  obtain ⟨h1, h2, h3, h4, h5⟩ := hinv
  obtain ⟨wc, hwc⟩ := Option.isSome_iff_exists.mp hsome
  have hacc : acc.state id = some wc := by rw [h1 id, if_neg hid, hwc]
  have hraised : st1.raised id = (bump wc).CurrentWeight := by
    simp [WRRState.raised, WRRState.currentWeight, WRRState.effectiveWeight, hwc, bump]
  have hew : st1.effectiveWeight id = (bump wc).EffectiveWeight := by
    simp [WRRState.effectiveWeight, hwc, bump]
  unfold WeightRoundRobinStrategy.step
  rw [hacc]
  simp only
  refine ⟨?_, ?_, ?_, ?_, ?_⟩
  rotate_right
  · intro k hk
    rcases List.mem_append.mp hk with hk | hk
    · exact h5 k hk
    · simp at hk; subst hk; exact hsome
  · intro k
    by_cases hk : k = id
    · subst hk
      simp [WRRState.set, hwc]
    · have : k ∈ P ++ [id] ↔ k ∈ P := by simp [hk]
      simp only [WRRState.set, hk, if_false, h1 k, this]
  · simp [h2, hew]
  · intro h; simp at h
  · intro _
    by_cases hP : P = []
    · subst hP
      refine ⟨id, by simp, ?_, by simp⟩
      simp [h3 rfl]
    · obtain ⟨sid, hsid, hsel, hmax⟩ := h4 hP
      have hne : sid ≠ id := fun e => hid (e ▸ hsid)
      obtain ⟨wcs, hs⟩ := Option.isSome_iff_exists.mp (h5 sid hsid)
      have hb : acc.selected.bind (acc.state.set id (bump wc)) = some (bump wcs) := by
        rw [hsel]
        simp [WRRState.set, hne, h1 sid, hsid, hs]
      rw [hb]
      simp only
      have hrs : st1.raised sid = (bump wcs).CurrentWeight := by
        simp [WRRState.raised, WRRState.currentWeight, WRRState.effectiveWeight, hs, bump]
      by_cases hgt : (bump wc).CurrentWeight > (bump wcs).CurrentWeight
      · simp only [hgt, decide_True, if_true]
        refine ⟨id, by simp, rfl, ?_⟩
        intro k hk
        rcases List.mem_append.mp hk with hk | hk
        · have := hmax k hk
          rw [hraised]; rw [hrs] at this; omega
        · simp at hk; subst hk; exact le_refl _
      · simp only [hgt, decide_False, Bool.false_eq_true, if_false]
        refine ⟨sid, by simp [hsid], hsel, ?_⟩
        intro k hk
        rcases List.mem_append.mp hk with hk | hk
        · exact hmax k hk
        · simp at hk; subst hk; rw [hraised, hrs]; omega

theorem foldl_loopInv (st1 : WRRState) (R : List Int) (P : List Int) (acc : WRRLoop)
    (hinv : WRRLoop.Invariant st1 P acc) (hdisj : ∀ id ∈ R, id ∉ P) (hnd : R.Nodup)
    (hsome : ∀ id ∈ R, (st1 id).isSome = true) :
    WRRLoop.Invariant st1 (P ++ R) (R.foldl WeightRoundRobinStrategy.step acc) := by
  induction R generalizing P acc with
  | nil => simpa using hinv
  | cons id rest ih =>
    simp only [List.foldl_cons]
    have h1 := step_loopInv st1 P acc id hinv (hdisj id (List.mem_cons_self _ _))
      (hsome id (List.mem_cons_self _ _))
    have hnd2 := List.nodup_cons.mp hnd
    have := ih (P ++ [id]) (WeightRoundRobinStrategy.step acc id) h1
      (by
        intro k hk hkP
        rcases List.mem_append.mp hkP with h | h
        · exact hdisj k (List.mem_cons_of_mem _ hk) h
        · simp at h; subst h; exact hnd2.1 hk)
      hnd2.2 (fun k hk => hsome k (List.mem_cons_of_mem _ hk))
    simpa [List.append_assoc] using this

/-- What one `Select` does to the running weights of a fixed candidate list with
distinct ids: every weight is raised by the candidate's weight, the candidate with the
largest raised weight is returned, and the total is subtracted from its weight. -/
theorem WeightRoundRobinStrategy_Select_step (channels : List ChannelWithMetrics) (hne : channels ≠ [])
    (hnd : (channels.map (fun m => m.Channel.Id)).Nodup) (st : WRRState)
    (htr : st.Tracks channels) :
    ∃ sel ∈ channels,
      (∃ c, (WeightRoundRobinStrategy.Select st channels).1 = some c ∧
        c.Id = sel.Channel.Id) ∧
      (WeightRoundRobinStrategy.Select st channels).2.Tracks channels ∧
      (∀ m ∈ channels,
        (WeightRoundRobinStrategy.Select st channels).2.currentWeight m.Channel.Id =
          st.currentWeight m.Channel.Id + weightOf m -
            (if m.Channel.Id = sel.Channel.Id then totalWeightOf channels else 0)) ∧
      (∀ m ∈ channels, st.currentWeight m.Channel.Id + weightOf m ≤
        st.currentWeight sel.Channel.Id + weightOf sel) := by
  obtain ⟨_, hc2⟩ := collect_fst channels hnd st
  -- the entry of each candidate when the second loop starts
  have hentry : ∀ m ∈ channels, ∃ wc,
      (WeightRoundRobinStrategy.collect st channels).1 m.Channel.Id = some wc ∧
      wc.EffectiveWeight = weightOf m ∧ wc.Channel.Id = m.Channel.Id ∧
      wc.CurrentWeight = st.currentWeight m.Channel.Id := by
    intro m hm
    refine ⟨_, hc2 m hm, ?_⟩
    rcases htr m hm with h | ⟨wc, h, h2, h3⟩
    · simp [h, newWeightedChannel, WRRState.currentWeight]
    · simp [h, h2, h3, WRRState.currentWeight]
  generalize hst1 : (WeightRoundRobinStrategy.collect st channels).1 = st1 at hentry
  have hids : (WeightRoundRobinStrategy.collect st channels).2 =
      channels.map (fun m => m.Channel.Id) := collect_snd st channels
  have hinv := foldl_loopInv st1 (channels.map (fun m => m.Channel.Id)) []
    { state := st1, selected := none, totalWeight := 0 }
    ⟨by simp, by simp, by simp, by simp, by simp⟩ (by simp) hnd
    (by
      intro id hid
      obtain ⟨m, hm, rfl⟩ := List.mem_map.mp hid
      obtain ⟨wc, h, _⟩ := hentry m hm
      simp [h])
  simp only [List.nil_append] at hinv
  generalize hacc : (channels.map (fun m => m.Channel.Id)).foldl WeightRoundRobinStrategy.step
    { state := st1, selected := none, totalWeight := 0 } = acc at hinv
  obtain ⟨i1, i2, _, i4, _⟩ := hinv
  have hidsne : channels.map (fun m => m.Channel.Id) ≠ [] := by simpa using hne
  obtain ⟨sid, hsid, hsel, hmax⟩ := i4 hidsne
  obtain ⟨sel, hselmem, rfl⟩ := List.mem_map.mp hsid
  obtain ⟨wcs, hs1, hs2, hs3, hs4⟩ := hentry sel hselmem
  have htotal : acc.totalWeight = totalWeightOf channels := by
    rw [i2, totalWeightOf, List.map_map]
    apply congrArg
    apply List.map_congr_left
    intro m hm
    obtain ⟨wc, h, h2, _⟩ := hentry m hm
    simp [WRRState.effectiveWeight, h, h2]
  have hraised : ∀ m ∈ channels, st1.raised m.Channel.Id =
      st.currentWeight m.Channel.Id + weightOf m := by
    intro m hm
    obtain ⟨wc, h, h2, _, h4⟩ := hentry m hm
    simp [WRRState.raised, WRRState.currentWeight, WRRState.effectiveWeight, h, h2, h4]
  have haccsel : acc.state sel.Channel.Id = some (bump wcs) := by
    rw [i1, if_pos hsid, hs1]; rfl
  have hSel : WeightRoundRobinStrategy.Select st channels =
      (some (bump wcs).Channel,
        acc.state.set sel.Channel.Id
          { bump wcs with CurrentWeight := (bump wcs).CurrentWeight - acc.totalWeight }) := by
    unfold WeightRoundRobinStrategy.Select
    have : ¬ channels.length = 0 := by simpa using hne
    rw [if_neg this]
    simp only [hst1, hids, hacc, hsel, haccsel]
  refine ⟨sel, hselmem, ⟨(bump wcs).Channel, by rw [hSel], by simpa [bump] using hs3⟩, ?_, ?_, ?_⟩
  · intro m hm
    right
    rw [hSel]
    simp only [WRRState.set]
    by_cases hmid : m.Channel.Id = sel.Channel.Id
    · have hmeq : m = sel := List.inj_on_of_nodup_map hnd hm hselmem hmid
      subst hmeq
      refine ⟨{ bump wcs with CurrentWeight := (bump wcs).CurrentWeight - acc.totalWeight },
        by simp, by simpa [bump] using hs2, by simpa [bump] using hs3⟩
    · obtain ⟨wc, h, h2, h3, _⟩ := hentry m hm
      refine ⟨bump wc, ?_, by simpa [bump] using h2, by simpa [bump] using h3⟩
      simp only [hmid, if_false]
      rw [i1, if_pos (List.mem_map_of_mem _ hm), h]; rfl
  · intro m hm
    rw [hSel]
    simp only [WRRState.currentWeight, WRRState.set]
    by_cases hmid : m.Channel.Id = sel.Channel.Id
    · have hmeq : m = sel := List.inj_on_of_nodup_map hnd hm hselmem hmid
      subst hmeq
      simp [bump, hs2, hs4, htotal, WRRState.currentWeight]
    · obtain ⟨wc, h, h2, _, h4⟩ := hentry m hm
      simp only [hmid, if_false]
      rw [i1, if_pos (List.mem_map_of_mem _ hm), h]
      simp [bump, h2, h4, WRRState.currentWeight]
  · intro m hm
    have := hmax m.Channel.Id (List.mem_map_of_mem _ hm)
    rw [hraised m hm, hraised sel hselmem] at this
    exact this

/-! ### Sums over the candidate list -/

theorem sum_map_add_sub {α : Type} (l : List α) (f g h : α → Int) :
    (l.map (fun x => f x + g x - h x)).sum = (l.map f).sum + (l.map g).sum - (l.map h).sum := by
  induction l with
  | nil => simp
  | cons a rest ih => simp only [List.map_cons, List.sum_cons, ih]; ring

theorem sum_indicator {α : Type} (l : List α) (f : α → Int) (hnd : (l.map f).Nodup) (sel : α)
    (hsel : sel ∈ l) (W : Int) :
    (l.map (fun x => if f x = f sel then W else 0)).sum = W := by
  induction l with
  | nil => simp at hsel
  | cons a rest ih =>
    simp only [List.map_cons, List.nodup_cons] at hnd
    obtain ⟨ha, hrest⟩ := hnd
    simp only [List.map_cons, List.sum_cons]
    by_cases hfa : f a = f sel
    · have hzero : ∀ x ∈ rest, (if f x = f sel then W else 0) = (fun _ => (0 : Int)) x := by
        intro x hx
        have : ¬ f x = f sel := by
          intro e
          apply ha
          rw [hfa, ← e]
          exact List.mem_map_of_mem _ hx
        simp [this]
      rw [List.map_congr_left hzero, if_pos hfa]
      simp
    · rw [if_neg hfa]
      have hin : sel ∈ rest := by
        rcases List.mem_cons.mp hsel with h | h
        · exact absurd (by rw [h]) hfa
        · exact h
      rw [ih hrest hin]
      simp

theorem exists_pos_of_sum_pos {α : Type} (l : List α) (g : α → Int)
    (h : 0 < (l.map g).sum) : ∃ x ∈ l, 0 < g x := by
  induction l with
  | nil => simp at h
  | cons a rest ih =>
    simp only [List.map_cons, List.sum_cons] at h
    by_cases ha : 0 < g a
    · exact ⟨a, List.mem_cons_self _ _, ha⟩
    · obtain ⟨x, hx, hgx⟩ := ih (by omega)
      exact ⟨x, List.mem_cons_of_mem _ hx, hgx⟩

theorem le_sum_of_nonneg {α : Type} (l : List α) (g : α → Int) (hnn : ∀ x ∈ l, 0 ≤ g x)
    (x : α) (hx : x ∈ l) : g x ≤ (l.map g).sum := by
  induction l with
  | nil => simp at hx
  | cons a rest ih =>
    simp only [List.map_cons, List.sum_cons]
    have hrest : 0 ≤ (rest.map g).sum := by
      apply List.sum_nonneg
      intro y hy
      obtain ⟨z, hz, rfl⟩ := List.mem_map.mp hy
      exact hnn z (List.mem_cons_of_mem _ hz)
    rcases List.mem_cons.mp hx with h | h
    · subst h; omega
    · have := ih (fun y hy => hnn y (List.mem_cons_of_mem _ hy)) h
      have := hnn a (List.mem_cons_self _ _)
      omega

theorem sum_map_add_const {α : Type} (l : List α) (g : α → Int) (c : Int) :
    (l.map (fun x => g x + c)).sum = (l.map g).sum + l.length * c := by
  induction l with
  | nil => simp
  | cons a rest ih =>
    simp only [List.map_cons, List.sum_cons, ih, List.length_cons]
    push_cast
    ring

theorem totalWeightOf_pos (channels : List ChannelWithMetrics) (hne : channels ≠ [])
    (hw : ∀ m ∈ channels, 1 ≤ weightOf m) : 1 ≤ totalWeightOf channels := by
  cases channels with
  | nil => exact absurd rfl hne
  | cons a rest =>
    unfold totalWeightOf
    have := le_sum_of_nonneg (a :: rest) weightOf
      (fun x hx => le_trans (by norm_num) (hw x hx)) a (List.mem_cons_self _ _)
    have := hw a (List.mem_cons_self _ _)
    omega

theorem empty_balanced (channels : List ChannelWithMetrics) (hne : channels ≠ [])
    (hw : ∀ m ∈ channels, 1 ≤ weightOf m) : WRRState.empty.Balanced channels := by
  have hW := totalWeightOf_pos channels hne hw
  refine ⟨fun m _ => Or.inl rfl, ?_, ?_⟩
  · have : ∀ m ∈ channels, (fun m : ChannelWithMetrics =>
        WRRState.empty.currentWeight m.Channel.Id) m = (fun _ => (0 : Int)) m := by
      intro m _; rfl
    rw [List.map_congr_left this]
    simp
  · intro m _
    show - totalWeightOf channels < 0
    omega

theorem WeightRoundRobinStrategy_Select_balanced (channels : List ChannelWithMetrics) (hne : channels ≠ [])
    (hnd : (channels.map (fun m => m.Channel.Id)).Nodup)
    (hw : ∀ m ∈ channels, 1 ≤ weightOf m) (st : WRRState) (hb : st.Balanced channels) :
    (WeightRoundRobinStrategy.Select st channels).2.Balanced channels ∧
    ∃ sel ∈ channels,
      (∃ c, (WeightRoundRobinStrategy.Select st channels).1 = some c ∧
        c.Id = sel.Channel.Id) ∧
      ∀ m ∈ channels,
        (WeightRoundRobinStrategy.Select st channels).2.currentWeight m.Channel.Id =
          st.currentWeight m.Channel.Id + weightOf m -
            (if m.Channel.Id = sel.Channel.Id then totalWeightOf channels else 0) := by
  obtain ⟨htr, hsum, hlow⟩ := hb
  obtain ⟨sel, hsel, hc, htr2, hcw, hmax⟩ := WeightRoundRobinStrategy_Select_step channels hne hnd st htr
  have hW := totalWeightOf_pos channels hne hw
  refine ⟨⟨htr2, ?_, ?_⟩, sel, hsel, hc, hcw⟩
  · rw [List.map_congr_left hcw, sum_map_add_sub, hsum,
      sum_indicator channels (fun m => m.Channel.Id) hnd sel hsel]
    unfold totalWeightOf
    ring
  · intro m hm
    rw [hcw m hm]
    by_cases hmid : m.Channel.Id = sel.Channel.Id
    · rw [if_pos hmid]
      have hpos : 0 < (channels.map (fun m => st.currentWeight m.Channel.Id + weightOf m)).sum := by
        have := sum_map_add_sub channels (fun m => st.currentWeight m.Channel.Id) weightOf
          (fun _ => 0)
        simp only [sub_zero, List.map_const', List.sum_replicate, smul_zero] at this
        rw [this, hsum]
        unfold totalWeightOf at hW
        omega
      obtain ⟨x, hx, hxpos⟩ := exists_pos_of_sum_pos channels _ hpos
      have h1 := hmax x hx
      have h2 := hmax m hm
      have hmeq : m = sel := List.inj_on_of_nodup_map hnd hm hsel hmid
      subst hmeq
      omega
    · rw [if_neg hmid]
      have := hlow m hm
      have := hw m hm
      omega

theorem selectionCount_cons (id : Int) (c : Channel) (rest : List (Option Channel)) :
    (selectionCount id (some c :: rest) : Int) =
      (if c.Id = id then 1 else 0) + selectionCount id rest := by
  unfold selectionCount
  by_cases h : c.Id = id
  · simp [List.countP_cons, h]; ring
  · simp [List.countP_cons, h]

theorem selectN_balanced (channels : List ChannelWithMetrics) (hne : channels ≠ [])
    (hnd : (channels.map (fun m => m.Channel.Id)).Nodup)
    (hw : ∀ m ∈ channels, 1 ≤ weightOf m) (N : Nat) (st : WRRState)
    (hb : st.Balanced channels) :
    (WeightRoundRobinStrategy.selectN st channels N).2.Balanced channels ∧
    ∀ m ∈ channels,
      totalWeightOf channels *
          (selectionCount m.Channel.Id (WeightRoundRobinStrategy.selectN st channels N).1 : Int) =
        N * weightOf m -
          ((WeightRoundRobinStrategy.selectN st channels N).2.currentWeight m.Channel.Id -
            st.currentWeight m.Channel.Id) := by
  induction N generalizing st with
  | zero =>
    refine ⟨hb, fun m _ => ?_⟩
    simp [WeightRoundRobinStrategy.selectN, selectionCount]
  | succ N ih =>
    obtain ⟨hb1, sel, hsel, ⟨c, hc, hcid⟩, hcw⟩ := WeightRoundRobinStrategy_Select_balanced channels hne hnd hw st hb
    obtain ⟨hb2, hcount⟩ := ih (WeightRoundRobinStrategy.Select st channels).2 hb1
    simp only [WeightRoundRobinStrategy.selectN]
    refine ⟨hb2, fun m hm => ?_⟩
    rw [hc, selectionCount_cons, mul_add, hcount m hm, hcw m hm, hcid]
    by_cases hmid : m.Channel.Id = sel.Channel.Id
    · have : sel.Channel.Id = m.Channel.Id := hmid.symm
      rw [if_pos hmid, if_pos this]
      push_cast
      ring
    · have : ¬ sel.Channel.Id = m.Channel.Id := fun e => hmid e.symm
      rw [if_neg hmid, if_neg this]
      push_cast
      ring

theorem balanced_upper (channels : List ChannelWithMetrics) (st : WRRState)
    (hb : st.Balanced channels) (m : ChannelWithMetrics) (hm : m ∈ channels) :
    st.currentWeight m.Channel.Id ≤
      ((channels.length : Int) - 1) * (totalWeightOf channels - 1) := by
  obtain ⟨_, hsum, hlow⟩ := hb
  have h := le_sum_of_nonneg channels
    (fun m => st.currentWeight m.Channel.Id + (totalWeightOf channels - 1))
    (fun x hx => by have := hlow x hx; simp only; omega) m hm
  rw [sum_map_add_const, hsum] at h
  simp only at h
  linarith

/-- C9 (amended): for a fixed candidate list with distinct ids and weights `wᵢ ≥ 1`, served
by a new strategy without failure or success reports, over any window of `N` consecutive
`Select` calls the number of selections of channel `i` differs from `N·wᵢ/Σw` by less
than the number of candidates: `|Σw · count − N · wᵢ| < n · Σw`. -/
theorem windowCount_within_candidates (channels : List ChannelWithMetrics)
    (hnd : (channels.map (fun m => m.Channel.Id)).Nodup)
    (hw : ∀ m ∈ channels, 1 ≤ weightOf m) (a N : Nat) (m : ChannelWithMetrics)
    (hm : m ∈ channels) :
    |totalWeightOf channels * (windowCount channels a N m.Channel.Id : Int) - N * weightOf m|
      < channels.length * totalWeightOf channels := by
  have hne : channels ≠ [] := List.ne_nil_of_mem hm
  have hW := totalWeightOf_pos channels hne hw
  have hlen : (1 : Int) ≤ channels.length := by
    have := List.length_pos.mpr hne
    omega
  obtain ⟨ha, _⟩ := selectN_balanced channels hne hnd hw a WRRState.empty
    (empty_balanced channels hne hw)
  obtain ⟨hb, hcount⟩ := selectN_balanced channels hne hnd hw N _ ha
  have hc := hcount m hm
  have hup_a := balanced_upper channels _ ha m hm
  have hup_b := balanced_upper channels _ hb m hm
  have hlo_a := ha.2.2 m hm
  have hlo_b := hb.2.2 m hm
  unfold windowCount
  rw [hc]
  have hprod : ((channels.length : Int) - 1) * (totalWeightOf channels - 1) =
      channels.length * totalWeightOf channels - channels.length - totalWeightOf channels + 1 := by
    ring
  rw [hprod] at hup_a hup_b
  rw [abs_lt]
  constructor <;> linarith

/-- Instance of C9 (amended): weights 1, 1, 5, the window made of the third, fourth and
fifth selection, the channel of weight 5. -/
theorem windowCount_within_candidates_witness :
    |totalWeightOf [sampleCandidate 1 (some 1) none, sampleCandidate 2 (some 1) none,
          sampleCandidate 3 (some 5) none] *
        (windowCount [sampleCandidate 1 (some 1) none, sampleCandidate 2 (some 1) none,
          sampleCandidate 3 (some 5) none] 2 3 (sampleCandidate 3 (some 5) none).Channel.Id : Int)
        - (3 : Nat) * weightOf (sampleCandidate 3 (some 5) none)|
      < ([sampleCandidate 1 (some 1) none, sampleCandidate 2 (some 1) none,
          sampleCandidate 3 (some 5) none].length : Int) *
        totalWeightOf [sampleCandidate 1 (some 1) none, sampleCandidate 2 (some 1) none,
          sampleCandidate 3 (some 5) none] :=
  windowCount_within_candidates _ (by decide) (by decide) 2 3 _ (by decide)

theorem group_snd_ge (ms : List ChannelWithMetrics) (g : Int → List ChannelWithMetrics)
    (mx : Int) :
    mx ≤ (PriorityStrategy.group ms (g, mx)).2 ∧
    ∀ m ∈ ms, priorityOf m ≤ (PriorityStrategy.group ms (g, mx)).2 := by
  induction ms generalizing g mx with
  | nil => simp [PriorityStrategy.group]
  | cons m rest ih =>
    simp only [PriorityStrategy.group]
    obtain ⟨h1, h2⟩ := ih (fun k => if k = priorityOf m then g (priorityOf m) ++ [m] else g k)
      (if priorityOf m > mx then priorityOf m else mx)
    refine ⟨le_trans (by split <;> omega) h1, fun m2 hm2 => ?_⟩
    rcases List.mem_cons.mp hm2 with heq | hin
    · subst heq
      exact le_trans (by split <;> omega) h1
    · exact h2 m2 hin

/-- Whenever `PriorityStrategy.Select` returns a channel, it is a candidate whose priority
is maximal among the candidates. -/
theorem PriorityStrategy_Select_some_max (rnd : Nat) (ms : List ChannelWithMetrics)
    (c : Channel) (h : PriorityStrategy.Select rnd ms = some c) :
    ∃ m ∈ ms, m.Channel = c ∧ ∀ m2 ∈ ms, priorityOf m2 ≤ priorityOf m := by
  unfold PriorityStrategy.Select at h
  split at h
  · simp at h
  · simp only at h
    split at h
    · rw [group_fst] at h
      simp only [List.nil_append, Option.map_eq_some'] at h
      obtain ⟨m, hm, hmc⟩ := h
      have hmem := List.mem_filter.mp (List.get?_mem hm)
      refine ⟨m, hmem.1, hmc, fun m2 hm2 => ?_⟩
      have hp : priorityOf m = (PriorityStrategy.group ms (fun _ => [], 0)).2 := by
        simpa using hmem.2
      rw [hp]
      exact (group_snd_ge ms _ 0).2 m2 hm2
    · simp at h

/-- C10 (evaluation at the failing input): for a single candidate of priority -1,
`PriorityStrategy.Select` returns no channel, whatever the random draw. -/
theorem PriorityStrategy_Select_negative_priority :
    ∀ rnd : Nat, PriorityStrategy.Select rnd [sampleCandidate 1 none (some (-1))] = none := by
  intro rnd
  rfl

/-- C9 (counterexample): with weights 1, 1, 5 the channel of weight 5 is selected once
in the window made of the third, fourth and fifth selection, while `N·w/Σw = 15/7`;
the difference `8/7` exceeds 1. -/
theorem windowCount_not_within_one :
    ¬ (|totalWeightOf [sampleCandidate 1 (some 1) none, sampleCandidate 2 (some 1) none,
          sampleCandidate 3 (some 5) none] *
          (windowCount [sampleCandidate 1 (some 1) none, sampleCandidate 2 (some 1) none,
            sampleCandidate 3 (some 5) none] 2 3 3 : Int)
        - 3 * weightOf (sampleCandidate 3 (some 5) none)|
      ≤ totalWeightOf [sampleCandidate 1 (some 1) none, sampleCandidate 2 (some 1) none,
          sampleCandidate 3 (some 5) none]) := by
  decide

/-! ## The map of the weighted round-robin strategy stays well-formed -/

theorem WRRState.empty_wellFormed : WRRState.empty.WellFormed := by
  intro id wc h
  simp [WRRState.empty] at h

theorem OnChannelFailed_wellFormed (st : WRRState) (hwf : st.WellFormed) (id : Int) :
    (WeightRoundRobinStrategy.OnChannelFailed st id).WellFormed := by
  unfold WeightRoundRobinStrategy.OnChannelFailed
  split
  · rename_i wc hwc
    exact WRRState.set_wellFormed hwf _ _ (hwf id wc hwc)
  · exact hwf

theorem OnChannelSuccess_wellFormed (st : WRRState) (hwf : st.WellFormed) (id : Int) :
    (WeightRoundRobinStrategy.OnChannelSuccess st id).WellFormed := by
  unfold WeightRoundRobinStrategy.OnChannelSuccess
  split
  · rename_i wc hwc
    split
    · exact WRRState.set_wellFormed hwf _ _ (hwf id wc hwc)
    · exact hwf
  · exact hwf

theorem SelectChannel_wellFormed (e : Engine) (db : DB)
    (candidates : String → String → Except String (List Channel)) (rnd : Nat) (elapsed : Int)
    (req : SelectRequest) (hwf : e.wrr.WellFormed) :
    (e.SelectChannel db candidates rnd elapsed req).2.1.wrr.WellFormed := by
  have key : ∀ db2 healthy,
      (e.selectAmong db2 rnd elapsed req (match candidates req.Group req.Model with
        | .ok channels => channels
        | .error _ => []) healthy).2.1.wrr.WellFormed := by
    intro db2 healthy
    unfold Engine.selectAmong
    simp only
    split <;> exact (runStrategy_mem e hwf _ rnd _).1
  unfold Engine.SelectChannel
  split
  · exact hwf
  · rename_i channels hc
    rw [hc] at key
    simp only at key
    split
    · exact hwf
    · simp only
      split
      · split
        · exact hwf
        · exact key _ _
      · exact key _ _

/-- Instance of C1: a new engine, an empty health table and one enabled candidate. -/
theorem SelectChannel_returns_enabled_healthy_witness :
    NewEngine.wrr.WellFormed ∧
    ∃ channels, (fun _ _ => Except.ok [sampleChannel 1] : String → String →
        Except String (List Channel)) "default" "m" = .ok channels ∧
      ∃ ch ∈ channels, ch.Id = (sampleChannel 1).Id ∧ ch.Status = ChannelStatusEnabled ∧
        (((emptyDB 0).readHealth ch.Id).Status = "healthy" ∨
          ((emptyDB 0).readHealth ch.Id).Status = "unknown") :=
  ⟨WRRState.empty_wellFormed,
    SelectChannel_returns_enabled_healthy NewEngine (emptyDB 0)
      (fun _ _ => Except.ok [sampleChannel 1]) 0 0
      { RequestID := "r", UserID := 1, Group := "default", Model := "m", Strategy := "" }
      { Channel := sampleChannel 1, Reason := "Selected by priority strategy",
        CandidateCount := 1, DecisionTime := 0 }
      WRRState.empty_wellFormed rfl⟩

/-! ## Routing engine: errors -/

theorem noCandidates_ne_noHealthy (a b : String) :
    "no available channels for group=" ++ a ≠ "no healthy channels available for group=" ++ b := by
  intro h
  have h1 := congrArg String.data h
  simp only [String.data_append] at h1
  have h2 := congrArg (fun l => l.get? 3) h1
  simp at h2

theorem noCandidates_ne_strategy (a b : String) :
    "no available channels for group=" ++ a ≠ "strategy " ++ b := by
  intro h
  have h1 := congrArg String.data h
  simp only [String.data_append] at h1
  have h2 := congrArg (fun l => l.get? 0) h1
  simp at h2

theorem noHealthy_ne_strategy (a b : String) :
    "no healthy channels available for group=" ++ a ≠ "strategy " ++ b := by
  intro h
  have h1 := congrArg String.data h
  simp only [String.data_append] at h1
  have h2 := congrArg (fun l => l.get? 0) h1
  simp at h2

theorem IsChannelHealthy_fst {db : DB} (hok : db.failing = false) (id : Int) :
    (IsChannelHealthy db id).1 =
      ((db.readHealth id).Status == "healthy" || (db.readHealth id).Status == "unknown") := by
  have h1 := GetChannelHealth_fst hok id
  unfold IsChannelHealthy
  rcases hg : GetChannelHealth db id with ⟨r, db1⟩
  rw [hg] at h1
  simp only at h1
  subst h1
  rfl

/-- With the health store readable, the primary filter keeps every enabled channel whose
status is `healthy` or `unknown`. -/
theorem filterHealthyChannels_complete (chs : List Channel) (db : DB) (hok : db.failing = false)
    (ch : Channel) (hm : ch ∈ chs) (hen : ch.Status = ChannelStatusEnabled)
    (hst : (db.readHealth ch.Id).Status = "healthy" ∨ (db.readHealth ch.Id).Status = "unknown") :
    ch ∈ (filterHealthyChannels db chs).1 := by
  induction chs generalizing db with
  | nil => cases hm
  | cons c rest ih =>
    have hr : ∀ id, (IsChannelHealthy db c.Id).2.readHealth id = db.readHealth id := by
      intro id; rw [IsChannelHealthy_snd]; exact GetChannelHealth_readHealth db c.Id id
    have hf : (IsChannelHealthy db c.Id).2.failing = false := by
      rw [IsChannelHealthy_snd, GetChannelHealth_failing_eq]; exact hok
    simp only [filterHealthyChannels]
    rcases List.mem_cons.mp hm with heq | hrest
    · subst heq
      rw [if_pos hen]
      have hv : (IsChannelHealthy db ch.Id).1 = true := by
        rw [IsChannelHealthy_fst hok]
        rcases hst with h | h <;> simp [h]
      simp only [hv, if_true]
      exact List.mem_cons_self _ _
    · split
      · have := ih (IsChannelHealthy db c.Id).2 hf hrest (by rw [hr]; exact hst)
        simp only
        split
        · exact List.mem_cons_of_mem _ this
        · exact this
      · exact ih db hok hrest hst

theorem selectAmong_error_is_strategy (e : Engine) (db : DB) (rnd : Nat) (elapsed : Int)
    (req : SelectRequest) (channels healthy : List Channel) (msg : String)
    (hmsg : ∀ b : String, msg ≠ "strategy " ++ b) :
    (e.selectAmong db rnd elapsed req channels healthy).1 ≠ .error msg := by
  unfold Engine.selectAmong
  simp only
  split
  · intro h
    simp only [Except.error.injEq] at h
    rw [String.append_assoc] at h
    exact hmsg _ h.symm
  · intro h
    cases h

/-- C11: with the health store readable, `Engine.SelectChannel` fails with the
no-candidates error exactly when the candidate list for (group, model) is empty, and
with the no-healthy error exactly when the list is non-empty and holds no enabled channel
whose health status is `healthy` or `unknown`. -/
theorem SelectChannel_error_iff (e : Engine) (db : DB)
    (candidates : String → String → Except String (List Channel)) (rnd : Nat) (elapsed : Int)
    (req : SelectRequest) (channels : List Channel) (hok : db.failing = false)
    (hc : candidates req.Group req.Model = .ok channels) :
    ((e.SelectChannel db candidates rnd elapsed req).1 =
        .error ("no available channels for group=" ++ req.Group ++ ", model=" ++ req.Model) ↔
      channels = []) ∧
    ((e.SelectChannel db candidates rnd elapsed req).1 =
        .error ("no healthy channels available for group=" ++ req.Group ++ ", model=" ++
          req.Model) ↔
      channels ≠ [] ∧ ¬ ∃ ch ∈ channels, ch.Status = ChannelStatusEnabled ∧
        ((db.readHealth ch.Id).Status = "healthy" ∨ (db.readHealth ch.Id).Status = "unknown")) := by
  have hA : ∀ b : String,
      "no available channels for group=" ++ req.Group ++ ", model=" ++ req.Model ≠
        "strategy " ++ b := by
    intro b
    rw [String.append_assoc, String.append_assoc]
    exact noCandidates_ne_strategy _ _
  have hH : ∀ b : String,
      "no healthy channels available for group=" ++ req.Group ++ ", model=" ++ req.Model ≠
        "strategy " ++ b := by
    intro b
    rw [String.append_assoc, String.append_assoc]
    exact noHealthy_ne_strategy _ _
  have hAH : "no available channels for group=" ++ req.Group ++ ", model=" ++ req.Model ≠
      "no healthy channels available for group=" ++ req.Group ++ ", model=" ++ req.Model := by
    rw [String.append_assoc, String.append_assoc, String.append_assoc, String.append_assoc]
    exact noCandidates_ne_noHealthy _ _
  obtain ⟨hs1, hs2, hs3⟩ := filterHealthyChannels_spec channels db
  obtain ⟨hu1, hu2, hu3⟩ := filterUnknownChannels_spec channels (filterHealthyChannels db channels).2
  unfold Engine.SelectChannel
  rw [hc]
  simp only
  by_cases hnil : channels = []
  · subst hnil
    simp only [List.length_nil, if_true, true_iff, ne_eq, not_true_eq_false, false_and,
      iff_false]
    refine ⟨trivial, fun h => ?_⟩
    simp only [Except.error.injEq] at h
    exact hAH h
  · have hlen : ¬ channels.length = 0 := fun h => hnil (List.length_eq_zero.mp h)
    rw [if_neg hlen]
    by_cases hex : ∃ ch ∈ channels, ch.Status = ChannelStatusEnabled ∧
        ((db.readHealth ch.Id).Status = "healthy" ∨ (db.readHealth ch.Id).Status = "unknown")
    · obtain ⟨ch, hm, hen, hst⟩ := hex
      have hin := filterHealthyChannels_complete channels db hok ch hm hen hst
      have hl : ¬ (filterHealthyChannels db channels).1.length = 0 := by
        intro h0
        rw [List.length_eq_zero.mp h0] at hin
        cases hin
      rw [if_neg hl]
      refine ⟨⟨fun h => absurd h (selectAmong_error_is_strategy _ _ _ _ _ _ _ _ hA),
        fun h => absurd h hnil⟩, ⟨fun h => absurd h
          (selectAmong_error_is_strategy _ _ _ _ _ _ _ _ hH), fun h => ?_⟩⟩
      exact absurd ⟨ch, hm, hen, hst⟩ h.2
    · have hl : (filterHealthyChannels db channels).1.length = 0 := by
        rw [List.length_eq_zero]
        apply List.eq_nil_iff_forall_not_mem.mpr
        intro ch hch
        obtain ⟨a, b, c⟩ := hs3 ch hch
        exact hex ⟨ch, a, b, c⟩
      have hl2 : (filterUnknownChannels (filterHealthyChannels db channels).2 channels).1.length
          = 0 := by
        rw [List.length_eq_zero]
        apply List.eq_nil_iff_forall_not_mem.mpr
        intro ch hch
        obtain ⟨a, b, c⟩ := hu3 ch hch
        rw [hs1] at c
        exact hex ⟨ch, a, b, Or.inr c⟩
      rw [if_pos hl, if_pos hl2]
      simp only [Except.error.injEq, ne_eq, hnil, not_false_eq_true, true_and, hex, iff_true,
        iff_false]
      exact ⟨fun h => hAH h.symm, trivial⟩

/-- Instance of C11: a new engine, an empty health table and one enabled candidate. -/
theorem SelectChannel_error_iff_witness :
    (emptyDB 0).failing = false ∧
    (fun (_ _ : String) => (Except.ok [sampleChannel 1] : Except String (List Channel)))
      "default" "m" = .ok [sampleChannel 1] ∧
    (((NewEngine.SelectChannel (emptyDB 0) (fun _ _ => .ok [sampleChannel 1]) 0 0
          (SelectRequest.mk "r" 1 "default" "m" "")).1 =
        .error ("no available channels for group=" ++ "default" ++ ", model=" ++ "m") ↔
      [sampleChannel 1] = []) ∧
    ((NewEngine.SelectChannel (emptyDB 0) (fun _ _ => .ok [sampleChannel 1]) 0 0
          (SelectRequest.mk "r" 1 "default" "m" "")).1 =
        .error ("no healthy channels available for group=" ++ "default" ++ ", model=" ++
          "m") ↔
      [sampleChannel 1] ≠ [] ∧ ¬ ∃ ch ∈ [sampleChannel 1], ch.Status = ChannelStatusEnabled ∧
        (((emptyDB 0).readHealth ch.Id).Status = "healthy" ∨
          ((emptyDB 0).readHealth ch.Id).Status = "unknown"))) :=
  ⟨rfl, rfl, SelectChannel_error_iff NewEngine (emptyDB 0) (fun _ _ => .ok [sampleChannel 1]) 0 0
    (SelectRequest.mk "r" 1 "default" "m" "") [sampleChannel 1] rfl rfl⟩

theorem filterHealthyChannels_failing (chs : List Channel) (db : DB) (hf : db.failing = true) :
    filterHealthyChannels db chs = ([], db) := by
  induction chs with
  | nil => rfl
  | cons c rest ih =>
    simp only [filterHealthyChannels, IsChannelHealthy, GetChannelHealth_failing hf, ih]
    split <;> rfl

theorem filterUnknownChannels_failing (chs : List Channel) (db : DB) (hf : db.failing = true) :
    filterUnknownChannels db chs = ([], db) := by
  induction chs with
  | nil => rfl
  | cons c rest ih =>
    simp only [filterUnknownChannels, GetChannelHealth_failing hf, ih]
    split <;> rfl

/-- C14 (counterexample): with reads of the health store failing, the request for the
single enabled candidate channel 1 is refused with the no-healthy error. -/
theorem SelectChannel_fails_when_store_down :
    (NewEngine.SelectChannel { emptyDB 0 with failing := true }
      (fun _ _ => .ok [sampleChannel 1]) 0 0 (SelectRequest.mk "r" 1 "default" "m" "")).1 =
      .error "no healthy channels available for group=default, model=m" ∧
    (sampleChannel 1).Status = ChannelStatusEnabled := by
  constructor
  · rfl
  · rfl

/-- C14 (amended): when reads of the health store return an error, `IsChannelHealthy`
reports every channel as not healthy and the fallback finds no record, so for every
non-empty candidate list `Engine.SelectChannel` fails with the no-healthy error and
leaves the engine and the database as they are. -/
theorem SelectChannel_store_down (e : Engine) (db : DB)
    (candidates : String → String → Except String (List Channel)) (rnd : Nat) (elapsed : Int)
    (req : SelectRequest) (channels : List Channel) (hf : db.failing = true)
    (hc : candidates req.Group req.Model = .ok channels) (hne : channels ≠ []) :
    e.SelectChannel db candidates rnd elapsed req =
      (.error ("no healthy channels available for group=" ++ req.Group ++ ", model=" ++
        req.Model), e, db) := by
  have hlen : ¬ channels.length = 0 := fun h => hne (List.length_eq_zero.mp h)
  unfold Engine.SelectChannel
  rw [hc]
  simp only [if_neg hlen, filterHealthyChannels_failing channels db hf,
    filterUnknownChannels_failing channels db hf, List.length_nil, if_true]

/-- Instance of C14 (amended): two enabled candidates, the health store unreadable. -/
theorem SelectChannel_store_down_witness :
    ({ emptyDB 0 with failing := true } : DB).failing = true ∧
    (fun (_ _ : String) => (Except.ok [sampleChannel 1, sampleChannel 2] :
      Except String (List Channel))) "default" "m" = .ok [sampleChannel 1, sampleChannel 2] ∧
    [sampleChannel 1, sampleChannel 2] ≠ [] ∧
    NewEngine.SelectChannel { emptyDB 0 with failing := true }
      (fun _ _ => .ok [sampleChannel 1, sampleChannel 2]) 0 0
      (SelectRequest.mk "r" 1 "default" "m" "") =
      (.error ("no healthy channels available for group=" ++ "default" ++ ", model=" ++ "m"),
        NewEngine, { emptyDB 0 with failing := true }) :=
  ⟨rfl, rfl, by decide, SelectChannel_store_down NewEngine { emptyDB 0 with failing := true }
    (fun _ _ => .ok [sampleChannel 1, sampleChannel 2]) 0 0
    (SelectRequest.mk "r" 1 "default" "m" "") [sampleChannel 1, sampleChannel 2] rfl rfl
    (by decide)⟩

/-! ## Health sweeper and the unknown-status scenario -/

theorem UpdateChannelHealth_now (db : DB) (h : ChannelHealth) :
    (UpdateChannelHealth db h).2.now = db.now := by
  unfold UpdateChannelHealth
  split <;> rfl

theorem UpdateChannelHealth_failing_eq (db : DB) (h : ChannelHealth) :
    (UpdateChannelHealth db h).2.failing = db.failing := by
  unfold UpdateChannelHealth
  split <;> rfl

theorem UpdateChannelHealth_readHealth {db : DB} (hok : db.failing = false)
    (h : ChannelHealth) (id : Int) :
    (UpdateChannelHealth db h).2.readHealth id =
      if h.ChannelID = id then { h with UpdatedAt := db.now } else db.readHealth id := by
  unfold DB.readHealth
  rw [UpdateChannelHealth_findHealth hok, UpdateChannelHealth_now]
  split <;> rfl

/-- What one visit of the sweeper does when the database is readable. -/
theorem healthCheckChannel_eq (db : DB) (table : List Channel) (ch : Channel)
    (hok : db.failing = false) (hen : ch.Status = ChannelStatusEnabled) :
    healthCheckChannel (db, table) ch =
      if db.now - (db.readHealth ch.Id).UpdatedAt > 300 then
        ((UpdateChannelHealth (GetChannelHealth db ch.Id).2
          { db.readHealth ch.Id with Status := "unknown" }).2, table)
      else if (db.readHealth ch.Id).Status = "unhealthy" ∧
          (db.readHealth ch.Id).ConsecutiveFails ≥ 5 then
        ((GetChannelHealth db ch.Id).2,
          UpdateChannelStatusById table ch.Id ChannelStatusAutoDisabled)
      else ((GetChannelHealth db ch.Id).2, table) := by
  have h1 := GetChannelHealth_fst hok ch.Id
  have h2 := GetChannelHealth_now db ch.Id
  unfold healthCheckChannel
  rw [if_neg (by simpa using hen)]
  simp only [h1, h2]
  by_cases hs : db.now - (db.readHealth ch.Id).UpdatedAt > 300
  · simp [hs]
  · simp [hs]

theorem UpdateChannelStatusById_ids (table : List Channel) (id status : Int) :
    (UpdateChannelStatusById table id status).map (fun c => c.Id) = table.map (fun c => c.Id) := by
  unfold UpdateChannelStatusById
  rw [List.map_map]
  apply List.map_congr_left
  intro c _
  simp only [Function.comp]
  split <;> rfl

theorem UpdateChannelStatusById_filter_ne (table : List Channel) {id id2 : Int} (status : Int)
    (hne : ¬ id = id2) :
    (UpdateChannelStatusById table id status).filter (fun c => decide (c.Id = id2)) =
      table.filter (fun c => decide (c.Id = id2)) := by
  unfold UpdateChannelStatusById
  induction table with
  | nil => rfl
  | cons c rest ih =>
    simp only [List.map_cons]
    by_cases h1 : c.Id = id
    · have h2 : ¬ c.Id = id2 := fun h => hne (h1.symm.trans h)
      rw [if_pos h1, List.filter_cons_of_neg (by simpa using h2),
        List.filter_cons_of_neg (by simpa using h2)]
      exact ih
    · rw [if_neg h1]
      by_cases h2 : c.Id = id2
      · rw [List.filter_cons_of_pos (by simpa using h2), List.filter_cons_of_pos (by simpa using h2),
          ih]
      · rw [List.filter_cons_of_neg (by simpa using h2), List.filter_cons_of_neg (by simpa using h2)]
        exact ih

theorem UpdateChannelStatusById_status (table : List Channel) (id status : Int) :
    ∀ c ∈ UpdateChannelStatusById table id status, c.Id = id → c.Status = status := by
  intro c hc hid
  unfold UpdateChannelStatusById at hc
  obtain ⟨c0, _, rfl⟩ := List.mem_map.mp hc
  by_cases h : c0.Id = id
  · rw [if_pos h]
  · rw [if_neg h] at hid
    exact absurd hid h

theorem UpdateChannelStatusById_keeps (table : List Channel) (id id2 status : Int)
    (h : ∀ c ∈ table, c.Id = id2 → c.Status = status) :
    ∀ c ∈ UpdateChannelStatusById table id status, c.Id = id2 → c.Status = status := by
  intro c hc hid
  unfold UpdateChannelStatusById at hc
  obtain ⟨c0, hm, rfl⟩ := List.mem_map.mp hc
  by_cases h0 : c0.Id = id
  · rw [if_pos h0]
  · rw [if_neg h0] at hid ⊢
    exact h c0 hm hid

/-- One visit of the sweeper, seen from a channel `id` whose health row is not stale:
the row, the clock and the ids of the channel table stay as they are. -/
theorem healthCheckChannel_fresh (db : DB) (id : Int) (ids : List Int)
    (hfresh : db.now - (db.readHealth id).UpdatedAt ≤ 300)
    (st : DB × List Channel) (c : Channel)
    (h : st.1.failing = false ∧ st.1.now = db.now ∧ st.1.readHealth id = db.readHealth id ∧
      st.2.map (fun c => c.Id) = ids) :
    (healthCheckChannel st c).1.failing = false ∧ (healthCheckChannel st c).1.now = db.now ∧
      (healthCheckChannel st c).1.readHealth id = db.readHealth id ∧
      (healthCheckChannel st c).2.map (fun c => c.Id) = ids := by
  obtain ⟨h1, h2, h3, h4⟩ := h
  by_cases hen : c.Status = ChannelStatusEnabled
  · have e := healthCheckChannel_eq st.1 st.2 c h1 hen
    have hgf : (GetChannelHealth st.1 c.Id).2.failing = false := by
      rw [GetChannelHealth_failing_eq]; exact h1
    have hgn : (GetChannelHealth st.1 c.Id).2.now = db.now := by
      rw [GetChannelHealth_now]; exact h2
    have hgr : (GetChannelHealth st.1 c.Id).2.readHealth id = db.readHealth id := by
      rw [GetChannelHealth_readHealth]; exact h3
    rw [show st = (st.1, st.2) from rfl, e]
    split
    · rename_i hs
      have hne : ¬ c.Id = id := by
        intro heq
        rw [heq, h3, h2] at hs
        omega
      refine ⟨?_, ?_, ?_, h4⟩
      · rw [UpdateChannelHealth_failing_eq]; exact hgf
      · rw [UpdateChannelHealth_now]; exact hgn
      · rw [UpdateChannelHealth_readHealth hgf, if_neg]
        · exact hgr
        · simpa [readHealth_channelID] using hne
    · split
      · exact ⟨hgf, hgn, hgr, by rw [UpdateChannelStatusById_ids]; exact h4⟩
      · exact ⟨hgf, hgn, hgr, h4⟩
  · have e : healthCheckChannel st c = st := by
      unfold healthCheckChannel
      rw [if_pos hen]
    rw [e]
    exact ⟨h1, h2, h3, h4⟩

theorem healthCheckChannel_table (st : DB × List Channel) (c : Channel) :
    (healthCheckChannel st c).2 = st.2 ∨
      (healthCheckChannel st c).2 =
        UpdateChannelStatusById st.2 c.Id ChannelStatusAutoDisabled := by
  unfold healthCheckChannel
  split
  · left; rfl
  · simp only
    split
    · left; rfl
    · split_ifs <;> simp

theorem healthCheckChannel_keeps_disabled (id : Int) (st : DB × List Channel) (c : Channel)
    (h : ∀ x ∈ st.2, x.Id = id → x.Status = ChannelStatusAutoDisabled) :
    ∀ x ∈ (healthCheckChannel st c).2, x.Id = id → x.Status = ChannelStatusAutoDisabled := by
  rcases healthCheckChannel_table st c with e | e
  · rw [e]; exact h
  · rw [e]; exact UpdateChannelStatusById_keeps _ _ _ _ h

theorem foldl_healthCheckChannel_fresh (db : DB) (ch : Channel) (ids : List Int)
    (hen : ch.Status = ChannelStatusEnabled)
    (hst : (db.readHealth ch.Id).Status = "unhealthy")
    (hcf : (db.readHealth ch.Id).ConsecutiveFails ≥ 5)
    (hfresh : db.now - (db.readHealth ch.Id).UpdatedAt ≤ 300)
    (l : List Channel) (st : DB × List Channel)
    (h : st.1.failing = false ∧ st.1.now = db.now ∧
      st.1.readHealth ch.Id = db.readHealth ch.Id ∧ st.2.map (fun c => c.Id) = ids)
    (hd : ch ∈ l ∨ ∀ x ∈ st.2, x.Id = ch.Id → x.Status = ChannelStatusAutoDisabled) :
    (∀ x ∈ (l.foldl healthCheckChannel st).2, x.Id = ch.Id →
      x.Status = ChannelStatusAutoDisabled) ∧
    (l.foldl healthCheckChannel st).2.map (fun c => c.Id) = ids := by
  induction l generalizing st with
  | nil =>
    rcases hd with hd | hd
    · cases hd
    · exact ⟨hd, h.2.2.2⟩
  | cons c rest ih =>
    simp only [List.foldl_cons]
    apply ih _ (healthCheckChannel_fresh db ch.Id ids hfresh st c h)
    by_cases hc : c = ch
    · right
      subst hc
      obtain ⟨h1, h2, h3, h4⟩ := h
      have e := healthCheckChannel_eq st.1 st.2 c h1 hen
      rw [show st = (st.1, st.2) from rfl, e, h3, h2, if_neg (by omega), if_pos ⟨hst, hcf⟩]
      exact UpdateChannelStatusById_status _ _ _
    · rcases hd with hd | hd
      · left
        rcases List.mem_cons.mp hd with heq | hr
        · exact absurd heq.symm hc
        · exact hr
      · right
        exact healthCheckChannel_keeps_disabled ch.Id st c hd

/-- One visit of the sweeper, seen from a channel `id` whose health row was stale at the
start of the pass: the row is the original one or has status `unknown`, and the entries
of the channel table with this id stay as they are. -/
theorem healthCheckChannel_stale (db : DB) (id : Int) (entries : List Channel)
    (hstale : db.now - (db.readHealth id).UpdatedAt > 300)
    (st : DB × List Channel) (c : Channel)
    (h : st.1.failing = false ∧ st.1.now = db.now ∧
      (st.1.readHealth id = db.readHealth id ∨ (st.1.readHealth id).Status = "unknown") ∧
      st.2.filter (fun c => decide (c.Id = id)) = entries) :
    ((healthCheckChannel st c).1.failing = false ∧ (healthCheckChannel st c).1.now = db.now ∧
      ((healthCheckChannel st c).1.readHealth id = db.readHealth id ∨
        ((healthCheckChannel st c).1.readHealth id).Status = "unknown") ∧
      (healthCheckChannel st c).2.filter (fun c => decide (c.Id = id)) = entries) ∧
    ((st.1.readHealth id).Status = "unknown" ∨
        (c.Id = id ∧ c.Status = ChannelStatusEnabled) →
      ((healthCheckChannel st c).1.readHealth id).Status = "unknown") := by
  obtain ⟨h1, h2, h3, h4⟩ := h
  by_cases hen : c.Status = ChannelStatusEnabled
  · have e := healthCheckChannel_eq st.1 st.2 c h1 hen
    have hgf : (GetChannelHealth st.1 c.Id).2.failing = false := by
      rw [GetChannelHealth_failing_eq]; exact h1
    have hgn : (GetChannelHealth st.1 c.Id).2.now = db.now := by
      rw [GetChannelHealth_now]; exact h2
    have hgr : (GetChannelHealth st.1 c.Id).2.readHealth id = st.1.readHealth id :=
      GetChannelHealth_readHealth _ _ _
    rw [show st = (st.1, st.2) from rfl, e]
    by_cases hid : c.Id = id
    · subst hid
      split
      · rename_i hs
        have hr : ((UpdateChannelHealth (GetChannelHealth st.1 c.Id).2
            { st.1.readHealth c.Id with Status := "unknown" }).2.readHealth c.Id).Status =
              "unknown" := by
          rw [UpdateChannelHealth_readHealth hgf, if_pos (by simp [readHealth_channelID])]
        refine ⟨⟨?_, ?_, Or.inr hr, h4⟩, fun _ => hr⟩
        · rw [UpdateChannelHealth_failing_eq]; exact hgf
        · rw [UpdateChannelHealth_now]; exact hgn
      · rename_i hs
        have hu : (st.1.readHealth c.Id).Status = "unknown" := by
          rcases h3 with h3 | h3
          · rw [h3, h2] at hs
            exact absurd hstale hs
          · exact h3
        rw [if_neg (by rw [hu]; simp)]
        simp only
        exact ⟨⟨hgf, hgn, Or.inr (by rw [hgr]; exact hu), h4⟩, fun _ => by rw [hgr]; exact hu⟩
    · have hor : ∀ d : DB, d.readHealth id = st.1.readHealth id →
          (d.readHealth id = db.readHealth id ∨ (d.readHealth id).Status = "unknown") ∧
          ((st.1.readHealth id).Status = "unknown" ∨
            (c.Id = id ∧ c.Status = ChannelStatusEnabled) →
              (d.readHealth id).Status = "unknown") := by
        intro d hd
        rw [hd]
        refine ⟨h3, fun hh => ?_⟩
        rcases hh with hh | hh
        · exact hh
        · exact absurd hh.1 hid
      split
      · have hr : (UpdateChannelHealth (GetChannelHealth st.1 c.Id).2
            { st.1.readHealth c.Id with Status := "unknown" }).2.readHealth id =
              st.1.readHealth id := by
          rw [UpdateChannelHealth_readHealth hgf, if_neg (by simpa [readHealth_channelID] using hid)]
          exact hgr
        refine ⟨⟨?_, ?_, (hor _ hr).1, h4⟩, (hor _ hr).2⟩
        · rw [UpdateChannelHealth_failing_eq]; exact hgf
        · rw [UpdateChannelHealth_now]; exact hgn
      · split
        · refine ⟨⟨hgf, hgn, (hor _ hgr).1, ?_⟩, (hor _ hgr).2⟩
          simp only
          rw [UpdateChannelStatusById_filter_ne _ _ hid]
          exact h4
        · exact ⟨⟨hgf, hgn, (hor _ hgr).1, h4⟩, (hor _ hgr).2⟩
  · have e : healthCheckChannel st c = st := by
      unfold healthCheckChannel
      rw [if_pos hen]
    rw [e]
    refine ⟨⟨h1, h2, h3, h4⟩, fun hh => ?_⟩
    rcases hh with hh | hh
    · exact hh
    · exact absurd hh.2 hen

theorem foldl_healthCheckChannel_stale (db : DB) (ch : Channel) (entries : List Channel)
    (hen : ch.Status = ChannelStatusEnabled)
    (hstale : db.now - (db.readHealth ch.Id).UpdatedAt > 300)
    (l : List Channel) (st : DB × List Channel)
    (h : st.1.failing = false ∧ st.1.now = db.now ∧
      (st.1.readHealth ch.Id = db.readHealth ch.Id ∨
        (st.1.readHealth ch.Id).Status = "unknown") ∧
      st.2.filter (fun c => decide (c.Id = ch.Id)) = entries)
    (hd : ch ∈ l ∨ (st.1.readHealth ch.Id).Status = "unknown") :
    (l.foldl healthCheckChannel st).2.filter (fun c => decide (c.Id = ch.Id)) = entries ∧
    ((l.foldl healthCheckChannel st).1.readHealth ch.Id).Status = "unknown" := by
  induction l generalizing st with
  | nil =>
    rcases hd with hd | hd
    · cases hd
    · exact ⟨h.2.2.2, hd⟩
  | cons c rest ih =>
    simp only [List.foldl_cons]
    obtain ⟨hinv, hun⟩ := healthCheckChannel_stale db ch.Id entries hstale st c h
    apply ih _ hinv
    by_cases hc : c = ch
    · right
      subst hc
      exact hun (Or.inr ⟨rfl, hen⟩)
    · rcases hd with hd | hd
      · left
        rcases List.mem_cons.mp hd with heq | hr
        · exact absurd heq.symm hc
        · exact hr
      · right
        exact hun (Or.inl hd)

theorem performHealthCheck_eq (db : DB) (table : List Channel) (hok : db.failing = false) :
    performHealthCheck db table = table.foldl healthCheckChannel (db, table) := by
  simp [performHealthCheck, GetAllChannels, hok]

/-- C13 (counterexample): channel 3 is enabled and its health record says `unhealthy`
with 5 consecutive failures, last updated at time 0; the sweeper pass at time 1000, after
the stale window, leaves the channel enabled. -/
theorem performHealthCheck_stale_not_disabled :
    (performHealthCheck (sampleDB 1000 [sampleHealth 3 "unhealthy" 5 0]) [sampleChannel 3]).2 =
      [sampleChannel 3] ∧
    (sampleChannel 3).Status = ChannelStatusEnabled := by
  decide

/-- C13 (amended): with the database readable, for every enabled channel of the table
whose health record has status `unhealthy` and at least 5 consecutive failures, one pass
of `performHealthCheck` marks the channel auto-disabled when the record was updated
within the last 300 s; when the record is older, the pass sets its status to `unknown`
instead and leaves the channel as it was. -/
theorem performHealthCheck_auto_disable (db : DB) (table : List Channel) (ch : Channel)
    (hok : db.failing = false) (hm : ch ∈ table) (hen : ch.Status = ChannelStatusEnabled)
    (hst : (db.readHealth ch.Id).Status = "unhealthy")
    (hcf : (db.readHealth ch.Id).ConsecutiveFails ≥ 5) :
    (db.now - (db.readHealth ch.Id).UpdatedAt ≤ 300 →
      (∀ x ∈ (performHealthCheck db table).2, x.Id = ch.Id →
        x.Status = ChannelStatusAutoDisabled) ∧
      (performHealthCheck db table).2.map (fun c => c.Id) = table.map (fun c => c.Id)) ∧
    (db.now - (db.readHealth ch.Id).UpdatedAt > 300 →
      ch ∈ (performHealthCheck db table).2 ∧
      (performHealthCheck db table).2.filter (fun c => decide (c.Id = ch.Id)) =
        table.filter (fun c => decide (c.Id = ch.Id)) ∧
      (((performHealthCheck db table).1).readHealth ch.Id).Status = "unknown") := by
  rw [performHealthCheck_eq db table hok]
  constructor
  · intro hfresh
    exact foldl_healthCheckChannel_fresh db ch _ hen hst hcf hfresh table (db, table)
      ⟨hok, rfl, rfl, rfl⟩ (Or.inl hm)
  · intro hstale
    obtain ⟨h1, h2⟩ := foldl_healthCheckChannel_stale db ch _ hen hstale table (db, table)
      ⟨hok, rfl, Or.inl rfl, rfl⟩ (Or.inl hm)
    refine ⟨?_, h1, h2⟩
    have : ch ∈ table.filter (fun c => decide (c.Id = ch.Id)) := by
      rw [List.mem_filter]
      exact ⟨hm, by simp⟩
    rw [← h1] at this
    exact (List.mem_filter.mp this).1

/-- Instance of C13 (amended): channel 3 with 5 consecutive failures, its record 100 s old. -/
theorem performHealthCheck_auto_disable_witness :
    (sampleDB 100 [sampleHealth 3 "unhealthy" 5 0]).failing = false ∧
    sampleChannel 3 ∈ [sampleChannel 3] ∧
    (sampleChannel 3).Status = ChannelStatusEnabled ∧
    ((sampleDB 100 [sampleHealth 3 "unhealthy" 5 0]).readHealth (sampleChannel 3).Id).Status =
      "unhealthy" ∧
    ((sampleDB 100 [sampleHealth 3 "unhealthy" 5 0]).readHealth
      (sampleChannel 3).Id).ConsecutiveFails ≥ 5 ∧
    (sampleDB 100 [sampleHealth 3 "unhealthy" 5 0]).now -
      ((sampleDB 100 [sampleHealth 3 "unhealthy" 5 0]).readHealth
        (sampleChannel 3).Id).UpdatedAt ≤ 300 ∧
    ∀ x ∈ (performHealthCheck (sampleDB 100 [sampleHealth 3 "unhealthy" 5 0])
        [sampleChannel 3]).2,
      x.Id = (sampleChannel 3).Id → x.Status = ChannelStatusAutoDisabled :=
  ⟨rfl, List.mem_singleton.mpr rfl, rfl, by decide, by decide, by decide,
    ((performHealthCheck_auto_disable (sampleDB 100 [sampleHealth 3 "unhealthy" 5 0])
      [sampleChannel 3] (sampleChannel 3) rfl (List.mem_singleton.mpr rfl) rfl (by decide)
      (by decide)).1 (by decide)).1⟩

/-- C12 (counterexample): with channel 10 `unhealthy` and channel 11 `unknown`, both
enabled, the primary health filter keeps channel 11. -/
theorem filterHealthyChannels_keeps_unknown :
    (filterHealthyChannels
      (sampleDB 0 [sampleHealth 10 "unhealthy" 0 0, sampleHealth 11 "unknown" 0 0])
      [sampleChannel 10, sampleChannel 11]).1 = [sampleChannel 11] := by
  decide

theorem runStrategy_singleton (name : String) (rnd : Nat) (m : ChannelWithMetrics)
    (hp : m.Channel.Priority = none) :
    (NewEngine.runStrategy name rnd [m]).1 = some m.Channel := by
  unfold Engine.runStrategy
  split_ifs
  · simp [WeightRoundRobinStrategy.Select, WeightRoundRobinStrategy.collect,
      WeightRoundRobinStrategy.lookupOrCreate, NewEngine, WRRState.empty, WRRState.set,
      WeightRoundRobinStrategy.step, newWeightedChannel, bump]
  · simp [LowestCostStrategy.Select, sortSlice, Nat.mod_one]
  · simp [LowestLatencyStrategy.Select, sortSlice, Nat.mod_one]
  · simp [RoundRobinStrategy.Select, NewEngine]
  · simp [PriorityStrategy.Select, PriorityStrategy.group, priorityOf, hp, Nat.mod_one]

/-- C12 (amended): for the candidates channel 10 (`unhealthy`) and channel 11
(`unknown`), both enabled, the primary health filter already yields exactly channel 11,
because `IsChannelHealthy` accepts `unknown`; the unknown-only fallback is therefore not
reached (it would yield channel 11 as well), and `SelectChannel` returns channel 11
under every strategy and every random draw. -/
theorem SelectChannel_unhealthy_unknown (rnd : Nat) (elapsed : Int) (req : SelectRequest) :
    (filterHealthyChannels
      (sampleDB 0 [sampleHealth 10 "unhealthy" 0 0, sampleHealth 11 "unknown" 0 0])
      [sampleChannel 10, sampleChannel 11]).1 = [sampleChannel 11] ∧
    (filterUnknownChannels
      (sampleDB 0 [sampleHealth 10 "unhealthy" 0 0, sampleHealth 11 "unknown" 0 0])
      [sampleChannel 10, sampleChannel 11]).1 = [sampleChannel 11] ∧
    ∃ res, (NewEngine.SelectChannel
        (sampleDB 0 [sampleHealth 10 "unhealthy" 0 0, sampleHealth 11 "unknown" 0 0])
        (fun _ _ => .ok [sampleChannel 10, sampleChannel 11]) rnd elapsed req).1 = .ok res ∧
      res.Channel = sampleChannel 11 ∧ res.CandidateCount = 2 := by
  refine ⟨by decide, by decide, ?_⟩
  have hf : filterHealthyChannels
      (sampleDB 0 [sampleHealth 10 "unhealthy" 0 0, sampleHealth 11 "unknown" 0 0])
      [sampleChannel 10, sampleChannel 11] =
        ([sampleChannel 11],
          sampleDB 0 [sampleHealth 10 "unhealthy" 0 0, sampleHealth 11 "unknown" 0 0]) := by
    rfl
  have hl : loadChannelMetrics
      (sampleDB 0 [sampleHealth 10 "unhealthy" 0 0, sampleHealth 11 "unknown" 0 0])
      [sampleChannel 11] =
        ([{ Channel := sampleChannel 11, AvgLatency := 0, Cost := 0, SuccessRate := 1,
            Concurrent := 0, Status := "unknown" }],
          sampleDB 0 [sampleHealth 10 "unhealthy" 0 0, sampleHealth 11 "unknown" 0 0]) := by
    simp [loadChannelMetrics, GetChannelHealth, sampleDB, DB.findHealth, sampleHealth,
      sampleChannel]
  have hr := runStrategy_singleton
    (GetStrategy (if req.Strategy = "" then NewEngine.defaultStrategy else req.Strategy)) rnd
    { Channel := sampleChannel 11, AvgLatency := 0, Cost := 0, SuccessRate := 1,
      Concurrent := 0, Status := "unknown" } rfl
  simp only [Engine.SelectChannel, List.length_cons, List.length_nil, hf, Engine.selectAmong,
    hl]
  simp only [hr]
  exact ⟨_, rfl, rfl, rfl⟩

/-! ## Relay: telemetry rows -/

theorem logCallMetadata_metadata (c : Context) (db : DB) (g : String) (attempt latency : Int)
    (bizErr : Option ErrorWithStatusCode) (hok : db.failing = false) :
    (logCallMetadata c db g attempt latency bizErr).failing = false ∧
    ∃ row : CallMetadata, row.GenerationID = g ∧ row.Attempt = attempt ∧
      (logCallMetadata c db g attempt latency bizErr).metadata = db.metadata ++ [row] := by
  simp only [logCallMetadata, InsertCallMetadata, hok, Bool.false_eq_true, if_false]
  exact ⟨trivial, _, rfl, rfl, rfl⟩

theorem GetChannelHealth_metadata (db : DB) (id : Int) :
    (GetChannelHealth db id).2.metadata = db.metadata := by
  unfold GetChannelHealth
  cases hf : db.findHealth id <;> cases hfail : db.failing <;> simp

theorem OnRequestFailure_metadata (db : DB) (id : Int) (code : String) :
    (OnRequestFailure db id code).2.metadata = db.metadata := by
  have h3 := GetChannelHealth_metadata db id
  unfold OnRequestFailure
  rcases hg : GetChannelHealth db id with ⟨r, db1⟩
  rw [hg] at h3
  cases r with
  | error e => simpa using h3
  | ok h =>
    simp only [UpdateChannelHealth]
    split <;> simpa using h3

theorem OnRequestSuccess_metadata (db : DB) (id latency : Int) :
    (OnRequestSuccess db id latency).2.metadata = db.metadata := by
  have h3 := GetChannelHealth_metadata db id
  unfold OnRequestSuccess
  rcases hg : GetChannelHealth db id with ⟨r, db1⟩
  rw [hg] at h3
  cases r with
  | error e => simpa using h3
  | ok h =>
    simp only [UpdateChannelHealth]
    split <;> simpa using h3

theorem retryDispatch_logged (env : Env) (g m : String) (rt : Int) (n : Nat) (ch : Channel)
    (s : RelayState) (h : s.Logged g pre rt) (hp : (s.picks : Int) = rt - n)
    (hgap : ∀ (k : Nat) (d : Dispatch), s.dispatched[k]? = some d →
      d.attempt + ((s.dispatched.length : Int) - k) ≤ s.picks) :
    (retryDispatch env g m rt ((n : Int) + 1) ch s).Logged g pre rt := by
  have hlast : ∀ d ∈ s.dispatched, d.attempt < rt - n := by
    intro d hd
    obtain ⟨k, hk⟩ := List.getElem?_of_mem hd
    have := hgap k d hk
    have hlt : k < s.dispatched.length := by
      by_contra hge
      rw [List.getElem?_eq_none (by omega)] at hk
      cases hk
    omega
  obtain ⟨h1, ⟨rows, hr1, hr2⟩, ⟨d0, rest, h31, h32⟩, h4, h5, h6⟩ := h
  obtain ⟨l1, row, l2, l3, l4⟩ := logCallMetadata_metadata
    (env.SetupContextForSelectedChannel s.c ch m) s.db g (rt - ((n : Int) + 1) + 1)
    (env.relayHelper s.dispatched.length (env.SetupContextForSelectedChannel s.c ch m)).latencyMs
    (env.relayHelper s.dispatched.length (env.SetupContextForSelectedChannel s.c ch m)).err h1
  have hd := retryDispatch_dispatched env g m rt ((n : Int) + 1) ch s
  have hdb : (retryDispatch env g m rt ((n : Int) + 1) ch s).db =
      logCallMetadata (env.SetupContextForSelectedChannel s.c ch m) s.db g
        (rt - ((n : Int) + 1) + 1)
        (env.relayHelper s.dispatched.length
          (env.SetupContextForSelectedChannel s.c ch m)).latencyMs
        (env.relayHelper s.dispatched.length
          (env.SetupContextForSelectedChannel s.c ch m)).err := by
    simp only [retryDispatch]
  have hpk : (retryDispatch env g m rt ((n : Int) + 1) ch s).picks = s.picks := by
    simp only [retryDispatch]
  refine ⟨by rw [hdb]; exact l1, ⟨rows ++ [row], ?_, ?_⟩, ?_, ?_, ?_, ?_⟩
  · rw [hdb, l4, hr1, List.append_assoc]
  · rw [hd]
    simp only [List.map_append, List.map_cons, List.map_nil, hr2, l2, l3]
  · rw [hd, h31, List.cons_append]
    exact ⟨d0, _, rfl, h32⟩
  · rw [hd]
    simp only [List.map_append, List.map_cons, List.map_nil]
    rw [List.pairwise_append]
    refine ⟨h4, List.pairwise_singleton _ _, ?_⟩
    intro a ha b hb
    obtain ⟨d, hdm, rfl⟩ := List.mem_map.mp ha
    simp only [List.mem_singleton] at hb
    subst hb
    have := hlast d hdm
    omega
  · intro k d hk
    rw [hpk]
    rw [hd] at hk ⊢
    simp only [List.length_append, List.length_singleton]
    push_cast
    by_cases hlt : k < s.dispatched.length
    · rw [List.getElem?_append_left hlt] at hk
      have hb := h5 k d hk
      have hm := hgap k d hk
      omega
    · have hge : s.dispatched.length ≤ k := by omega
      rw [List.getElem?_append_right hge] at hk
      have hk0 : k - s.dispatched.length = 0 := by
        by_contra hne
        obtain ⟨j, hj⟩ : ∃ j, k - s.dispatched.length = j + 1 :=
          ⟨k - s.dispatched.length - 1, by omega⟩
        rw [hj] at hk
        simp at hk
      rw [hk0] at hk
      simp only [List.getElem?_cons_zero, Option.some.injEq] at hk
      subst hk
      simp only
      have hlen : (s.dispatched.length : Int) ≤ s.picks := by
        have hl : s.dispatched.length = rest.length + 1 := by rw [h31]; rfl
        have hlast0 : s.dispatched[rest.length]? = some (s.dispatched.get ⟨rest.length, by omega⟩) := by
          rw [List.getElem?_eq_getElem]; rfl
        have q1 := h5 rest.length _ hlast0
        have q3 := hgap rest.length _ hlast0
        omega
      omega
  · rw [hpk]; exact h6

theorem retryFailed_logged (bizErr : ErrorWithStatusCode) (s : RelayState)
    (h : s.Logged g pre rt) : (retryFailed bizErr s).Logged g pre rt := by
  obtain ⟨h1, h2, h3, h4, h5, h6⟩ := h
  refine ⟨?_, ?_, h3, h4, h5, h6⟩
  · simp only [retryFailed]
    rw [OnRequestFailure_failing]; exact h1
  · simp only [retryFailed]
    rw [OnRequestFailure_metadata]; exact h2

theorem retrySucceeded_logged (ch : Channel) (s : RelayState)
    (h : s.Logged g pre rt) : (retrySucceeded ch s).Logged g pre rt := by
  obtain ⟨h1, h2, h3, h4, h5, h6⟩ := h
  refine ⟨?_, ?_, h3, h4, h5, h6⟩
  · simp only [retrySucceeded]
    rw [OnRequestSuccess_failing]; exact h1
  · simp only [retrySucceeded]
    rw [OnRequestSuccess_metadata]; exact h2

theorem picked_logged {s : RelayState} (n : Nat) (h : s.Logged g pre rt)
    (hp : (s.picks : Int) = rt - (n + 1)) :
    ({ s with picks := s.picks + 1 } : RelayState).Logged g pre rt := by
  obtain ⟨h1, h2, h3, h4, h5, h6⟩ := h
  refine ⟨h1, h2, h3, h4, ?_, ?_⟩
  · intro k d hk
    have := h5 k d hk
    simp only at this ⊢
    push_cast
    omega
  · simp only
    push_cast
    omega

theorem retryLoop_logged (env : Env) (g grp mdl : String) (rt : Int) (n : Nat)
    (s : RelayState) (h : s.Logged g pre rt) (hp : (s.picks : Int) = rt - n) :
    (retryLoop env g grp mdl rt n s).Logged g pre rt := by
  induction n generalizing s with
  | zero => simpa [retryLoop] using h
  | succ n ih =>
    have hp1 : (s.picks : Int) = rt - (n + 1) := by push_cast at hp; exact hp
    have hpicks := picked_logged n h hp1
    have hpn : ((({ s with picks := s.picks + 1 } : RelayState).picks : Nat) : Int) = rt - n := by
      simp only
      push_cast
      omega
    simp only [retryLoop]
    split
    · exact hpicks
    · rename_i channel _
      split
      · exact ih _ hpicks hpn
      · have hlast : ∀ (k : Nat) (d : Dispatch),
            ({ s with picks := s.picks + 1 } : RelayState).dispatched[k]? = some d →
            d.attempt + ((({ s with picks := s.picks + 1 } : RelayState).dispatched.length : Int)
              - k) ≤ (({ s with picks := s.picks + 1 } : RelayState).picks : Nat) := by
          intro k d hk
          have := h.2.2.2.2.1 k d hk
          simp only at this ⊢
          push_cast
          omega
        have hd := retryDispatch_logged env g mdl rt n channel _ hpicks hpn hlast
        split
        · exact retrySucceeded_logged channel _ hd
        · rename_i bizErr _
          exact ih _ (retryFailed_logged bizErr _ hd) (by
            simp only [retryFailed, retryDispatch]
            push_cast
            omega)

theorem firstAttempt_logged (env : Env) (c : Context) (db : DB) (hok : db.failing = false) :
    (firstAttempt env c db).Logged env.GenRequestID db.metadata 0 := by
  obtain ⟨l1, row, l2, l3, l4⟩ := logCallMetadata_metadata c db env.GenRequestID 0
    (env.relayHelper 0 c).latencyMs (env.relayHelper 0 c).err hok
  have hd := firstAttempt_dispatched env c db
  have hdb : (firstAttempt env c db).db = logCallMetadata c db env.GenRequestID 0
      (env.relayHelper 0 c).latencyMs (env.relayHelper 0 c).err := by
    simp only [firstAttempt, RelayState.init]
    rfl
  have hpk : (firstAttempt env c db).picks = 0 := by
    simp only [firstAttempt, RelayState.init]
  refine ⟨by rw [hdb]; exact l1, ⟨[row], by rw [hdb, l4], ?_⟩, ⟨_, [], hd, rfl⟩, ?_, ?_, ?_⟩
  · rw [hd]
    simp only [List.map_cons, List.map_nil, l2, l3]
  · rw [hd]
    simp
  · intro k d hk
    rw [hd] at hk ⊢
    rw [hpk]
    cases k with
    | zero =>
      simp only [List.getElem?_cons_zero, Option.some.injEq] at hk
      subst hk
      simp
    | succ k => simp at hk
  · rw [hpk]; rfl

theorem firstFailed_logged (id : Int) (name : String) (bizErr : ErrorWithStatusCode)
    (s : RelayState) (h : s.Logged g pre rt) : (firstFailed id name bizErr s).Logged g pre rt := by
  obtain ⟨h1, h2, h3, h4, h5, h6⟩ := h
  refine ⟨?_, ?_, h3, h4, h5, h6⟩
  · simp only [firstFailed]
    split
    · rw [OnRequestFailure_failing]; exact h1
    · exact h1
  · simp only [firstFailed]
    split
    · rw [OnRequestFailure_metadata]; exact h2
    · exact h2

theorem firstSucceeded_logged (id : Int) (s : RelayState) (h : s.Logged g pre rt) :
    (firstSucceeded id s).Logged g pre rt := by
  obtain ⟨h1, h2, h3, h4, h5, h6⟩ := h
  refine ⟨?_, ?_, h3, h4, h5, h6⟩
  · simp only [firstSucceeded]
    split
    · rw [OnRequestSuccess_failing]; exact h1
    · exact h1
  · simp only [firstSucceeded]
    split
    · rw [OnRequestSuccess_metadata]; exact h2
    · exact h2

theorem respondError_logged (env : Env) (r : String) (s : RelayState) (h : s.Logged g pre rt) :
    (respondError env r s).Logged g pre rt := by
  unfold respondError
  split
  · exact h
  · exact h

theorem Logged_weaken {s : RelayState} (h : s.Logged g pre rt) (hle : rt ≤ rt2) :
    s.Logged g pre rt2 :=
  ⟨h.1, h.2.1, h.2.2.1, h.2.2.2.1, h.2.2.2.2.1, le_trans h.2.2.2.2.2 hle⟩

theorem retryBudget_le (env : Env) (c : Context) (bizErr : ErrorWithStatusCode) :
    retryBudget env c bizErr ≤ max env.RetryTimes 0 := by
  unfold retryBudget
  split
  · exact le_max_right _ _
  · exact le_max_left _ _

/-- The telemetry rows and attempt numbers at the end of `Relay`, when the inserts
succeed. -/
theorem Relay_logged (env : Env) (c : Context) (db : DB) (hok : db.failing = false) :
    (Relay env c db).Logged env.GenRequestID db.metadata (max env.RetryTimes 0) := by
  have h0 := firstAttempt_logged env c db hok
  have hpk : (firstAttempt env c db).picks = 0 := by
    simp only [firstAttempt, RelayState.init]
  unfold Relay
  simp only
  split
  · exact Logged_weaken (firstSucceeded_logged _ _ h0) (le_max_right _ _)
  · rename_i bizErr _
    have h1 := firstFailed_logged c.ChannelId c.ChannelName bizErr _ h0
    have hpk1 : (firstFailed c.ChannelId c.ChannelName bizErr (firstAttempt env c db)).picks = 0 := by
      simp only [firstFailed]; exact hpk
    have hloop : (retryLoop env env.GenRequestID c.Group c.OriginalModel
        (retryBudget env c bizErr) (retryBudget env c bizErr).toNat
        (firstFailed c.ChannelId c.ChannelName bizErr (firstAttempt env c db))).Logged
          env.GenRequestID db.metadata (max env.RetryTimes 0) := by
      by_cases hneg : retryBudget env c bizErr < 0
      · have ht : (retryBudget env c bizErr).toNat = 0 := by omega
        rw [ht]
        simp only [retryLoop]
        exact Logged_weaken h1 (le_max_right _ _)
      · have hb : (0 : Int) ≤ retryBudget env c bizErr := by omega
        refine Logged_weaken (retryLoop_logged env _ _ _ _ _ _ (Logged_weaken h1 hb) ?_) (retryBudget_le _ _ _)
        rw [hpk1]
        omega
    split
    · exact hloop
    · exact respondError_logged _ _ _ hloop

/-- C15: when the telemetry inserts succeed, `Relay` appends to the table exactly one
`CallMetadata` row per upstream invocation (initial attempt and retries, successful or
failed), so the number of rows recorded for the request equals the number of
invocations. -/
theorem Relay_rows_eq_dispatches (env : Env) (c : Context) (db : DB)
    (hok : db.failing = false) :
    (∃ rows : List CallMetadata, (Relay env c db).db.metadata = db.metadata ++ rows ∧
      rows.length = (Relay env c db).dispatched.length) ∧
    (Relay env c db).db.metadata.length =
      db.metadata.length + (Relay env c db).dispatched.length := by
  obtain ⟨_, ⟨rows, h1, h2⟩, _⟩ := Relay_logged env c db hok
  have hl : rows.length = (Relay env c db).dispatched.length := by
    have := congrArg List.length h2
    simpa using this
  refine ⟨⟨rows, h1, hl⟩, ?_⟩
  rw [h1, List.length_append, hl]

/-- Instance of C15: a budget of 3 retries, two failed attempts and a successful one. -/
theorem Relay_rows_eq_dispatches_witness :
    (emptyDB 0).failing = false ∧
    (Relay (sampleEnv 3 [500, 500, 200] [2, 3]) (sampleContext 1) (emptyDB 0)).db.metadata.length =
      (emptyDB 0).metadata.length +
        (Relay (sampleEnv 3 [500, 500, 200] [2, 3]) (sampleContext 1)
          (emptyDB 0)).dispatched.length :=
  ⟨rfl, (Relay_rows_eq_dispatches (sampleEnv 3 [500, 500, 200] [2, 3]) (sampleContext 1)
    (emptyDB 0) rfl).2⟩

theorem set_forall (P : WeightedChannel → Prop) {st : WRRState}
    (h : ∀ id wc, st id = some wc → P wc) (k : Int) (w : WeightedChannel) (hw : P w) :
    ∀ id wc, st.set k w id = some wc → P wc := by
  intro id wc hid
  unfold WRRState.set at hid
  split at hid
  · cases hid; exact hw
  · exact h id wc hid

theorem collect_forall (P : WeightedChannel → Prop) (hnew : ∀ ch, P (newWeightedChannel ch))
    (ms : List ChannelWithMetrics) (st : WRRState) (h : ∀ id wc, st id = some wc → P wc) :
    ∀ id wc, (WeightRoundRobinStrategy.collect st ms).1 id = some wc → P wc := by
  induction ms generalizing st with
  | nil => exact h
  | cons m rest ih =>
    simp only [WeightRoundRobinStrategy.collect]
    apply ih
    unfold WeightRoundRobinStrategy.lookupOrCreate
    cases hm : st m.Channel.Id with
    | some v => exact h
    | none => exact set_forall P h _ _ (hnew m)

theorem step_forall (P : WeightedChannel → Prop)
    (hcw : ∀ wc cw, P wc → P { wc with CurrentWeight := cw }) (acc : WRRLoop) (k : Int)
    (h : ∀ id wc, acc.state id = some wc → P wc) :
    ∀ id wc, (WeightRoundRobinStrategy.step acc k).state id = some wc → P wc := by
  unfold WeightRoundRobinStrategy.step
  split
  · exact h
  · rename_i w hw
    exact set_forall P h _ _ (hcw w _ (h k w hw))

theorem foldl_step_forall (P : WeightedChannel → Prop)
    (hcw : ∀ wc cw, P wc → P { wc with CurrentWeight := cw }) (ids : List Int) (acc : WRRLoop)
    (h : ∀ id wc, acc.state id = some wc → P wc) :
    ∀ id wc, (ids.foldl WeightRoundRobinStrategy.step acc).state id = some wc → P wc := by
  induction ids generalizing acc with
  | nil => exact h
  | cons k rest ih =>
    simp only [List.foldl_cons]
    exact ih _ (step_forall P hcw acc k h)

/-- A property of the entries that does not depend on the running weight and holds for
new entries is kept by `Select`. -/
theorem Select_forall (P : WeightedChannel → Prop)
    (hcw : ∀ wc cw, P wc → P { wc with CurrentWeight := cw })
    (hnew : ∀ ch, P (newWeightedChannel ch)) (st : WRRState)
    (channels : List ChannelWithMetrics) (h : ∀ id wc, st id = some wc → P wc) :
    ∀ id wc, (WeightRoundRobinStrategy.Select st channels).2 id = some wc → P wc := by
  unfold WeightRoundRobinStrategy.Select
  split
  · exact h
  · have hf := foldl_step_forall P hcw (WeightRoundRobinStrategy.collect st channels).2
      { state := (WeightRoundRobinStrategy.collect st channels).1, selected := none,
        totalWeight := 0 } (collect_forall P hnew channels st h)
    simp only
    split
    · split
      · rename_i w hw
        exact set_forall P hf _ _ (hcw w _ (hf _ w hw))
      · exact hf
    · exact hf

theorem applyWRROp_clamped (st : WRRState) (op : WRROp)
    (h : ∀ id wc, st id = some wc → wc.Clamped) :
    ∀ id wc, applyWRROp st op id = some wc → wc.Clamped := by
  cases op with
  | select channels =>
    exact Select_forall WeightedChannel.Clamped (fun wc cw hwc => hwc)
      (fun ch hw => ⟨hw, le_refl _⟩) st channels h
  | failed k =>
    simp only [applyWRROp, WeightRoundRobinStrategy.OnChannelFailed]
    cases hw : st k with
    | some w =>
      refine set_forall _ h _ _ ?_
      intro h1
      have := h k w hw h1
      simp only at h1 ⊢
      omega
    | none => exact h
  | success k =>
    simp only [applyWRROp, WeightRoundRobinStrategy.OnChannelSuccess]
    cases hw : st k with
    | some w =>
      simp only
      by_cases hlt : w.EffectiveWeight < w.Weight
      · rw [if_pos hlt]
        refine set_forall _ h _ _ ?_
        intro h1
        have := h k w hw h1
        simp only at h1 ⊢
        omega
      · rw [if_neg hlt]
        exact h
    | none => exact h

theorem applyWRROps_clamped (ops : List WRROp) (st : WRRState)
    (h : ∀ id wc, st id = some wc → wc.Clamped) :
    ∀ id wc, applyWRROps st ops id = some wc → wc.Clamped := by
  induction ops generalizing st with
  | nil => exact h
  | cons op rest ih =>
    simp only [applyWRROps, List.foldl_cons]
    exact ih _ (applyWRROp_clamped st op h)

/-- C17: in every state a new `WeightRoundRobinStrategy` reaches by `Select`,
`OnChannelFailed` and `OnChannelSuccess` calls, a tracked channel with static weight at
least 1 has an effective weight between 1 and its static weight; `OnChannelFailed` sets
it to `max 1 (effective − 1)`, `OnChannelSuccess` to `min weight (effective + 1)`, and
both leave the running weight, the other fields and every other entry as they are. -/
theorem WeightRoundRobinStrategy_effectiveWeight_clamped (ops : List WRROp) (id : Int)
    (wc : WeightedChannel) (h : applyWRROps WRRState.empty ops id = some wc)
    (hw : 1 ≤ wc.Weight) :
    (1 ≤ wc.EffectiveWeight ∧ wc.EffectiveWeight ≤ wc.Weight) ∧
    WeightRoundRobinStrategy.OnChannelFailed (applyWRROps WRRState.empty ops) id id =
      some { wc with EffectiveWeight := max 1 (wc.EffectiveWeight - 1) } ∧
    WeightRoundRobinStrategy.OnChannelSuccess (applyWRROps WRRState.empty ops) id id =
      some { wc with EffectiveWeight := min wc.Weight (wc.EffectiveWeight + 1) } ∧
    ∀ k, k ≠ id →
      WeightRoundRobinStrategy.OnChannelFailed (applyWRROps WRRState.empty ops) id k =
        applyWRROps WRRState.empty ops k ∧
      WeightRoundRobinStrategy.OnChannelSuccess (applyWRROps WRRState.empty ops) id k =
        applyWRROps WRRState.empty ops k := by
  have hc := applyWRROps_clamped ops WRRState.empty (fun _ _ h0 => by cases h0) id wc h hw
  refine ⟨hc, ?_, ?_, ?_⟩
  · simp only [WeightRoundRobinStrategy.OnChannelFailed, h, WRRState.set, if_true]
  · simp only [WeightRoundRobinStrategy.OnChannelSuccess, h]
    by_cases hlt : wc.EffectiveWeight < wc.Weight
    · rw [if_pos hlt]
      simp only [WRRState.set, if_true]
      rw [min_eq_right (by omega)]
    · rw [if_neg hlt, h]
      have e : min wc.Weight (wc.EffectiveWeight + 1) = wc.EffectiveWeight := by
        rw [min_eq_left (by omega)]
        omega
      rw [e]
  · intro k hk
    constructor
    · simp only [WeightRoundRobinStrategy.OnChannelFailed, h, WRRState.set, if_neg hk]
    · simp only [WeightRoundRobinStrategy.OnChannelSuccess, h]
      split
      · simp only [WRRState.set, if_neg hk]
      · rfl

/-- Instance of C17: a channel of weight 3 after one selection, three failures and one success. -/
theorem WeightRoundRobinStrategy_effectiveWeight_clamped_witness :
    applyWRROps WRRState.empty
        [.select [sampleCandidate 1 (some 3) none], .failed 1, .failed 1, .failed 1, .success 1]
        1 = some { Channel := (sampleCandidate 1 (some 3) none).Channel, Weight := 3,
                   CurrentWeight := 0, EffectiveWeight := 2, Priority := 0 } ∧
    (1 : Int) ≤ 3 ∧ (1 : Int) ≤ 2 ∧ (2 : Int) ≤ 3 :=
  ⟨by decide, by decide,
    (WeightRoundRobinStrategy_effectiveWeight_clamped
      [.select [sampleCandidate 1 (some 3) none], .failed 1, .failed 1, .failed 1, .success 1]
      1 { Channel := (sampleCandidate 1 (some 3) none).Channel, Weight := 3,
          CurrentWeight := 0, EffectiveWeight := 2, Priority := 0 } (by decide) (by decide)).1⟩

/-! ## Lowest-latency strategy -/

theorem sortSlice_perm {κ : Type} [LinearOrder κ] (key : ChannelWithMetrics → κ)
    (ms : List ChannelWithMetrics) : List.Perm (sortSlice key ms) ms :=
  List.perm_insertionSort _ ms

theorem sortSlice_sorted {κ : Type} [LinearOrder κ] (key : ChannelWithMetrics → κ)
    (ms : List ChannelWithMetrics) :
    (sortSlice key ms).Pairwise (fun a b => key a ≤ key b) := by
  haveI : IsTotal ChannelWithMetrics (fun a b => key a ≤ key b) := ⟨fun a b => le_total _ _⟩
  haveI : IsTrans ChannelWithMetrics (fun a b => key a ≤ key b) :=
    ⟨fun a b c h1 h2 => le_trans h1 h2⟩
  exact List.sorted_insertionSort _ ms

/-- In a list ordered by a key, fewer than `i + 1` elements have a key strictly below
that of the element at position `i`. -/
theorem countBelow_le_index {κ : Type} [LinearOrder κ] (key : ChannelWithMetrics → κ)
    (l : List ChannelWithMetrics) (hs : l.Pairwise (fun a b => key a ≤ key b)) (i : Nat)
    (m : ChannelWithMetrics) (hm : l.get? i = some m) :
    (l.filter (fun x => decide (key x < key m))).length ≤ i := by
  induction l generalizing i with
  | nil => simp at hm
  | cons a rest ih =>
    obtain ⟨ha, hrest⟩ := List.pairwise_cons.mp hs
    cases i with
    | zero =>
      simp only [List.get?_cons_zero, Option.some.injEq] at hm
      subst hm
      have : (a :: rest).filter (fun x => decide (key x < key a)) = [] := by
        rw [List.filter_eq_nil_iff]
        intro x hx
        rcases List.mem_cons.mp hx with h | h
        · subst h; simp
        · have := ha x h
          simp only [decide_eq_true_eq, not_lt]
          exact this
      rw [this]; simp
    | succ i =>
      simp only [List.get?_cons_succ] at hm
      have := ih hrest i hm
      rw [List.filter_cons]
      split
      · simp only [List.length_cons]; omega
      · omega

theorem selectSlices_fst (rnd : Nat) (channels : List ChannelWithMetrics) :
    (LowestLatencyStrategy.selectSlices rnd channels).1 =
      LowestLatencyStrategy.Select rnd channels := by
  unfold LowestLatencyStrategy.selectSlices LowestLatencyStrategy.Select
  simp only [SelectSlices.makeCopy, SelectSlices.sortSorted]
  split <;> rfl

theorem selectSlices_snd (rnd : Nat) (channels : List ChannelWithMetrics) :
    (LowestLatencyStrategy.selectSlices rnd channels).2.channels = channels ∧
    (channels ≠ [] → (LowestLatencyStrategy.selectSlices rnd channels).2.sorted =
      sortSlice (fun ch => ch.AvgLatency) channels) := by
  unfold LowestLatencyStrategy.selectSlices
  simp only [SelectSlices.makeCopy, SelectSlices.sortSorted]
  refine ⟨?_, ?_⟩
  · split <;> rfl
  · intro hne
    have : ¬ channels.length = 0 := by simpa using hne
    rw [if_neg this]

/-- C18: for a non-empty candidate list, `LowestLatencyStrategy.Select` returns a channel
of the list such that at most two candidates have a strictly lower average latency.  The
method sorts its local slice `sorted`, a copy; when it returns, the slice `channels` of
the caller holds the same elements in the same order as before the call. -/
theorem LowestLatencyStrategy_Select_top3 (rnd : Nat) (channels : List ChannelWithMetrics)
    (hne : channels ≠ []) :
    (∃ m ∈ channels, LowestLatencyStrategy.Select rnd channels = some m.Channel ∧
      (channels.filter (fun x => decide (x.AvgLatency < m.AvgLatency))).length ≤ 2) ∧
    (LowestLatencyStrategy.selectSlices rnd channels).1 =
      LowestLatencyStrategy.Select rnd channels ∧
    (LowestLatencyStrategy.selectSlices rnd channels).2.channels = channels ∧
    (LowestLatencyStrategy.selectSlices rnd channels).2.sorted =
      sortSlice (fun ch => ch.AvgLatency) channels := by
  refine ⟨?_, selectSlices_fst rnd channels, (selectSlices_snd rnd channels).1,
    (selectSlices_snd rnd channels).2 hne⟩
  have hpos : 0 < channels.length := List.length_pos.mpr hne
  have hlen : (sortSlice (fun ch => ch.AvgLatency) channels).length = channels.length :=
    (sortSlice_perm _ channels).length_eq
  have hidx : rnd % min 3 (sortSlice (fun ch => ch.AvgLatency) channels).length <
      min 3 (sortSlice (fun ch => ch.AvgLatency) channels).length :=
    Nat.mod_lt _ (by rw [hlen]; omega)
  obtain ⟨m, hm⟩ : ∃ m, (sortSlice (fun ch => ch.AvgLatency) channels).get?
      (rnd % min 3 (sortSlice (fun ch => ch.AvgLatency) channels).length) = some m := by
    cases h : (sortSlice (fun ch => ch.AvgLatency) channels).get?
        (rnd % min 3 (sortSlice (fun ch => ch.AvgLatency) channels).length) with
    | some m => exact ⟨m, rfl⟩
    | none => rw [List.get?_eq_none] at h; omega
  refine ⟨m, (sortSlice_perm _ channels).mem_iff.mp (List.get?_mem hm), ?_, ?_⟩
  · unfold LowestLatencyStrategy.Select
    have : ¬ channels.length = 0 := by omega
    rw [if_neg this]
    simp only [hm, Option.map_some']
  · have h1 := countBelow_le_index (fun ch => ch.AvgLatency) _
      (sortSlice_sorted (fun ch => ch.AvgLatency) channels) _ m hm
    have h2 : (channels.filter (fun x => decide (x.AvgLatency < m.AvgLatency))).length =
        ((sortSlice (fun ch => ch.AvgLatency) channels).filter
          (fun x => decide (x.AvgLatency < m.AvgLatency))).length :=
      ((sortSlice_perm (fun ch => ch.AvgLatency) channels).filter _).length_eq.symm
    rw [h2]
    simp only at h1
    omega

/-- Instance of C18: four candidates with the average latencies 40, 10, 30 and 20 ms,
the draw 5. -/
theorem LowestLatencyStrategy_Select_top3_witness :
    [sampleLatency 1 40, sampleLatency 2 10, sampleLatency 3 30, sampleLatency 4 20] ≠ [] ∧
    (∃ m ∈ [sampleLatency 1 40, sampleLatency 2 10, sampleLatency 3 30, sampleLatency 4 20],
      LowestLatencyStrategy.Select 5
        [sampleLatency 1 40, sampleLatency 2 10, sampleLatency 3 30, sampleLatency 4 20] =
          some m.Channel ∧
      ([sampleLatency 1 40, sampleLatency 2 10, sampleLatency 3 30, sampleLatency 4 20].filter
          (fun x => decide (x.AvgLatency < m.AvgLatency))).length ≤ 2) ∧
    (LowestLatencyStrategy.selectSlices 5
        [sampleLatency 1 40, sampleLatency 2 10, sampleLatency 3 30, sampleLatency 4 20]).1 =
      LowestLatencyStrategy.Select 5
        [sampleLatency 1 40, sampleLatency 2 10, sampleLatency 3 30, sampleLatency 4 20] ∧
    (LowestLatencyStrategy.selectSlices 5
        [sampleLatency 1 40, sampleLatency 2 10, sampleLatency 3 30, sampleLatency 4 20]).2.channels =
      [sampleLatency 1 40, sampleLatency 2 10, sampleLatency 3 30, sampleLatency 4 20] ∧
    (LowestLatencyStrategy.selectSlices 5
        [sampleLatency 1 40, sampleLatency 2 10, sampleLatency 3 30, sampleLatency 4 20]).2.sorted =
      sortSlice (fun ch => ch.AvgLatency)
        [sampleLatency 1 40, sampleLatency 2 10, sampleLatency 3 30, sampleLatency 4 20] :=
  ⟨by decide, LowestLatencyStrategy_Select_top3 5 _ (by decide)⟩

/-- The example of the instance above in numbers: the copy is sorted into the order of the
channels 2, 4, 3, 1, the channel at index `5 mod 3` of it, channel 3, is returned, and
the slice of the caller still reads 1, 2, 3, 4. -/
theorem selectSlices_example :
    (LowestLatencyStrategy.selectSlices 5
        [sampleLatency 1 40, sampleLatency 2 10, sampleLatency 3 30, sampleLatency 4 20]).2.sorted.map
      (fun m => m.Channel.Id) = [2, 4, 3, 1] ∧
    (LowestLatencyStrategy.selectSlices 5
        [sampleLatency 1 40, sampleLatency 2 10, sampleLatency 3 30, sampleLatency 4 20]).2.channels.map
      (fun m => m.Channel.Id) = [1, 2, 3, 4] ∧
    (LowestLatencyStrategy.selectSlices 5
        [sampleLatency 1 40, sampleLatency 2 10, sampleLatency 3 30, sampleLatency 4 20]).1.map
      (fun c => c.Id) = some 3 := by
  decide

/-! ## Round-robin strategy and empty candidate lists -/

theorem RoundRobinStrategy_Select_eq (counter : Nat) (channels : List ChannelWithMetrics)
    (hne : channels ≠ []) :
    RoundRobinStrategy.Select counter channels =
      ((channels.get? (counter % channels.length)).map (fun ch => ch.Channel), counter + 1) := by
  unfold RoundRobinStrategy.Select
  have : ¬ channels.length = 0 := by simpa using hne
  rw [if_neg this]

theorem RoundRobinStrategy_selectN_get (channels : List ChannelWithMetrics)
    (hne : channels ≠ []) (k : Nat) (c : Nat) :
    (RoundRobinStrategy.selectN c channels k).1.length = k ∧
    (RoundRobinStrategy.selectN c channels k).2 = c + k ∧
    ∀ j, j < k → (RoundRobinStrategy.selectN c channels k).1.get? j =
      some ((channels.get? ((c + j) % channels.length)).map (fun ch => ch.Channel)) := by
  induction k generalizing c with
  | zero => simp [RoundRobinStrategy.selectN]
  | succ k ih =>
    simp only [RoundRobinStrategy.selectN, RoundRobinStrategy_Select_eq c channels hne]
    obtain ⟨h1, h2, h3⟩ := ih (c + 1)
    refine ⟨by simp [h1], by rw [h2]; omega, ?_⟩
    intro j hj
    cases j with
    | zero => simp
    | succ j =>
      simp only [List.get?_cons_succ]
      rw [h3 j (by omega)]
      have e : c + 1 + j = c + (j + 1) := by omega
      rw [e]

/-- C19: for a non-empty candidate list of length `n`, `RoundRobinStrategy.Select` with
counter `c` returns the candidate at index `c mod n` and increments the counter; `n`
consecutive calls return each candidate exactly once (a rotation of the list). -/
theorem RoundRobinStrategy_Select_cycle (c : Nat) (channels : List ChannelWithMetrics)
    (hne : channels ≠ []) :
    (∃ m, channels.get? (c % channels.length) = some m ∧
      RoundRobinStrategy.Select c channels = (some m.Channel, c + 1)) ∧
    (RoundRobinStrategy.selectN c channels channels.length).1 =
      (channels.rotate c).map (fun m => some m.Channel) ∧
    List.Perm (RoundRobinStrategy.selectN c channels channels.length).1
      (channels.map (fun m => some m.Channel)) ∧
    (RoundRobinStrategy.selectN c channels channels.length).2 = c + channels.length := by
  have hpos : 0 < channels.length := List.length_pos.mpr hne
  have hrot : (RoundRobinStrategy.selectN c channels channels.length).1 =
      (channels.rotate c).map (fun m => some m.Channel) := by
    obtain ⟨h1, _, h3⟩ := RoundRobinStrategy_selectN_get channels hne channels.length c
    apply List.ext_get?
    intro j
    by_cases hj : j < channels.length
    · have hmap : ∀ (l : List ChannelWithMetrics) (n : Nat),
          (l.map (fun m => some m.Channel)).get? n =
            (l.get? n).map (fun m => some m.Channel) := by
        intro l n
        simp [List.get?_eq_getElem?]
      rw [h3 j hj, hmap, List.get?_rotate hj, Nat.add_comm c j]
      have hlt : (j + c) % channels.length < channels.length := Nat.mod_lt _ hpos
      cases h : channels.get? ((j + c) % channels.length) with
      | some m => rfl
      | none => rw [List.get?_eq_none] at h; omega
    · rw [List.get?_eq_none.mpr (by omega), List.get?_eq_none.mpr (by simp; omega)]
  refine ⟨?_, hrot, ?_, (RoundRobinStrategy_selectN_get channels hne _ c).2.1⟩
  · have hlt : c % channels.length < channels.length := Nat.mod_lt _ hpos
    obtain ⟨m, hm⟩ : ∃ m, channels.get? (c % channels.length) = some m := by
      cases h : channels.get? (c % channels.length) with
      | some m => exact ⟨m, rfl⟩
      | none => rw [List.get?_eq_none] at h; omega
    exact ⟨m, hm, by rw [RoundRobinStrategy_Select_eq c channels hne, hm]; rfl⟩
  · rw [hrot]
    exact (List.rotate_perm channels c).map _

/-- Instance of C19: three candidates, counter 4. -/
theorem RoundRobinStrategy_Select_cycle_witness :
    (∃ m, [sampleCandidate 1 none none, sampleCandidate 2 none none,
        sampleCandidate 3 none none].get? (4 % 3) = some m ∧
      RoundRobinStrategy.Select 4 [sampleCandidate 1 none none, sampleCandidate 2 none none,
        sampleCandidate 3 none none] = (some m.Channel, 4 + 1)) ∧
    (RoundRobinStrategy.selectN 4 [sampleCandidate 1 none none, sampleCandidate 2 none none,
        sampleCandidate 3 none none] 3).1 =
      ([sampleCandidate 1 none none, sampleCandidate 2 none none,
        sampleCandidate 3 none none].rotate 4).map (fun m => some m.Channel) ∧
    List.Perm (RoundRobinStrategy.selectN 4 [sampleCandidate 1 none none,
        sampleCandidate 2 none none, sampleCandidate 3 none none] 3).1
      ([sampleCandidate 1 none none, sampleCandidate 2 none none,
        sampleCandidate 3 none none].map (fun m => some m.Channel)) ∧
    (RoundRobinStrategy.selectN 4 [sampleCandidate 1 none none, sampleCandidate 2 none none,
        sampleCandidate 3 none none] 3).2 = 4 + 3 :=
  RoundRobinStrategy_Select_cycle 4 _ (by decide)

/-- C20: each of the five strategies returns no channel for an empty candidate list and
leaves its state (the weighted round-robin map, the round-robin counter) as it was. -/
theorem strategies_empty_list (st : WRRState) (counter rnd : Nat) (e : Engine) (name : String) :
    WeightRoundRobinStrategy.Select st [] = (none, st) ∧
    PriorityStrategy.Select rnd [] = none ∧
    LowestCostStrategy.Select rnd [] = none ∧
    LowestLatencyStrategy.Select rnd [] = none ∧
    RoundRobinStrategy.Select counter [] = (none, counter) ∧
    e.runStrategy name rnd [] = (none, e) := by
  refine ⟨rfl, rfl, rfl, rfl, rfl, ?_⟩
  unfold Engine.runStrategy
  split_ifs <;> rfl

/-! ## Health store: counters and status along event sequences -/

theorem readHealth_setNow_fields (db : DB) (t id : Int) :
    (({ db with now := t } : DB).readHealth id).SuccessCount = (db.readHealth id).SuccessCount ∧
    (({ db with now := t } : DB).readHealth id).FailureCount = (db.readHealth id).FailureCount ∧
    (({ db with now := t } : DB).readHealth id).AvgLatency = (db.readHealth id).AvgLatency ∧
    (({ db with now := t } : DB).readHealth id).Status = (db.readHealth id).Status := by
  simp only [DB.readHealth, DB.findHealth]
  cases db.health.find? (fun r => r.ChannelID == id) <;> simp [newHealthRow]

/-- The record of the channel after a success report, in terms of the record before. -/
theorem applyHealthEvent_success {db : DB} (hok : db.failing = false) (id now latency : Int) :
    ((applyHealthEvent id db (.success now latency)).readHealth id).SuccessCount =
      (db.readHealth id).SuccessCount + 1 ∧
    ((applyHealthEvent id db (.success now latency)).readHealth id).FailureCount =
      (db.readHealth id).FailureCount ∧
    ((applyHealthEvent id db (.success now latency)).readHealth id).ConsecutiveFails = 0 ∧
    ((applyHealthEvent id db (.success now latency)).readHealth id).Status =
      (if (db.readHealth id).Status = "unhealthy" ∧
          (db.readHealth id).SuccessCount + 1 + (db.readHealth id).FailureCount > 0 ∧
          (((db.readHealth id).SuccessCount + 1 : Int) : ℚ) /
            (((db.readHealth id).SuccessCount + 1 + (db.readHealth id).FailureCount : Int) : ℚ)
              > 0.9
        then "healthy" else (db.readHealth id).Status) := by
  have hf := @OnRequestSuccess_findHealth { db with now := now } hok id latency
  obtain ⟨f1, f2, f3⟩ := successUpdate_fields now latency (({ db with now := now } : DB).readHealth id)
  have f4 := successUpdate_status now latency (({ db with now := now } : DB).readHealth id)
  obtain ⟨r1, r2, _, r4⟩ := readHealth_setNow_fields db now id
  simp only [applyHealthEvent]
  rw [readHealth_of_findHealth hf]
  simp only
  rw [r1] at f1
  rw [r2] at f2
  rw [r1, r2, r4] at f4
  exact ⟨f1, f2, f3, f4⟩

/-- The record of the channel after a failure report, in terms of the record before. -/
theorem applyHealthEvent_failure {db : DB} (hok : db.failing = false) (id now : Int)
    (code : String) :
    ((applyHealthEvent id db (.failure now code)).readHealth id).FailureCount =
      (db.readHealth id).FailureCount + 1 ∧
    ((applyHealthEvent id db (.failure now code)).readHealth id).SuccessCount =
      (db.readHealth id).SuccessCount ∧
    ((applyHealthEvent id db (.failure now code)).readHealth id).ConsecutiveFails =
      (db.readHealth id).ConsecutiveFails + 1 ∧
    ((applyHealthEvent id db (.failure now code)).readHealth id).AvgLatency =
      (db.readHealth id).AvgLatency ∧
    ((applyHealthEvent id db (.failure now code)).readHealth id).Status =
      (if (db.readHealth id).ConsecutiveFails + 1 ≥ 3 ∨
          ((db.readHealth id).SuccessCount + ((db.readHealth id).FailureCount + 1) ≥ 10 ∧
            (((db.readHealth id).FailureCount + 1 : Int) : ℚ) /
              (((db.readHealth id).SuccessCount + ((db.readHealth id).FailureCount + 1) : Int) : ℚ)
                > 0.1)
        then "unhealthy" else (db.readHealth id).Status) := by
  have hf := @OnRequestFailure_findHealth { db with now := now } hok id code
  obtain ⟨f1, f2, f3, f5⟩ := failureUpdate_fields now (({ db with now := now } : DB).readHealth id)
  have f4 := failureUpdate_status now (({ db with now := now } : DB).readHealth id)
  obtain ⟨r1, r2, r3, r4⟩ := readHealth_setNow_fields db now id
  have r5 := readHealth_setNow_consecutiveFails db now id
  simp only [applyHealthEvent]
  rw [readHealth_of_findHealth hf]
  simp only
  rw [r2] at f1
  rw [r1] at f2
  rw [r5] at f3
  rw [r3] at f5
  rw [r1, r2, r4, r5] at f4
  exact ⟨f1, f2, f3, f5, f4⟩

/-- The invariant of the health record under success and failure reports. -/
theorem applyHealthEvent_inv {db : DB} (hok : db.failing = false) (id : Int) (e : HealthEvent)
    (h : 0 ≤ (db.readHealth id).ConsecutiveFails ∧
      (db.readHealth id).ConsecutiveFails ≤ (db.readHealth id).FailureCount ∧
      ((db.readHealth id).ConsecutiveFails ≥ 3 → (db.readHealth id).Status = "unhealthy")) :
    0 ≤ ((applyHealthEvent id db e).readHealth id).ConsecutiveFails ∧
      ((applyHealthEvent id db e).readHealth id).ConsecutiveFails ≤
        ((applyHealthEvent id db e).readHealth id).FailureCount ∧
      (((applyHealthEvent id db e).readHealth id).ConsecutiveFails ≥ 3 →
        ((applyHealthEvent id db e).readHealth id).Status = "unhealthy") := by
  obtain ⟨h1, h2, h3⟩ := h
  cases e with
  | success now latency =>
    obtain ⟨_, f2, f3, _⟩ := applyHealthEvent_success hok id now latency
    rw [f3, f2]
    exact ⟨le_refl _, by omega, fun h => by omega⟩
  | failure now code =>
    obtain ⟨f1, _, f3, _, f5⟩ := applyHealthEvent_failure hok id now code
    rw [f3, f1]
    refine ⟨by omega, by omega, fun h => ?_⟩
    rw [f5, if_pos (Or.inl h)]

theorem applyHealthEvents_inv (id : Int) (events : List HealthEvent) (db : DB)
    (hok : db.failing = false)
    (h : 0 ≤ (db.readHealth id).ConsecutiveFails ∧
      (db.readHealth id).ConsecutiveFails ≤ (db.readHealth id).FailureCount ∧
      ((db.readHealth id).ConsecutiveFails ≥ 3 → (db.readHealth id).Status = "unhealthy")) :
    0 ≤ ((applyHealthEvents id db events).readHealth id).ConsecutiveFails ∧
      ((applyHealthEvents id db events).readHealth id).ConsecutiveFails ≤
        ((applyHealthEvents id db events).readHealth id).FailureCount ∧
      (((applyHealthEvents id db events).readHealth id).ConsecutiveFails ≥ 3 →
        ((applyHealthEvents id db events).readHealth id).Status = "unhealthy") := by
  induction events generalizing db with
  | nil => exact h
  | cons e rest ih =>
    simp only [applyHealthEvents, List.foldl_cons]
    exact ih _ (by rw [applyHealthEvent_failing]; exact hok) (applyHealthEvent_inv hok id e h)

theorem readHealth_fresh {db : DB} {id : Int} (hfresh : db.findHealth id = none) :
    db.readHealth id = newHealthRow id db.now := by
  simp [DB.readHealth, hfresh]

theorem applyHealthEvents_cons (id : Int) (db : DB) (e : HealthEvent) (es : List HealthEvent) :
    applyHealthEvents id db (e :: es) = applyHealthEvents id (applyHealthEvent id db e) es := rfl

theorem applyHealthEvents_app (id : Int) (db : DB) (es1 es2 : List HealthEvent) :
    applyHealthEvents id db (es1 ++ es2) =
      applyHealthEvents id (applyHealthEvents id db es1) es2 := by
  simp [applyHealthEvents, List.foldl_append]

/-- C30: in every state reached from a fresh record by `OnRequestSuccess` and
`OnRequestFailure` calls, `consecutive_fails` is at most `failure_count`, and a value of 3
or more implies the status `unhealthy`; three failures in a row after any history leave
the channel unhealthy. -/
theorem consecutiveFails_bounds (db : DB) (channelID : Int) (events : List HealthEvent)
    (hok : db.failing = false) (hfresh : db.findHealth channelID = none) :
    ((applyHealthEvents channelID db events).readHealth channelID).ConsecutiveFails ≤
      ((applyHealthEvents channelID db events).readHealth channelID).FailureCount ∧
    (((applyHealthEvents channelID db events).readHealth channelID).ConsecutiveFails ≥ 3 →
      ((applyHealthEvents channelID db events).readHealth channelID).Status = "unhealthy") ∧
    ∀ (t1 t2 t3 : Int) (c1 c2 c3 : String),
      ((applyHealthEvents channelID db
        (events ++ [.failure t1 c1, .failure t2 c2, .failure t3 c3])).readHealth
          channelID).Status = "unhealthy" := by
  have h0 : 0 ≤ (db.readHealth channelID).ConsecutiveFails ∧
      (db.readHealth channelID).ConsecutiveFails ≤ (db.readHealth channelID).FailureCount ∧
      ((db.readHealth channelID).ConsecutiveFails ≥ 3 →
        (db.readHealth channelID).Status = "unhealthy") := by
    rw [readHealth_fresh hfresh]
    simp [newHealthRow]
  obtain ⟨i1, i2, i3⟩ := applyHealthEvents_inv channelID events db hok h0
  refine ⟨i2, i3, ?_⟩
  intro t1 t2 t3 c1 c2 c3
  obtain ⟨j1, j2, j3⟩ := applyHealthEvents_inv channelID
    (events ++ [.failure t1 c1, .failure t2 c2, .failure t3 c3]) db hok h0
  apply j3
  have hok1 : (applyHealthEvents channelID db events).failing = false := by
    rw [applyHealthEvents_failing]; exact hok
  rw [applyHealthEvents_app]
  simp only [applyHealthEvents_cons]
  have e1 := (applyHealthEvent_failure hok1 channelID t1 c1).2.2.1
  have hok2 : (applyHealthEvent channelID (applyHealthEvents channelID db events)
      (.failure t1 c1)).failing = false := by
    rw [applyHealthEvent_failing]; exact hok1
  have e2 := (applyHealthEvent_failure hok2 channelID t2 c2).2.2.1
  have hok3 : (applyHealthEvent channelID (applyHealthEvent channelID
      (applyHealthEvents channelID db events) (.failure t1 c1)) (.failure t2 c2)).failing
        = false := by
    rw [applyHealthEvent_failing]; exact hok2
  have e3 := (applyHealthEvent_failure hok3 channelID t3 c3).2.2.1
  show ((applyHealthEvent channelID _ (.failure t3 c3)).readHealth channelID).ConsecutiveFails ≥ 3
  rw [e3, e2, e1]
  omega

/-- Instance of C30: two successes and three failures on an untracked channel. -/
theorem consecutiveFails_bounds_witness :
    (emptyDB 0).failing = false ∧ (emptyDB 0).findHealth 7 = none ∧
    ((applyHealthEvents 7 (emptyDB 0)
      [.success 1 50, .success 2 50, .failure 3 "500", .failure 4 "500",
        .failure 5 "500"]).readHealth 7).ConsecutiveFails ≤
      ((applyHealthEvents 7 (emptyDB 0)
        [.success 1 50, .success 2 50, .failure 3 "500", .failure 4 "500",
          .failure 5 "500"]).readHealth 7).FailureCount :=
  ⟨rfl, rfl, (consecutiveFails_bounds (emptyDB 0) 7
    [.success 1 50, .success 2 50, .failure 3 "500", .failure 4 "500", .failure 5 "500"]
    rfl rfl).1⟩

theorem applyHealthEvents_counters (id : Int) (events : List HealthEvent) (db : DB)
    (hok : db.failing = false) :
    ((applyHealthEvents id db events).readHealth id).SuccessCount =
      (db.readHealth id).SuccessCount + successCountOf events ∧
    ((applyHealthEvents id db events).readHealth id).FailureCount =
      (db.readHealth id).FailureCount + failureCountOf events := by
  induction events generalizing db with
  | nil => simp [applyHealthEvents, successCountOf, failureCountOf]
  | cons e rest ih =>
    have hok1 : (applyHealthEvent id db e).failing = false := by
      rw [applyHealthEvent_failing]; exact hok
    obtain ⟨i1, i2⟩ := ih (applyHealthEvent id db e) hok1
    rw [applyHealthEvents_cons, i1, i2]
    cases e with
    | success now latency =>
      obtain ⟨f1, f2, _⟩ := applyHealthEvent_success hok id now latency
      rw [f1, f2]
      simp only [successCountOf, failureCountOf, List.countP_cons, HealthEvent.isFailure,
        Bool.not_false, if_true, Bool.false_eq_true, if_false]
      push_cast
      constructor <;> ring
    | failure now code =>
      obtain ⟨f1, f2, _⟩ := applyHealthEvent_failure hok id now code
      rw [f1, f2]
      simp only [successCountOf, failureCountOf, List.countP_cons, HealthEvent.isFailure,
        Bool.not_true, if_true, Bool.false_eq_true, if_false]
      push_cast
      constructor <;> ring

theorem successCountOf_add_failureCountOf (events : List HealthEvent) :
    successCountOf events + failureCountOf events = events.length := by
  induction events with
  | nil => rfl
  | cons e rest ih =>
    cases e <;>
      simp only [successCountOf, failureCountOf, List.countP_cons, HealthEvent.isFailure,
        Bool.not_true, Bool.not_false, if_true, Bool.false_eq_true, if_false,
        List.length_cons] at ih ⊢ <;> omega

/-- C23: `OnRequestSuccess` stores a record with `success_count` increased by exactly 1 and
`failure_count` unchanged, `OnRequestFailure` one with `failure_count` increased by exactly
1 and `success_count` unchanged; along any sequence of these calls the counters grow by
the number of successes and of failures, so neither ever decreases and their sum grows
by the number of events. -/
theorem counters_grow (db : DB) (channelID : Int) (events : List HealthEvent)
    (hok : db.failing = false) :
    (∀ latency : Int,
      ((OnRequestSuccess db channelID latency).2.readHealth channelID).SuccessCount =
        (db.readHealth channelID).SuccessCount + 1 ∧
      ((OnRequestSuccess db channelID latency).2.readHealth channelID).FailureCount =
        (db.readHealth channelID).FailureCount) ∧
    (∀ errorCode : String,
      ((OnRequestFailure db channelID errorCode).2.readHealth channelID).FailureCount =
        (db.readHealth channelID).FailureCount + 1 ∧
      ((OnRequestFailure db channelID errorCode).2.readHealth channelID).SuccessCount =
        (db.readHealth channelID).SuccessCount) ∧
    ((applyHealthEvents channelID db events).readHealth channelID).SuccessCount =
      (db.readHealth channelID).SuccessCount + successCountOf events ∧
    ((applyHealthEvents channelID db events).readHealth channelID).FailureCount =
      (db.readHealth channelID).FailureCount + failureCountOf events ∧
    ((applyHealthEvents channelID db events).readHealth channelID).SuccessCount +
        ((applyHealthEvents channelID db events).readHealth channelID).FailureCount =
      (db.readHealth channelID).SuccessCount + (db.readHealth channelID).FailureCount +
        events.length ∧
    (∀ es1 es2 : List HealthEvent, events = es1 ++ es2 →
      ((applyHealthEvents channelID db es1).readHealth channelID).SuccessCount ≤
        ((applyHealthEvents channelID db events).readHealth channelID).SuccessCount ∧
      ((applyHealthEvents channelID db es1).readHealth channelID).FailureCount ≤
        ((applyHealthEvents channelID db events).readHealth channelID).FailureCount) := by
  obtain ⟨c1, c2⟩ := applyHealthEvents_counters channelID events db hok
  refine ⟨?_, ?_, c1, c2, ?_, ?_⟩
  · intro latency
    have hf := @OnRequestSuccess_findHealth db hok channelID latency
    obtain ⟨f1, f2, _⟩ := successUpdate_fields db.now latency (db.readHealth channelID)
    rw [readHealth_of_findHealth hf]
    exact ⟨f1, f2⟩
  · intro code
    have hf := @OnRequestFailure_findHealth db hok channelID code
    obtain ⟨f1, f2, _⟩ := failureUpdate_fields db.now (db.readHealth channelID)
    rw [readHealth_of_findHealth hf]
    exact ⟨f1, f2⟩
  · have := successCountOf_add_failureCountOf events
    rw [c1, c2]
    have h2 : ((successCountOf events : Nat) : Int) + (failureCountOf events : Nat) =
        (events.length : Nat) := by exact_mod_cast this
    linarith
  · intro es1 es2 he
    subst he
    have hok1 : (applyHealthEvents channelID db es1).failing = false := by
      rw [applyHealthEvents_failing]; exact hok
    obtain ⟨d1, d2⟩ := applyHealthEvents_counters channelID es2 _ hok1
    rw [applyHealthEvents_app, d1, d2]
    constructor <;> omega

/-- Instance of C23: a success and two failures on an untracked channel. -/
theorem counters_grow_witness :
    (emptyDB 0).failing = false ∧
    ((applyHealthEvents 7 (emptyDB 0)
      [.success 1 50, .failure 2 "500", .failure 3 "500"]).readHealth 7).SuccessCount =
      ((emptyDB 0).readHealth 7).SuccessCount +
        successCountOf [.success 1 50, .failure 2 "500", .failure 3 "500"] :=
  ⟨rfl, (counters_grow (emptyDB 0) 7 [.success 1 50, .failure 2 "500", .failure 3 "500"]
    rfl).2.2.1⟩

/-- A success report changes the status only from `unhealthy`, and then to `healthy`. -/
theorem applyHealthEvent_success_status {db : DB} (hok : db.failing = false)
    (id now latency : Int) :
    ((applyHealthEvent id db (.success now latency)).readHealth id).Status =
        (db.readHealth id).Status ∨
      ((db.readHealth id).Status = "unhealthy" ∧
        ((applyHealthEvent id db (.success now latency)).readHealth id).Status = "healthy") := by
  have h := (applyHealthEvent_success hok id now latency).2.2.2
  rw [h]
  split
  · rename_i hc
    exact Or.inr ⟨hc.1, rfl⟩
  · exact Or.inl rfl

/-- A failure report leaves the status as it is or sets it to `unhealthy`. -/
theorem applyHealthEvent_failure_status {db : DB} (hok : db.failing = false)
    (id now : Int) (code : String) :
    ((applyHealthEvent id db (.failure now code)).readHealth id).Status =
        (db.readHealth id).Status ∨
      ((applyHealthEvent id db (.failure now code)).readHealth id).Status = "unhealthy" := by
  have h := (applyHealthEvent_failure hok id now code).2.2.2.2
  rw [h]
  split
  · exact Or.inr rfl
  · exact Or.inl rfl

/-- C28: `OnRequestSuccess` never changes the status `unknown`; starting from a fresh
record, after any sequence of `OnRequestSuccess` / `OnRequestFailure` calls the status is
`healthy` only if it was `unhealthy` after a proper initial part of the sequence, and
after any number of successes alone it is still `unknown`. -/
theorem status_healthy_only_after_unhealthy (db : DB) (channelID : Int)
    (events : List HealthEvent) (hok : db.failing = false)
    (hfresh : db.findHealth channelID = none) :
    (∀ (d : DB) (latency : Int), d.failing = false →
      (d.readHealth channelID).Status = "unknown" →
      ((OnRequestSuccess d channelID latency).2.readHealth channelID).Status = "unknown") ∧
    (((applyHealthEvents channelID db events).readHealth channelID).Status = "healthy" →
      ∃ es1 es2, events = es1 ++ es2 ∧ es2 ≠ [] ∧
        ((applyHealthEvents channelID db es1).readHealth channelID).Status = "unhealthy") ∧
    ((∀ e ∈ events, e.isFailure = false) →
      ((applyHealthEvents channelID db events).readHealth channelID).Status = "unknown") := by
  refine ⟨?_, ?_, ?_⟩
  · intro d latency hd hu
    have hf := @OnRequestSuccess_findHealth d hd channelID latency
    rw [readHealth_of_findHealth hf]
    have := successUpdate_status d.now latency (d.readHealth channelID)
    simp only
    rw [this, if_neg]
    · exact hu
    · rw [hu]; simp
  · induction events using List.reverseRecOn with
    | nil =>
      intro h
      rw [show applyHealthEvents channelID db [] = db from rfl, readHealth_fresh hfresh] at h
      simp [newHealthRow] at h
    | append_singleton es e ih =>
      intro h
      have hok1 : (applyHealthEvents channelID db es).failing = false := by
        rw [applyHealthEvents_failing]; exact hok
      rw [applyHealthEvents_append] at h
      have hprev : ((applyHealthEvents channelID db es).readHealth channelID).Status = "healthy" ∨
          ((applyHealthEvents channelID db es).readHealth channelID).Status = "unhealthy" := by
        cases e with
        | success now latency =>
          rcases applyHealthEvent_success_status hok1 channelID now latency with h1 | h1
          · left; rw [← h1]; exact h
          · right; exact h1.1
        | failure now code =>
          rcases applyHealthEvent_failure_status hok1 channelID now code with h1 | h1
          · left; rw [← h1]; exact h
          · rw [h1] at h; simp at h
      rcases hprev with hp | hp
      · obtain ⟨es1, es2, he, hne, hu⟩ := ih hp
        exact ⟨es1, es2 ++ [e], by rw [he, List.append_assoc], by simp, hu⟩
      · exact ⟨es, [e], rfl, by simp, hp⟩
  · induction events using List.reverseRecOn with
    | nil =>
      intro _
      rw [show applyHealthEvents channelID db [] = db from rfl, readHealth_fresh hfresh]
      rfl
    | append_singleton es e ih =>
      intro hall
      have hok1 : (applyHealthEvents channelID db es).failing = false := by
        rw [applyHealthEvents_failing]; exact hok
      have hprev := ih (fun x hx => hall x (List.mem_append_left _ hx))
      have he := hall e (by simp)
      rw [applyHealthEvents_append]
      cases e with
      | success now latency =>
        rcases applyHealthEvent_success_status hok1 channelID now latency with h1 | h1
        · rw [h1]; exact hprev
        · rw [hprev] at h1; simp at h1
      | failure now code => simp [HealthEvent.isFailure] at he

/-- Instance of C28: forty successes on an untracked channel. -/
theorem status_healthy_only_after_unhealthy_witness :
    (emptyDB 0).failing = false ∧ (emptyDB 0).findHealth 7 = none ∧
    ((∀ e ∈ List.replicate 40 (HealthEvent.success 1 50), e.isFailure = false) →
      ((applyHealthEvents 7 (emptyDB 0)
        (List.replicate 40 (HealthEvent.success 1 50))).readHealth 7).Status = "unknown") :=
  ⟨rfl, rfl, (status_healthy_only_after_unhealthy (emptyDB 0) 7
    (List.replicate 40 (HealthEvent.success 1 50)) rfl rfl).2.2⟩

/-! ## Moving average of the latency -/

theorem roundHalfEven_le_add_half (y : ℚ) : (roundHalfEven y : ℚ) ≤ y + 1 / 2 := by
  have h : roundHalfEven y - 1 < roundHalfEven y := by omega
  rw [roundHalfEven_gt_iff] at h
  push_cast at h
  rcases h with h | ⟨h, _⟩ <;> linarith

/-- The binary64 rounding of a rational between `1/8` and `2^45`, with the scale written as
a natural power of two. -/
theorem toFloat64_exists_scale (x : ℚ) (h1 : 1 / 8 ≤ x) (h2 : x < 2 ^ (45 : Nat)) :
    ∃ s : Nat, 7 ≤ s ∧ s ≤ 55 ∧ (2 : ℚ) ^ (52 : Nat) ≤ x * 2 ^ s ∧ x * 2 ^ s < 2 ^ (53 : Nat) ∧
      toFloat64 x = (roundHalfEven (x * 2 ^ s) : ℚ) / 2 ^ s := by
  have hx : 0 < x := by linarith
  have hle : (2 : ℚ) ^ (Int.log 2 x) ≤ x := by
    have := Int.zpow_log_le_self (b := 2) (by norm_num) hx
    exact_mod_cast this
  have hlt : x < (2 : ℚ) ^ (Int.log 2 x + 1) := by
    have := Int.lt_zpow_succ_log_self (b := 2) (by norm_num) x
    exact_mod_cast this
  have hfl := toFloat64_of_log x hx _ rfl
  generalize Int.log 2 x = e at hle hlt hfl
  have he1 : -3 ≤ e := by
    by_contra hc
    have hpow : (2 : ℚ) ^ (e + 1) ≤ (2 : ℚ) ^ (-3 : Int) :=
      zpow_le_zpow_right₀ (by norm_num) (by omega)
    have h8 : (2 : ℚ) ^ (-3 : Int) = 1 / 8 := by norm_num
    rw [h8] at hpow
    linarith
  have he2 : e ≤ 44 := by
    by_contra hc
    have hpow : (2 : ℚ) ^ (45 : Int) ≤ (2 : ℚ) ^ e :=
      zpow_le_zpow_right₀ (by norm_num) (by omega)
    have h45 : (2 : ℚ) ^ (45 : Int) = 2 ^ (45 : Nat) := by norm_num
    rw [h45] at hpow
    linarith
  obtain ⟨s, hs⟩ : ∃ s : Nat, (s : Int) = 52 - e := ⟨(52 - e).toNat, by omega⟩
  have hpos : (0 : ℚ) < (2 : ℚ) ^ s := by positivity
  have hw : (2 : ℚ) ^ (e - 52) = 1 / 2 ^ s := by
    have : e - 52 = -(s : Int) := by omega
    rw [this, zpow_neg, zpow_natCast, one_div]
  have he : (2 : ℚ) ^ e = 2 ^ (52 : Nat) / 2 ^ s := by
    have : e = (52 : Int) - (s : Int) := by omega
    rw [this, zpow_sub₀ (by norm_num : (2 : ℚ) ≠ 0), zpow_natCast]
    norm_num
  have he' : (2 : ℚ) ^ (e + 1) = 2 ^ (53 : Nat) / 2 ^ s := by
    have : e + 1 = (53 : Int) - (s : Int) := by omega
    rw [this, zpow_sub₀ (by norm_num : (2 : ℚ) ≠ 0), zpow_natCast]
    norm_num
  refine ⟨s, by omega, by omega, ?_, ?_, ?_⟩
  · rw [he, div_le_iff₀ hpos] at hle
    exact hle
  · rw [he', lt_div_iff₀ hpos] at hlt
    exact hlt
  · rw [hfl, hw]
    rw [div_div_eq_mul_div, div_one, mul_one_div]

/-- The literal `0.2` as a binary64 number: `(2^54 + 1) / 5 / 2^54`. -/
theorem toFloat64_one_fifth :
    toFloat64 (2 / 10) = (3602879701896397 : ℚ) / (2 : ℚ) ^ (54 : Nat) := by
  have hk : Int.log 2 ((2 : ℚ) / 10) = -3 := by
    apply log_two_eq_of_bounds <;> norm_num
  rw [toFloat64_of_log _ (by norm_num) _ hk]
  have hr : roundHalfEven ((2 : ℚ) / 10 / (2 : ℚ) ^ ((-3 : Int) - 52)) = 7205759403792794 := by
    apply roundHalfEven_eq_of_near <;> norm_num
  rw [hr]
  norm_num

/-- The binary64 value of `1 - alpha` for `alpha` the binary64 literal `0.2`: four times
that literal. -/
theorem toFloat64_one_sub_fifth :
    toFloat64 (1 - (3602879701896397 : ℚ) / (2 : ℚ) ^ (54 : Nat)) =
      4 * ((3602879701896397 : ℚ) / (2 : ℚ) ^ (54 : Nat)) := by
  have hk : Int.log 2 (1 - (3602879701896397 : ℚ) / (2 : ℚ) ^ (54 : Nat)) = -1 := by
    apply log_two_eq_of_bounds <;> norm_num
  rw [toFloat64_of_log _ (by norm_num) _ hk]
  have hr : roundHalfEven ((1 - (3602879701896397 : ℚ) / (2 : ℚ) ^ (54 : Nat)) /
      (2 : ℚ) ^ ((-1 : Int) - 52)) = 7205759403792794 := by
    unfold roundHalfEven
    have hfl : ⌊(1 - (3602879701896397 : ℚ) / (2 : ℚ) ^ (54 : Nat)) /
        (2 : ℚ) ^ ((-1 : Int) - 52)⌋ = 7205759403792793 := by
      rw [Int.floor_eq_iff]
      constructor <;> norm_num
    rw [hfl]
    norm_num
  rw [hr]
  norm_num

/-- A binary64 product `fl(0.2) * m` for an integer `m`: its scale, and how far the
rounded product can lie below `m / 5` and above the exact product. -/
theorem float64_fifth_mul (m : Int) (hm1 : 1 ≤ m) (hm2 : m ≤ 2 ^ 43) :
    ∃ s : Nat, 7 ≤ s ∧ s ≤ 55 ∧
      (2 : ℚ) ^ (52 : Nat) ≤
        toFloat64 ((m : ℚ) * ((3602879701896397 : ℚ) / (2 : ℚ) ^ (54 : Nat))) * 2 ^ s ∧
      (m : ℚ) / 5 - 1 / 5 / 2 ^ s ≤
        toFloat64 ((m : ℚ) * ((3602879701896397 : ℚ) / (2 : ℚ) ^ (54 : Nat))) ∧
      toFloat64 ((m : ℚ) * ((3602879701896397 : ℚ) / (2 : ℚ) ^ (54 : Nat))) ≤
        (m : ℚ) * ((3602879701896397 : ℚ) / (2 : ℚ) ^ (54 : Nat)) + 1 / 2 / 2 ^ s := by
  have hc : (3602879701896397 : ℚ) / (2 : ℚ) ^ (54 : Nat) =
      3602879701896397 / 18014398509481984 := by norm_num
  rw [hc]
  have hmq1 : (1 : ℚ) ≤ (m : ℚ) := by exact_mod_cast hm1
  have hmq2 : (m : ℚ) ≤ 8796093022208 := by
    have : m ≤ 8796093022208 := by simpa using hm2
    exact_mod_cast this
  obtain ⟨s, hs1, hs2, hlo, hhi, hfl⟩ := toFloat64_exists_scale
    ((m : ℚ) * (3602879701896397 / 18014398509481984)) (by linarith) (by norm_num; linarith)
  have hpos : (0 : ℚ) < (2 : ℚ) ^ s := by positivity
  refine ⟨s, hs1, hs2, ?_, ?_, ?_⟩
  · rw [hfl, div_mul_cancel₀ _ (ne_of_gt hpos)]
    have : (4503599627370496 : Int) ≤ roundHalfEven
        ((m : ℚ) * (3602879701896397 / 18014398509481984) * 2 ^ s) := by
      apply roundHalfEven_ge
      have : (2 : ℚ) ^ (52 : Nat) = ((4503599627370496 : Int) : ℚ) := by norm_num
      rw [← this]
      exact hlo
    have h2 : ((4503599627370496 : Int) : ℚ) ≤ (roundHalfEven
        ((m : ℚ) * (3602879701896397 / 18014398509481984) * 2 ^ s) : ℚ) := by
      exact_mod_cast this
    have : (2 : ℚ) ^ (52 : Nat) = ((4503599627370496 : Int) : ℚ) := by norm_num
    rw [this]
    exact h2
  · -- the rounded multiple is at most one fifth of a unit below `m / 5`
    rw [hfl, le_div_iff₀ hpos]
    have hM : ((m * 2 ^ s : Int) : ℚ) = (m : ℚ) * 2 ^ s := by push_cast; ring
    have hy : (m : ℚ) * (3602879701896397 / 18014398509481984) * 2 ^ s =
        ((m * 2 ^ s : Int) : ℚ) * (3602879701896397 / 18014398509481984) := by
      rw [hM]; ring
    rw [hy] at hlo ⊢
    have hgoal : (m : ℚ) / 5 * 2 ^ s - 1 / 5 =
        (((m * 2 ^ s : Int) : ℚ) - 1) / 5 := by rw [hM]; ring
    have e1 : ((m : ℚ) / 5 - 1 / 5 / 2 ^ s) * 2 ^ s = (m : ℚ) / 5 * 2 ^ s - 1 / 5 := by
      field_simp
      ring
    rw [e1, hgoal]
    generalize m * 2 ^ s = M at hlo ⊢
    have h52 : (2 : ℚ) ^ (52 : Nat) = 4503599627370496 := by norm_num
    rw [h52] at hlo
    have hMpos : (0 : ℚ) ≤ (M : ℚ) := by linarith
    have hMi : 0 ≤ M := by exact_mod_cast hMpos
    have hkey : M - 1 ≤ 5 * roundHalfEven ((M : ℚ) * (3602879701896397 / 18014398509481984)) := by
      by_cases ht : M % 5 ≤ 1
      · have ha : (M / 5 : Int) ≤
            roundHalfEven ((M : ℚ) * (3602879701896397 / 18014398509481984)) := by
          apply roundHalfEven_ge
          have h5 : ((M / 5 : Int) : ℚ) * 5 ≤ (M : ℚ) := by
            have : (M / 5) * 5 ≤ M := by omega
            exact_mod_cast this
          linarith
        omega
      · have ha : (M / 5 : Int) <
            roundHalfEven ((M : ℚ) * (3602879701896397 / 18014398509481984)) := by
          rw [roundHalfEven_gt_iff]
          left
          have h5 : ((M / 5 : Int) : ℚ) * 5 + 2 ≤ (M : ℚ) := by
            have : (M / 5) * 5 + 2 ≤ M := by omega
            exact_mod_cast this
          linarith
        omega
    have hq : ((M - 1 : Int) : ℚ) ≤
        ((5 * roundHalfEven ((M : ℚ) * (3602879701896397 / 18014398509481984)) : Int) : ℚ) := by
      exact_mod_cast hkey
    push_cast at hq
    linarith
  · rw [hfl, div_le_iff₀ hpos]
    have := roundHalfEven_le_add_half
      ((m : ℚ) * (3602879701896397 / 18014398509481984) * 2 ^ s)
    have e1 : ((m : ℚ) * (3602879701896397 / 18014398509481984) + 1 / 2 / 2 ^ s) * 2 ^ s =
        (m : ℚ) * (3602879701896397 / 18014398509481984) * 2 ^ s + 1 / 2 := by
      field_simp
      ring
    rw [e1]
    exact this

/-- The last two steps of the moving average, rounding the sum to binary64 and truncating
it: a sum that lies less than two fifths of its rounding unit below an integer `k`, and
at most `0.9` above it, yields `k`. -/
theorem truncToInt_toFloat64_of_near (x : ℚ) (k : Int) (s : Nat) (hk : 0 ≤ k)
    (h1 : 1 / 8 ≤ x) (h2 : x < 2 ^ (45 : Nat)) (hs : (2 : ℚ) ^ (52 : Nat) ≤ x * 2 ^ s)
    (hlo : (k : ℚ) - 2 / 5 / 2 ^ s ≤ x) (hhi : x ≤ (k : ℚ) + 9 / 10) :
    truncToInt (toFloat64 x) = k := by
  obtain ⟨r, hr1, hr2, hrlo, hrhi, hfl⟩ := toFloat64_exists_scale x h1 h2
  have hx : 0 < x := by linarith
  have ha : (0 : ℚ) < (2 : ℚ) ^ s := by positivity
  have hc : (0 : ℚ) < (2 : ℚ) ^ r := by positivity
  have hrs : r ≤ s := by
    by_contra hcon
    have hle : (2 : ℚ) ^ (s + 1) ≤ (2 : ℚ) ^ r :=
      pow_le_pow_right₀ (by norm_num) (by omega)
    rw [pow_succ] at hle
    have : x * ((2 : ℚ) ^ s * 2) ≤ x * (2 : ℚ) ^ r := mul_le_mul_of_nonneg_left hle (le_of_lt hx)
    have h53 : (2 : ℚ) ^ (53 : Nat) = 2 * 2 ^ (52 : Nat) := by norm_num
    rw [h53] at hrhi
    linarith
  have hca : (2 : ℚ) ^ r ≤ (2 : ℚ) ^ s := pow_le_pow_right₀ (by norm_num) hrs
  have hc7 : (128 : ℚ) ≤ (2 : ℚ) ^ r := by
    have : (2 : ℚ) ^ (7 : Nat) ≤ (2 : ℚ) ^ r := pow_le_pow_right₀ (by norm_num) hr1
    norm_num at this
    exact this
  -- the rounded significand is at least `k * 2 ^ r`
  have hK : ((k * 2 ^ r : Int) : ℚ) = (k : ℚ) * 2 ^ r := by push_cast; ring
  have hR : k * 2 ^ r ≤ roundHalfEven (x * 2 ^ r) := by
    have hgt : k * 2 ^ r - 1 < roundHalfEven (x * 2 ^ r) := by
      rw [roundHalfEven_gt_iff]
      left
      have hm := mul_le_mul_of_nonneg_right hlo (le_of_lt hc)
      have e : ((k : ℚ) - 2 / 5 / 2 ^ s) * 2 ^ r = (k : ℚ) * 2 ^ r - 2 / 5 * (2 ^ r / 2 ^ s) := by
        field_simp
        ring
      rw [e] at hm
      have hdiv : (2 : ℚ) ^ r / 2 ^ s ≤ 1 := (div_le_one ha).mpr hca
      push_cast
      linarith
    omega
  have hRq : (k : ℚ) * 2 ^ r ≤ (roundHalfEven (x * 2 ^ r) : ℚ) := by
    rw [← hK]
    exact_mod_cast hR
  have hlow : (k : ℚ) ≤ toFloat64 x := by
    rw [hfl, le_div_iff₀ hc]
    exact hRq
  have hupp : toFloat64 x < (k : ℚ) + 1 := by
    rw [hfl, div_lt_iff₀ hc]
    have := roundHalfEven_le_add_half (x * 2 ^ r)
    have hm : x * 2 ^ r ≤ ((k : ℚ) + 9 / 10) * 2 ^ r :=
      mul_le_mul_of_nonneg_right hhi (le_of_lt hc)
    nlinarith
  unfold truncToInt
  rw [if_pos (by
    have : (0 : ℚ) ≤ (k : ℚ) := by exact_mod_cast hk
    linarith)]
  rw [Int.floor_eq_iff]
  exact ⟨hlow, hupp⟩

theorem truncToInt_fifth (n o : Int) (hn : 0 ≤ n) (ho : 0 ≤ o) :
    truncToInt ((0.2 : ℚ) * (n : ℚ) + (1 - 0.2) * (o : ℚ)) = (n + 4 * o) / 5 := by
  have hq : (0.2 : ℚ) * (n : ℚ) + (1 - 0.2) * (o : ℚ) = ((n + 4 * o : Int) : ℚ) / 5 := by
    push_cast; ring
  have hnn : (0 : ℚ) ≤ ((n + 4 * o : Int) : ℚ) / 5 := by
    have : (0 : Int) ≤ n + 4 * o := by omega
    have : (0 : ℚ) ≤ ((n + 4 * o : Int) : ℚ) := by exact_mod_cast this
    positivity
  rw [hq]
  unfold truncToInt
  rw [if_pos hnn, Int.floor_eq_iff]
  have h1 : ((n + 4 * o) / 5) * 5 ≤ n + 4 * o := by omega
  have h2 : n + 4 * o < ((n + 4 * o) / 5 + 1) * 5 := by omega
  have h1q : (((n + 4 * o) / 5 * 5 : Int) : ℚ) ≤ ((n + 4 * o : Int) : ℚ) := by exact_mod_cast h1
  have h2q : ((n + 4 * o : Int) : ℚ) < ((((n + 4 * o) / 5 + 1) * 5 : Int) : ℚ) := by
    exact_mod_cast h2
  push_cast at h1q h2q ⊢
  constructor
  · rw [le_div_iff₀ (by norm_num)]; linarith
  · rw [div_lt_iff₀ (by norm_num)]; linarith

theorem one_div_two_pow_le (s : Nat) (hs : 7 ≤ s) : (1 : ℚ) / 2 ^ s ≤ 1 / 128 := by
  have : (2 : ℚ) ^ (7 : Nat) ≤ (2 : ℚ) ^ s := pow_le_pow_right₀ (by norm_num) hs
  have h128 : (2 : ℚ) ^ (7 : Nat) = 128 := by norm_num
  rw [h128] at this
  exact one_div_le_one_div_of_le (by norm_num) this

/-- The moving average of `successUpdate` on ordinary values: for a non-negative latency
and a positive stored average up to `2^40`, the Go expression
`int(alpha*float64(latency) + (1-alpha)*float64(health.AvgLatency))` with `alpha := 0.2`,
evaluated in binary64 (each operation rounded to nearest, ties to even), has the value
of the exact expression. -/
theorem float64_avgLatency_adequate (n o : Int) (hn : 0 ≤ n) (ho : 1 ≤ o)
    (hnb : n ≤ 2 ^ 40) (hob : o ≤ 2 ^ 40) :
    truncToInt (toFloat64
        (toFloat64 (toFloat64 (2 / 10) * toFloat64 (n : ℚ)) +
          toFloat64 (toFloat64 (1 - toFloat64 (2 / 10)) * toFloat64 (o : ℚ)))) =
      truncToInt ((0.2 : ℚ) * (n : ℚ) + (1 - 0.2) * (o : ℚ)) := by
  have hnb2 : n ≤ 1099511627776 := by simpa using hnb
  have hob2 : o ≤ 1099511627776 := by simpa using hob
  rw [truncToInt_fifth n o hn (by omega)]
  rw [toFloat64_intCast n (by rw [abs_of_nonneg hn]; omega),
    toFloat64_intCast o (by rw [abs_of_nonneg (by omega)]; omega),
    toFloat64_one_fifth, toFloat64_one_sub_fifth]
  have hqe : 4 * ((3602879701896397 : ℚ) / (2 : ℚ) ^ (54 : Nat)) * (o : ℚ) =
      ((4 * o : Int) : ℚ) * ((3602879701896397 : ℚ) / (2 : ℚ) ^ (54 : Nat)) := by
    push_cast; ring
  have hpe : (3602879701896397 : ℚ) / (2 : ℚ) ^ (54 : Nat) * (n : ℚ) =
      (n : ℚ) * ((3602879701896397 : ℚ) / (2 : ℚ) ^ (54 : Nat)) := by ring
  rw [hqe, hpe]
  obtain ⟨sq, hsq1, hsq2, hq52, hqlo, hqhi⟩ := float64_fifth_mul (4 * o) (by omega)
    (by
      have : (2 : Int) ^ 43 = 8796093022208 := by norm_num
      omega)
  have hc : (3602879701896397 : ℚ) / (2 : ℚ) ^ (54 : Nat) =
      1 / 5 + 1 / 90071992547409920 := by norm_num
  rw [hc] at hqlo hqhi hq52 ⊢
  generalize hQ : toFloat64 (((4 * o : Int) : ℚ) * (1 / 5 + 1 / 90071992547409920)) = Q
    at hqlo hqhi hq52 ⊢
  have hwq := one_div_two_pow_le sq hsq1
  have hposq : (0 : ℚ) < (2 : ℚ) ^ sq := by positivity
  -- the integer quotient
  have hk1 : ((n + 4 * o) / 5) * 5 ≤ n + 4 * o := by omega
  have hk2 : n + 4 * o ≤ ((n + 4 * o) / 5) * 5 + 4 := by omega
  have hk0 : 0 ≤ (n + 4 * o) / 5 := by omega
  generalize (n + 4 * o) / 5 = k at hk1 hk2 hk0 ⊢
  have hk1q : (k : ℚ) * 5 ≤ (n : ℚ) + 4 * (o : ℚ) := by exact_mod_cast hk1
  have hk2q : (n : ℚ) + 4 * (o : ℚ) ≤ (k : ℚ) * 5 + 4 := by exact_mod_cast hk2
  have hnq : (0 : ℚ) ≤ (n : ℚ) := by exact_mod_cast hn
  have hoq : (1 : ℚ) ≤ (o : ℚ) := by exact_mod_cast ho
  have hnbq : (n : ℚ) ≤ 1099511627776 := by exact_mod_cast hnb2
  have hobq : (o : ℚ) ≤ 1099511627776 := by exact_mod_cast hob2
  push_cast at hqlo hqhi
  have hdq : (1 : ℚ) / 5 / 2 ^ sq = 1 / 5 * (1 / 2 ^ sq) := by ring
  have hdq2 : (1 : ℚ) / 2 / 2 ^ sq = 1 / 2 * (1 / 2 ^ sq) := by ring
  rw [hdq] at hqlo
  rw [hdq2] at hqhi
  have hQpos : (0 : ℚ) ≤ Q := by linarith
  rcases eq_or_lt_of_le hn with h0 | hnpos
  · -- no latency term
    subst h0
    have hz : toFloat64 (((0 : Int) : ℚ) * (1 / 5 + 1 / 90071992547409920)) = 0 := by
      simp [toFloat64]
    rw [hz, zero_add]
    simp only [Int.cast_zero] at hk1q hk2q
    apply truncToInt_toFloat64_of_near Q k sq hk0
    · linarith
    · norm_num; linarith
    · exact hq52
    · have : (2 : ℚ) / 5 / 2 ^ sq = 2 / 5 * (1 / 2 ^ sq) := by ring
      rw [this]
      have : (0 : ℚ) ≤ 1 / 2 ^ sq := by positivity
      linarith
    · linarith
  · obtain ⟨sp, hsp1, hsp2, hp52, hplo, hphi⟩ := float64_fifth_mul n (by omega)
      (by
        have : (2 : Int) ^ 43 = 8796093022208 := by norm_num
        omega)
    rw [hc] at hplo hphi hp52
    generalize hP : toFloat64 ((n : ℚ) * (1 / 5 + 1 / 90071992547409920)) = P
      at hplo hphi hp52 ⊢
    have hwp := one_div_two_pow_le sp hsp1
    have hposp : (0 : ℚ) < (2 : ℚ) ^ sp := by positivity
    have hdp : (1 : ℚ) / 5 / 2 ^ sp = 1 / 5 * (1 / 2 ^ sp) := by ring
    have hdp2 : (1 : ℚ) / 2 / 2 ^ sp = 1 / 2 * (1 / 2 ^ sp) := by ring
    rw [hdp] at hplo
    rw [hdp2] at hphi
    have hwp0 : (0 : ℚ) ≤ 1 / 2 ^ sp := by positivity
    have hwq0 : (0 : ℚ) ≤ 1 / 2 ^ sq := by positivity
    have hPpos : (0 : ℚ) ≤ P := by
      have : (1 : ℚ) ≤ (n : ℚ) := by exact_mod_cast hnpos
      linarith
    rcases le_total sp sq with hle | hle
    · -- the latency term has the larger rounding unit
      have hww : (1 : ℚ) / 2 ^ sq ≤ 1 / 2 ^ sp :=
        one_div_le_one_div_of_le hposp (pow_le_pow_right₀ (by norm_num) hle)
      apply truncToInt_toFloat64_of_near (P + Q) k sp hk0
      · linarith
      · norm_num; linarith
      · have : Q * 2 ^ sp ≥ 0 := mul_nonneg hQpos (le_of_lt hposp)
        linarith
      · have : (2 : ℚ) / 5 / 2 ^ sp = 2 / 5 * (1 / 2 ^ sp) := by ring
        rw [this]
        linarith
      · linarith
    · have hww : (1 : ℚ) / 2 ^ sp ≤ 1 / 2 ^ sq :=
        one_div_le_one_div_of_le hposq (pow_le_pow_right₀ (by norm_num) hle)
      apply truncToInt_toFloat64_of_near (P + Q) k sq hk0
      · linarith
      · norm_num; linarith
      · have : P * 2 ^ sq ≥ 0 := mul_nonneg hPpos (le_of_lt hposq)
        linarith
      · have : (2 : ℚ) / 5 / 2 ^ sq = 2 / 5 * (1 / 2 ^ sq) := by ring
        rw [this]
        linarith
      · linarith

theorem successUpdate_avgLatency (now latency : Int) (h : ChannelHealth) :
    (successUpdate now latency h).AvgLatency =
      if h.AvgLatency = 0 then latency
      else truncToInt (toFloat64
        (toFloat64 (toFloat64 0.2 * toFloat64 (latency : ℚ)) +
          toFloat64 (toFloat64 (1 - toFloat64 0.2) * toFloat64 (h.AvgLatency : ℚ)))) := by
  unfold successUpdate
  simp only
  split_ifs <;> rfl

/-- The average latency `OnRequestSuccess` stores, in terms of the record it read. -/
theorem OnRequestSuccess_avgLatency_eq (db : DB) (channelID latency : Int)
    (hok : db.failing = false) :
    ((OnRequestSuccess db channelID latency).2.readHealth channelID).AvgLatency =
      (if (db.readHealth channelID).AvgLatency = 0 then latency
       else truncToInt (toFloat64
        (toFloat64 (toFloat64 0.2 * toFloat64 (latency : ℚ)) +
          toFloat64 (toFloat64 (1 - toFloat64 0.2) *
            toFloat64 ((db.readHealth channelID).AvgLatency : ℚ))))) := by
  have hf := @OnRequestSuccess_findHealth db hok channelID latency
  have hav := successUpdate_avgLatency db.now latency (db.readHealth channelID)
  rw [readHealth_of_findHealth hf]
  simp only
  rw [hav]

/-- The range of `float64_avgLatency_adequate` cannot be extended to negative values: for
a latency of `-43` and a stored average of `7` the binary64 evaluation yields `-2`,
the exact expression `-3`. -/
theorem float64_avgLatency_negative :
    truncToInt (toFloat64
        (toFloat64 (toFloat64 (2 / 10) * toFloat64 ((-43 : Int) : ℚ)) +
          toFloat64 (toFloat64 (1 - toFloat64 (2 / 10)) * toFloat64 ((7 : Int) : ℚ)))) = -2 ∧
    truncToInt ((0.2 : ℚ) * ((-43 : Int) : ℚ) + (1 - 0.2) * ((7 : Int) : ℚ)) = -3 := by
  constructor
  · rw [toFloat64_intCast (-43) (by norm_num), toFloat64_intCast 7 (by norm_num),
      toFloat64_one_fifth, toFloat64_one_sub_fifth]
    have hp : toFloat64 ((3602879701896397 : ℚ) / (2 : ℚ) ^ (54 : Nat) * ((-43 : Int) : ℚ)) =
        -4841369599423283 / 562949953421312 := by
      have hk : Int.log 2 |(3602879701896397 : ℚ) / (2 : ℚ) ^ (54 : Nat) * ((-43 : Int) : ℚ)|
          = 3 := by
        apply log_two_eq_of_bounds <;> norm_num [abs_of_neg]
      unfold toFloat64
      rw [if_neg (by norm_num), hk]
      have hr : roundHalfEven ((3602879701896397 : ℚ) / (2 : ℚ) ^ (54 : Nat) *
          ((-43 : Int) : ℚ) / (2 : ℚ) ^ ((3 : Int) - 52)) = -4841369599423283 := by
        apply roundHalfEven_eq_of_near <;> norm_num
      rw [hr]
      norm_num
    have hq : toFloat64 (4 * ((3602879701896397 : ℚ) / (2 : ℚ) ^ (54 : Nat)) *
        ((7 : Int) : ℚ)) = 6305039478318695 / 1125899906842624 := by
      have hk : Int.log 2 (4 * ((3602879701896397 : ℚ) / (2 : ℚ) ^ (54 : Nat)) *
          ((7 : Int) : ℚ)) = 2 := by
        apply log_two_eq_of_bounds <;> norm_num
      rw [toFloat64_of_log _ (by norm_num) _ hk]
      have hr : roundHalfEven (4 * ((3602879701896397 : ℚ) / (2 : ℚ) ^ (54 : Nat)) *
          ((7 : Int) : ℚ) / (2 : ℚ) ^ ((2 : Int) - 52)) = 6305039478318695 := by
        apply roundHalfEven_eq_of_near <;> norm_num
      rw [hr]
      norm_num
    rw [hp, hq]
    have hs : (-4841369599423283 : ℚ) / 562949953421312 + 6305039478318695 / 1125899906842624 =
        -3377699720527871 / 1125899906842624 := by norm_num
    rw [hs]
    have hr : toFloat64 ((-3377699720527871 : ℚ) / 1125899906842624) =
        -3377699720527871 / 1125899906842624 := by
      have hk : Int.log 2 |(-3377699720527871 : ℚ) / 1125899906842624| = 1 := by
        apply log_two_eq_of_bounds <;> norm_num [abs_of_neg]
      unfold toFloat64
      rw [if_neg (by norm_num), hk]
      have hr : roundHalfEven ((-3377699720527871 : ℚ) / 1125899906842624 /
          (2 : ℚ) ^ ((1 : Int) - 52)) = -6755399441055742 := by
        apply roundHalfEven_eq_of_near <;> norm_num
      rw [hr]
      norm_num
    rw [hr]
    unfold truncToInt
    rw [if_neg (by norm_num), Int.ceil_eq_iff]
    constructor <;> norm_num
  · unfold truncToInt
    rw [if_neg (by norm_num), Int.ceil_eq_iff]
    constructor <;> norm_num

theorem roundHalfEven_tie_even (M : Int) (hM : M % 2 = 0) :
    roundHalfEven ((M : ℚ) + 1 / 2) = M := by
  have hge : M - 1 < roundHalfEven ((M : ℚ) + 1 / 2) := by
    rw [roundHalfEven_gt_iff]
    left; push_cast; linarith
  have hle : ¬ M < roundHalfEven ((M : ℚ) + 1 / 2) := by
    rw [roundHalfEven_gt_iff]
    rintro (h | ⟨_, h⟩)
    · linarith
    · omega
  omega

/-- The range of `float64_avgLatency_adequate` cannot be extended beyond `2^53`: for a latency
and a stored average of `2^53 + 1` the binary64 evaluation yields `2^53`, which is below
both. -/
theorem float64_avgLatency_large :
    truncToInt (toFloat64
        (toFloat64 (toFloat64 (2 / 10) * toFloat64 ((9007199254740993 : Int) : ℚ)) +
          toFloat64 (toFloat64 (1 - toFloat64 (2 / 10)) *
            toFloat64 ((9007199254740993 : Int) : ℚ)))) = 9007199254740992 := by
  have hn : toFloat64 ((9007199254740993 : Int) : ℚ) = 9007199254740992 := by
    have hk : Int.log 2 (((9007199254740993 : Int) : ℚ)) = 53 := by
      apply log_two_eq_of_bounds <;> norm_num
    rw [toFloat64_of_log _ (by norm_num) _ hk]
    have hy : ((9007199254740993 : Int) : ℚ) / (2 : ℚ) ^ ((53 : Int) - 52) =
        ((4503599627370496 : Int) : ℚ) + 1 / 2 := by norm_num
    rw [hy, roundHalfEven_tie_even _ (by decide)]
    norm_num
  rw [hn, toFloat64_one_fifth, toFloat64_one_sub_fifth]
  have hp : toFloat64 ((3602879701896397 : ℚ) / (2 : ℚ) ^ (54 : Nat) * 9007199254740992) =
      3602879701896397 / 2 := by
    have hk : Int.log 2 ((3602879701896397 : ℚ) / (2 : ℚ) ^ (54 : Nat) * 9007199254740992)
        = 50 := by
      apply log_two_eq_of_bounds <;> norm_num
    rw [toFloat64_of_log _ (by norm_num) _ hk]
    have hr : roundHalfEven ((3602879701896397 : ℚ) / (2 : ℚ) ^ (54 : Nat) * 9007199254740992 /
        (2 : ℚ) ^ ((50 : Int) - 52)) = 7205759403792794 := by
      apply roundHalfEven_eq_of_near <;> norm_num
    rw [hr]
    norm_num
  have hq : toFloat64 (4 * ((3602879701896397 : ℚ) / (2 : ℚ) ^ (54 : Nat)) * 9007199254740992) =
      7205759403792794 := by
    have hk : Int.log 2 (4 * ((3602879701896397 : ℚ) / (2 : ℚ) ^ (54 : Nat)) * 9007199254740992)
        = 52 := by
      apply log_two_eq_of_bounds <;> norm_num
    rw [toFloat64_of_log _ (by norm_num) _ hk]
    have hr : roundHalfEven (4 * ((3602879701896397 : ℚ) / (2 : ℚ) ^ (54 : Nat)) *
        9007199254740992 / (2 : ℚ) ^ ((52 : Int) - 52)) = 7205759403792794 := by
      apply roundHalfEven_eq_of_near <;> norm_num
    rw [hr]
    norm_num
  rw [hp, hq]
  have hs : (3602879701896397 : ℚ) / 2 + 7205759403792794 = 18014398509481985 / 2 := by norm_num
  rw [hs]
  have hr : toFloat64 ((18014398509481985 : ℚ) / 2) = 9007199254740992 := by
    have hk : Int.log 2 ((18014398509481985 : ℚ) / 2) = 53 := by
      apply log_two_eq_of_bounds <;> norm_num
    rw [toFloat64_of_log _ (by norm_num) _ hk]
    have hr : roundHalfEven ((18014398509481985 : ℚ) / 2 / (2 : ℚ) ^ ((53 : Int) - 52)) =
        4503599627370496 := by
      apply roundHalfEven_eq_of_near <;> norm_num
    rw [hr]
    norm_num
  rw [hr]
  unfold truncToInt
  rw [if_pos (by norm_num), Int.floor_eq_iff]
  constructor <;> norm_num


/-- C24 (counterexample): for a stored average of 7 ms and a reported latency of -43 ms,
`OnRequestSuccess` stores -2, whereas `0.2 · (-43) + 0.8 · 7 = -3` truncated to an integer
is -3. -/
theorem OnRequestSuccess_avgLatency_negative :
    ((OnRequestSuccess (sampleDB 0 [{ sampleHealth 7 "healthy" 0 0 with AvgLatency := 7 }])
        7 (-43)).2.readHealth 7).AvgLatency = -2 ∧
    truncToInt ((0.2 : ℚ) * ((-43 : Int) : ℚ) + 0.8 * ((7 : Int) : ℚ)) = -3 := by
  have h02 : (0.2 : ℚ) = 2 / 10 := by norm_num
  have h08 : (0.8 : ℚ) = 1 - 0.2 := by norm_num
  have hold : ((sampleDB 0 [{ sampleHealth 7 "healthy" 0 0 with AvgLatency := 7 }]).readHealth
      7).AvgLatency = 7 := rfl
  constructor
  · rw [OnRequestSuccess_avgLatency_eq _ 7 (-43) rfl, hold, if_neg (by decide), h02]
    exact float64_avgLatency_negative.1
  · rw [h08]
    exact float64_avgLatency_negative.2

/-- C24 (amended): `OnRequestSuccess` stores the reported latency as `avg_latency` when the
stored average is 0, and otherwise the binary64 value of
`alpha*float64(latency) + (1-alpha)*float64(avg_latency)`, `alpha` the `float64` nearest
to 0.2, truncated toward zero.  For a latency between 0 and `2^40` and a stored average
between 1 and `2^40` this is `0.2 · latency + 0.8 · avg_latency` truncated to an integer;
for a latency and a stored average between 0 and `2^40` the result is non-negative and
lies between the smaller and the larger of the two. -/
theorem OnRequestSuccess_avgLatency (db : DB) (channelID latency : Int)
    (hok : db.failing = false) :
    ((OnRequestSuccess db channelID latency).2.readHealth channelID).AvgLatency =
      (if (db.readHealth channelID).AvgLatency = 0 then latency
       else truncToInt (toFloat64
        (toFloat64 (toFloat64 0.2 * toFloat64 (latency : ℚ)) +
          toFloat64 (toFloat64 (1 - toFloat64 0.2) *
            toFloat64 ((db.readHealth channelID).AvgLatency : ℚ))))) ∧
    (0 ≤ latency → latency ≤ 2 ^ 40 → 1 ≤ (db.readHealth channelID).AvgLatency →
      (db.readHealth channelID).AvgLatency ≤ 2 ^ 40 →
      ((OnRequestSuccess db channelID latency).2.readHealth channelID).AvgLatency =
        truncToInt ((0.2 : ℚ) * (latency : ℚ) +
          0.8 * ((db.readHealth channelID).AvgLatency : ℚ))) ∧
    (0 ≤ latency → latency ≤ 2 ^ 40 → 0 ≤ (db.readHealth channelID).AvgLatency →
      (db.readHealth channelID).AvgLatency ≤ 2 ^ 40 →
      0 ≤ ((OnRequestSuccess db channelID latency).2.readHealth channelID).AvgLatency ∧
      min (db.readHealth channelID).AvgLatency latency ≤
        ((OnRequestSuccess db channelID latency).2.readHealth channelID).AvgLatency ∧
      ((OnRequestSuccess db channelID latency).2.readHealth channelID).AvgLatency ≤
        max (db.readHealth channelID).AvgLatency latency) := by
  have heq := OnRequestSuccess_avgLatency_eq db channelID latency hok
  have h02 : (0.2 : ℚ) = 2 / 10 := by norm_num
  have h08 : (0.8 : ℚ) = 1 - 0.2 := by norm_num
  refine ⟨heq, ?_, ?_⟩
  · intro hl hlb ho hob
    rw [heq, if_neg (by omega), h08, h02]
    have := float64_avgLatency_adequate latency _ hl ho hlb hob
    rw [h02] at this
    exact this
  · intro hl hlb ho hob
    rw [heq]
    generalize (db.readHealth channelID).AvgLatency = old at ho hob ⊢
    by_cases h0 : old = 0
    · subst h0
      rw [if_pos rfl]
      exact ⟨hl, min_le_right _ _, le_max_right _ _⟩
    · have ho1 : 1 ≤ old := by omega
      have hfl := float64_avgLatency_adequate latency old hl ho1 hlb hob
      rw [← h02] at hfl
      rw [if_neg h0, hfl, truncToInt_fifth latency old hl ho]
      refine ⟨by omega, ?_, ?_⟩
      · rcases le_total old latency with h | h
        · rw [min_eq_left h]; omega
        · rw [min_eq_right h]; omega
      · rcases le_total old latency with h | h
        · rw [max_eq_right h]; omega
        · rw [max_eq_left h]; omega

/-- Instance of C24 (amended): a stored average of 100 ms and a reported latency of 203 ms
give `0.2 · 203 + 0.8 · 100` truncated, which is 120 ms. -/
theorem OnRequestSuccess_avgLatency_witness :
    (sampleDB 0 [{ sampleHealth 7 "healthy" 0 0 with AvgLatency := 100 }]).failing = false ∧
    ((OnRequestSuccess (sampleDB 0 [{ sampleHealth 7 "healthy" 0 0 with AvgLatency := 100 }])
        7 203).2.readHealth 7).AvgLatency =
      truncToInt ((0.2 : ℚ) * ((203 : Int) : ℚ) +
        0.8 * (((sampleDB 0 [{ sampleHealth 7 "healthy" 0 0 with AvgLatency := 100 }]).readHealth
          7).AvgLatency : ℚ)) :=
  ⟨rfl, (OnRequestSuccess_avgLatency
    (sampleDB 0 [{ sampleHealth 7 "healthy" 0 0 with AvgLatency := 100 }]) 7 203 rfl).2.1
      (by decide) (by decide) (by decide) (by decide)⟩

/-- Beyond `2^53` the stored value can leave the interval between the stored average and
the reported latency: when both are `2^53 + 1`, `OnRequestSuccess` stores `2^53`. -/
theorem OnRequestSuccess_avgLatency_large :
    ((OnRequestSuccess
        (sampleDB 0 [{ sampleHealth 7 "healthy" 0 0 with AvgLatency := 9007199254740993 }])
        7 9007199254740993).2.readHealth 7).AvgLatency = 9007199254740992 := by
  have h02 : (0.2 : ℚ) = 2 / 10 := by norm_num
  have hold : ((sampleDB 0
      [{ sampleHealth 7 "healthy" 0 0 with AvgLatency := 9007199254740993 }]).readHealth
      7).AvgLatency = 9007199254740993 := rfl
  rw [OnRequestSuccess_avgLatency_eq _ 7 9007199254740993 rfl, hold, if_neg (by decide), h02]
  exact float64_avgLatency_large

/-! ## Telemetry rows and the two health filters -/

/-- C25: when the insert succeeds, `logCallMetadata` appends exactly one row to the
`call_metadata` table; the row carries the given generation id, attempt and latency, the
request id, user id, token id, channel id, model, path, stream flag and token counts
of the context, and the status code 200 for a nil error and the error's status code
otherwise; the health table is not touched. -/
theorem logCallMetadata_row (c : Context) (db : DB) (generationID : String)
    (attempt latency : Int) (bizErr : Option ErrorWithStatusCode) (hok : db.failing = false) :
    ∃ row : CallMetadata,
      (logCallMetadata c db generationID attempt latency bizErr).metadata =
        db.metadata ++ [row] ∧
      (logCallMetadata c db generationID attempt latency bizErr).health = db.health ∧
      row.GenerationID = generationID ∧ row.Attempt = attempt ∧ row.LatencyMs = latency ∧
      row.RequestID = c.RequestId ∧ row.UserID = c.Id ∧ row.TokenID = c.TokenId ∧
      row.ChannelID = c.ChannelId ∧ row.Model = c.OriginalModel ∧ row.APIPath = c.Path ∧
      row.IsStream = c.IsStream ∧ row.PromptTokens = c.PromptTokens ∧
      row.CompletionTokens = c.CompletionTokens ∧
      row.StatusCode = (match bizErr with
        | none => 200
        | some e => e.StatusCode) := by
  have hdb : logCallMetadata c db generationID attempt latency bizErr =
      { db with metadata := db.metadata ++
        [{ ID := (db.metadata.length : Int) + 1, GenerationID := generationID,
           RequestID := c.RequestId, UserID := c.Id, TokenID := c.TokenId,
           ChannelID := c.ChannelId, Model := c.OriginalModel, APIPath := c.Path,
           IsStream := c.IsStream,
           StatusCode := (match bizErr with
             | none => 200
             | some e => e.StatusCode),
           LatencyMs := latency, PromptTokens := c.PromptTokens,
           CompletionTokens := c.CompletionTokens, Attempt := attempt,
           CreatedAt := db.now * 1000 }] } := by
    cases bizErr <;> simp [logCallMetadata, InsertCallMetadata, hok]
  rw [hdb]
  exact ⟨_, rfl, rfl, rfl, rfl, rfl, rfl, rfl, rfl, rfl, rfl, rfl, rfl, rfl, rfl, rfl⟩

/-- Instance of C25: the call of `TestLogCallMetadataError` (generation `gen-2`, attempt 1,
latency 456, status 429 for user 99, token 8, channel 4). -/
theorem logCallMetadata_row_witness :
    (emptyDB 0).failing = false ∧
    ∃ row : CallMetadata,
      (logCallMetadata
        { ChannelId := 4, ChannelName := "", SpecificChannelId := none, Id := 99, TokenId := 8,
          Group := "", OriginalModel := "gpt-3.5", RequestId := "req-2",
          Path := "/v1/chat/completions", IsStream := false, PromptTokens := 0,
          CompletionTokens := 0 }
        (emptyDB 0) "gen-2" 1 456
        (some { Message := "", Typ := "", Param := "", Code := "rate_limit",
                StatusCode := 429 })).metadata = (emptyDB 0).metadata ++ [row] ∧
      row.GenerationID = "gen-2" ∧ row.Attempt = 1 ∧ row.LatencyMs = 456 ∧
      row.UserID = 99 ∧ row.TokenID = 8 ∧ row.ChannelID = 4 ∧ row.StatusCode = 429 := by
  refine ⟨rfl, ?_⟩
  obtain ⟨row, h1, _, h3, h4, h5, _, h7, h8, h9, _, _, _, _, _, h15⟩ := logCallMetadata_row
    { ChannelId := 4, ChannelName := "", SpecificChannelId := none, Id := 99, TokenId := 8,
      Group := "", OriginalModel := "gpt-3.5", RequestId := "req-2",
      Path := "/v1/chat/completions", IsStream := false, PromptTokens := 0,
      CompletionTokens := 0 }
    (emptyDB 0) "gen-2" 1 456
    (some { Message := "", Typ := "", Param := "", Code := "rate_limit", StatusCode := 429 }) rfl
  exact ⟨row, h1, h3, h4, h5, h7, h8, h9, h15⟩

/-- The primary health filter as a list filter on the state it starts from. -/
theorem filterHealthyChannels_eq_filter (chs : List Channel) (db : DB) :
    (filterHealthyChannels db chs).1 =
      chs.filter (fun ch => decide (ch.Status = ChannelStatusEnabled) && (!db.failing &&
        ((db.readHealth ch.Id).Status == "healthy" ||
          (db.readHealth ch.Id).Status == "unknown"))) := by
  cases hfail : db.failing with
  | true =>
    rw [filterHealthyChannels_failing chs db hfail]
    simp
  | false =>
    induction chs generalizing db with
    | nil => rfl
    | cons c rest ih =>
      have hr : ∀ id, (IsChannelHealthy db c.Id).2.readHealth id = db.readHealth id := by
        intro id; rw [IsChannelHealthy_snd]; exact GetChannelHealth_readHealth db c.Id id
      have hf : (IsChannelHealthy db c.Id).2.failing = false := by
        rw [IsChannelHealthy_snd, GetChannelHealth_failing_eq]; exact hfail
      simp only [filterHealthyChannels]
      by_cases hen : c.Status = ChannelStatusEnabled
      · rw [if_pos hen]
        simp only
        rw [ih _ hf, IsChannelHealthy_fst hfail]
        simp only [hr, List.filter_cons, hen, decide_True, Bool.true_and, Bool.not_false]
      · rw [if_neg hen, ih db hfail]
        simp [List.filter_cons, hen]

/-- The unknown-only fallback filter as a list filter on the state it starts from. -/
theorem filterUnknownChannels_eq_filter (chs : List Channel) (db : DB) :
    (filterUnknownChannels db chs).1 =
      chs.filter (fun ch => decide (ch.Status = ChannelStatusEnabled) && (!db.failing &&
        (db.readHealth ch.Id).Status == "unknown")) := by
  cases hfail : db.failing with
  | true =>
    rw [filterUnknownChannels_failing chs db hfail]
    simp
  | false =>
    induction chs generalizing db with
    | nil => rfl
    | cons c rest ih =>
      have hr : ∀ id, (GetChannelHealth db c.Id).2.readHealth id = db.readHealth id :=
        fun id => GetChannelHealth_readHealth db c.Id id
      have hf : (GetChannelHealth db c.Id).2.failing = false := by
        rw [GetChannelHealth_failing_eq]; exact hfail
      simp only [filterUnknownChannels]
      by_cases hen : c.Status = ChannelStatusEnabled
      · rw [if_pos hen]
        simp only [GetChannelHealth_fst hfail]
        rw [ih _ hf]
        simp only [hr, List.filter_cons, hen, decide_True, Bool.true_and, Bool.not_false]
        by_cases hu : (db.readHealth c.Id).Status = "unknown"
        · simp [hu]
        · simp [hu]
      · rw [if_neg hen, ih db hfail]
        simp [List.filter_cons, hen]

/-- C27: whatever the health store holds (and whether or not it can be read), what
`filterUnknownChannels` keeps is a sublist of what `filterHealthyChannels` keeps, also
when it runs on the store as the first filter left it; so in `SelectChannel` an empty
primary filter makes the fallback empty too, and the request is refused with the
no-healthy error without the fallback contributing a channel. -/
theorem filterUnknownChannels_sublist (db : DB) (channels : List Channel) :
    List.Sublist (filterUnknownChannels db channels).1 (filterHealthyChannels db channels).1 ∧
    List.Sublist (filterUnknownChannels (filterHealthyChannels db channels).2 channels).1
      (filterHealthyChannels db channels).1 ∧
    ((filterHealthyChannels db channels).1 = [] →
      (filterUnknownChannels (filterHealthyChannels db channels).2 channels).1 = []) ∧
    ∀ (e : Engine) (candidates : String → String → Except String (List Channel)) (rnd : Nat)
      (elapsed : Int) (req : SelectRequest),
      candidates req.Group req.Model = .ok channels → channels ≠ [] →
      (filterHealthyChannels db channels).1 = [] →
      (e.SelectChannel db candidates rnd elapsed req).1 =
        .error ("no healthy channels available for group=" ++ req.Group ++ ", model=" ++
          req.Model) := by
  obtain ⟨hs1, hs2, _⟩ := filterHealthyChannels_spec channels db
  have key : ∀ d : DB, (∀ id, d.readHealth id = db.readHealth id) → d.failing = db.failing →
      List.Sublist (filterUnknownChannels d channels).1 (filterHealthyChannels db channels).1 := by
    intro d hr hf
    rw [filterUnknownChannels_eq_filter, filterHealthyChannels_eq_filter]
    apply List.monotone_filter_right
    intro ch hch
    simp only [hr, hf, Bool.and_eq_true, decide_eq_true_eq, Bool.not_eq_true',
      beq_iff_eq, Bool.or_eq_true] at hch ⊢
    exact ⟨hch.1, hch.2.1, Or.inr hch.2.2⟩
  have h2 := key (filterHealthyChannels db channels).2 hs1 hs2
  have h3 : (filterHealthyChannels db channels).1 = [] →
      (filterUnknownChannels (filterHealthyChannels db channels).2 channels).1 = [] := by
    intro h
    rw [h] at h2
    exact List.sublist_nil.mp h2
  refine ⟨key db (fun _ => rfl) rfl, h2, h3, ?_⟩
  intro e candidates rnd elapsed req hc hne hempty
  have hlen : ¬ channels.length = 0 := fun h => hne (List.length_eq_zero.mp h)
  unfold Engine.SelectChannel
  rw [hc]
  simp only [if_neg hlen, hempty, h3 hempty, List.length_nil, if_true]

/-- Instance of C27: channel 10 `unhealthy` and channel 11 `unknown`, and the same two
candidates with both records `unhealthy`. -/
theorem filterUnknownChannels_sublist_witness :
    List.Sublist
      (filterUnknownChannels
        (sampleDB 0 [sampleHealth 10 "unhealthy" 0 0, sampleHealth 11 "unknown" 0 0])
        [sampleChannel 10, sampleChannel 11]).1
      (filterHealthyChannels
        (sampleDB 0 [sampleHealth 10 "unhealthy" 0 0, sampleHealth 11 "unknown" 0 0])
        [sampleChannel 10, sampleChannel 11]).1 ∧
    (NewEngine.SelectChannel
      (sampleDB 0 [sampleHealth 10 "unhealthy" 0 0, sampleHealth 11 "unhealthy" 0 0])
      (fun _ _ => .ok [sampleChannel 10, sampleChannel 11]) 0 0
      (SelectRequest.mk "r" 1 "default" "m" "")).1 =
        .error ("no healthy channels available for group=" ++ "default" ++ ", model=" ++ "m") :=
  ⟨(filterUnknownChannels_sublist
      (sampleDB 0 [sampleHealth 10 "unhealthy" 0 0, sampleHealth 11 "unknown" 0 0])
      [sampleChannel 10, sampleChannel 11]).1,
    (filterUnknownChannels_sublist
      (sampleDB 0 [sampleHealth 10 "unhealthy" 0 0, sampleHealth 11 "unhealthy" 0 0])
      [sampleChannel 10, sampleChannel 11]).2.2.2 NewEngine
      (fun _ _ => .ok [sampleChannel 10, sampleChannel 11]) 0 0
      (SelectRequest.mk "r" 1 "default" "m" "") rfl (by decide) (by decide)⟩

/-! ## Health sweeper: what a pass leaves untouched -/

theorem readHealth_congr {d1 d2 : DB} {id : Int} (h1 : d1.findHealth id = d2.findHealth id)
    (h2 : d1.now = d2.now) : d1.readHealth id = d2.readHealth id := by
  simp only [DB.readHealth, h1, h2]

theorem GetChannelHealth_snd_findHealth_self {db : DB} (hok : db.failing = false) (id : Int) :
    (GetChannelHealth db id).2.findHealth id = some (db.readHealth id) := by
  unfold GetChannelHealth DB.readHealth
  rw [if_neg (by simp [hok])]
  cases hf : db.findHealth id with
  | some h => simp [hf]
  | none =>
    simp only [DB.findHealth, Option.getD_none]
    simp only [DB.findHealth] at hf
    rw [List.find?_append, hf]
    simp [newHealthRow]

/-- A visit of the sweeper to a channel with another id, or to a channel that is not
enabled, leaves the health row of `id` and the table entries of `id` as they are. -/
theorem healthCheckChannel_frame (st : DB × List Channel) (c : Channel) (id : Int)
    (hok : st.1.failing = false) (h : ¬ c.Id = id ∨ ¬ c.Status = ChannelStatusEnabled) :
    (healthCheckChannel st c).1.findHealth id = st.1.findHealth id ∧
    (healthCheckChannel st c).1.now = st.1.now ∧
    (healthCheckChannel st c).1.failing = false ∧
    (healthCheckChannel st c).2.filter (fun x => decide (x.Id = id)) =
      st.2.filter (fun x => decide (x.Id = id)) := by
  by_cases hen : c.Status = ChannelStatusEnabled
  · have hne : ¬ c.Id = id := by
      rcases h with h | h
      · exact h
      · exact absurd hen h
    have e := healthCheckChannel_eq st.1 st.2 c hok hen
    have hgf : (GetChannelHealth st.1 c.Id).2.failing = false := by
      rw [GetChannelHealth_failing_eq]; exact hok
    have hgn : (GetChannelHealth st.1 c.Id).2.now = st.1.now := GetChannelHealth_now _ _
    have hgr : (GetChannelHealth st.1 c.Id).2.findHealth id = st.1.findHealth id :=
      GetChannelHealth_snd_findHealth_ne st.1 hne
    rw [show st = (st.1, st.2) from rfl, e]
    split
    · refine ⟨?_, ?_, ?_, rfl⟩
      · rw [UpdateChannelHealth_findHealth hgf, if_neg]
        · exact hgr
        · simpa [readHealth_channelID] using hne
      · rw [UpdateChannelHealth_now]; exact hgn
      · rw [UpdateChannelHealth_failing_eq]; exact hgf
    · split
      · exact ⟨hgr, hgn, hgf, UpdateChannelStatusById_filter_ne _ _ hne⟩
      · exact ⟨hgr, hgn, hgf, rfl⟩
  · have e : healthCheckChannel st c = st := by
      unfold healthCheckChannel
      rw [if_pos hen]
    rw [e]
    exact ⟨rfl, rfl, hok, rfl⟩

theorem foldl_healthCheckChannel_frame (id : Int) (l : List Channel) (st : DB × List Channel)
    (hok : st.1.failing = false)
    (h : ∀ c ∈ l, ¬ c.Id = id ∨ ¬ c.Status = ChannelStatusEnabled) :
    (l.foldl healthCheckChannel st).1.findHealth id = st.1.findHealth id ∧
    (l.foldl healthCheckChannel st).1.now = st.1.now ∧
    (l.foldl healthCheckChannel st).1.failing = false ∧
    (l.foldl healthCheckChannel st).2.filter (fun x => decide (x.Id = id)) =
      st.2.filter (fun x => decide (x.Id = id)) := by
  induction l generalizing st with
  | nil => exact ⟨rfl, rfl, hok, rfl⟩
  | cons c rest ih =>
    simp only [List.foldl_cons]
    obtain ⟨f1, f2, f3, f4⟩ := healthCheckChannel_frame st c id hok (h c (List.mem_cons_self _ _))
    obtain ⟨g1, g2, g3, g4⟩ := ih (healthCheckChannel st c) f3
      (fun x hx => h x (List.mem_cons_of_mem _ hx))
    exact ⟨g1.trans f1, g2.trans f2, g3, g4.trans f4⟩

/-- C22: one pass of the sweeper over a table with pairwise distinct ids, the database
readable.  The health record of an enabled channel gets status `unknown` (and a new
`updated_at`) exactly when it is older than 300 s and is otherwise left as it is, so that
its counters and its average latency never change; the health record and the table
entry of a channel that is not enabled are not touched. -/
theorem performHealthCheck_frame (db : DB) (table : List Channel) (ch : Channel)
    (hok : db.failing = false) (hnd : (table.map (fun c => c.Id)).Nodup) (hm : ch ∈ table) :
    (ch.Status = ChannelStatusEnabled →
      (performHealthCheck db table).1.readHealth ch.Id =
        (if db.now - (db.readHealth ch.Id).UpdatedAt > 300 then
          { db.readHealth ch.Id with Status := "unknown", UpdatedAt := db.now }
        else db.readHealth ch.Id) ∧
      (((performHealthCheck db table).1.readHealth ch.Id).Status = "unknown" ↔
        (db.now - (db.readHealth ch.Id).UpdatedAt > 300 ∨
          (db.readHealth ch.Id).Status = "unknown")) ∧
      ((performHealthCheck db table).1.readHealth ch.Id).SuccessCount =
        (db.readHealth ch.Id).SuccessCount ∧
      ((performHealthCheck db table).1.readHealth ch.Id).FailureCount =
        (db.readHealth ch.Id).FailureCount ∧
      ((performHealthCheck db table).1.readHealth ch.Id).ConsecutiveFails =
        (db.readHealth ch.Id).ConsecutiveFails ∧
      ((performHealthCheck db table).1.readHealth ch.Id).AvgLatency =
        (db.readHealth ch.Id).AvgLatency) ∧
    (¬ ch.Status = ChannelStatusEnabled →
      (performHealthCheck db table).1.findHealth ch.Id = db.findHealth ch.Id ∧
      (performHealthCheck db table).2.filter (fun x => decide (x.Id = ch.Id)) =
        table.filter (fun x => decide (x.Id = ch.Id)) ∧
      ch ∈ (performHealthCheck db table).2) := by
  have hother : ∀ c ∈ table, c.Id = ch.Id → c = ch :=
    fun c hc hid => List.inj_on_of_nodup_map hnd hc hm hid
  rw [performHealthCheck_eq db table hok]
  constructor
  · intro hen
    obtain ⟨l1, l2, hsplit⟩ := List.append_of_mem hm
    have hnd2 : (l1.map (fun c => c.Id) ++ ch.Id :: l2.map (fun c => c.Id)).Nodup := by
      have := hnd
      rw [hsplit] at this
      simpa using this
    have hl1 : ∀ c ∈ l1, ¬ c.Id = ch.Id ∨ ¬ c.Status = ChannelStatusEnabled := by
      intro c hc
      left
      intro hid
      have hmem1 : ch.Id ∈ l1.map (fun c => c.Id) := hid ▸ List.mem_map_of_mem _ hc
      have := (List.nodup_append.mp hnd2).2.2 hmem1 (List.mem_cons_self _ _)
      exact this
    have hl2 : ∀ c ∈ l2, ¬ c.Id = ch.Id ∨ ¬ c.Status = ChannelStatusEnabled := by
      intro c hc
      left
      intro hid
      have hmem2 : ch.Id ∈ l2.map (fun c => c.Id) := hid ▸ List.mem_map_of_mem _ hc
      have := (List.nodup_cons.mp (List.nodup_append.mp hnd2).2.1).1
      exact this hmem2
    obtain ⟨a1, a2, a3, _⟩ := foldl_healthCheckChannel_frame ch.Id l1 (db, table) hok hl1
    have hrec : (healthCheckChannel (l1.foldl healthCheckChannel (db, table)) ch).1.readHealth
          ch.Id =
        (if db.now - (db.readHealth ch.Id).UpdatedAt > 300 then
          { db.readHealth ch.Id with Status := "unknown", UpdatedAt := db.now }
        else db.readHealth ch.Id) ∧
        (healthCheckChannel (l1.foldl healthCheckChannel (db, table)) ch).1.failing = false ∧
        (healthCheckChannel (l1.foldl healthCheckChannel (db, table)) ch).1.now = db.now := by
      generalize l1.foldl healthCheckChannel (db, table) = st1 at a1 a2 a3
      have hr1 : st1.1.readHealth ch.Id = db.readHealth ch.Id := readHealth_congr a1 a2
      have e := healthCheckChannel_eq st1.1 st1.2 ch a3 hen
      have hgf : (GetChannelHealth st1.1 ch.Id).2.failing = false := by
        rw [GetChannelHealth_failing_eq]; exact a3
      have hgn : (GetChannelHealth st1.1 ch.Id).2.now = db.now := by
        rw [GetChannelHealth_now]; exact a2
      rw [show st1 = (st1.1, st1.2) from rfl, e, hr1, a2]
      by_cases hs : db.now - (db.readHealth ch.Id).UpdatedAt > 300
      · rw [if_pos hs, if_pos hs]
        refine ⟨?_, ?_, ?_⟩
        · rw [UpdateChannelHealth_readHealth hgf, if_pos (by simp [readHealth_channelID]), hgn]
        · rw [UpdateChannelHealth_failing_eq]; exact hgf
        · rw [UpdateChannelHealth_now]; exact hgn
      · rw [if_neg hs, if_neg hs]
        have hsame : (GetChannelHealth st1.1 ch.Id).2.readHealth ch.Id = db.readHealth ch.Id := by
          rw [GetChannelHealth_readHealth]; exact hr1
        split <;> exact ⟨hsame, hgf, hgn⟩
    obtain ⟨r1, r2, r3⟩ := hrec
    have hfold : table.foldl healthCheckChannel (db, table) =
        l2.foldl healthCheckChannel
          (healthCheckChannel (l1.foldl healthCheckChannel (db, table)) ch) := by
      have gen : ∀ st : DB × List Channel, table.foldl healthCheckChannel st =
          l2.foldl healthCheckChannel (healthCheckChannel (l1.foldl healthCheckChannel st) ch) := by
        intro st
        rw [hsplit, List.foldl_append, List.foldl_cons]
      exact gen _
    obtain ⟨b1, b2, _, _⟩ := foldl_healthCheckChannel_frame ch.Id l2 _ r2 hl2
    have hfinal : (table.foldl healthCheckChannel (db, table)).1.readHealth ch.Id =
        (if db.now - (db.readHealth ch.Id).UpdatedAt > 300 then
          { db.readHealth ch.Id with Status := "unknown", UpdatedAt := db.now }
        else db.readHealth ch.Id) := by
      rw [hfold, readHealth_congr b1 b2, r1]
    rw [hfinal]
    by_cases hs : db.now - (db.readHealth ch.Id).UpdatedAt > 300
    · rw [if_pos hs]
      exact ⟨rfl, ⟨fun _ => Or.inl hs, fun _ => rfl⟩, rfl, rfl, rfl, rfl⟩
    · rw [if_neg hs]
      refine ⟨rfl, ⟨fun h => Or.inr h, fun h => ?_⟩, rfl, rfl, rfl, rfl⟩
      rcases h with h | h
      · exact absurd h hs
      · exact h
  · intro hen
    have hall : ∀ c ∈ table, ¬ c.Id = ch.Id ∨ ¬ c.Status = ChannelStatusEnabled := by
      intro c hc
      by_cases hid : c.Id = ch.Id
      · right
        rw [hother c hc hid]
        exact hen
      · exact Or.inl hid
    obtain ⟨a1, _, _, a4⟩ := foldl_healthCheckChannel_frame ch.Id table (db, table) hok hall
    refine ⟨a1, a4, ?_⟩
    have : ch ∈ table.filter (fun x => decide (x.Id = ch.Id)) := by
      rw [List.mem_filter]
      exact ⟨hm, by simp⟩
    rw [← a4] at this
    exact (List.mem_filter.mp this).1

/-- Instance of C22: channel 3 is enabled with a record 1000 s old, channel 4 is disabled. -/
theorem performHealthCheck_frame_witness :
    (sampleDB 1000 [sampleHealth 3 "healthy" 0 0, sampleHealth 4 "healthy" 0 0]).failing = false ∧
    ([sampleChannel 3, { sampleChannel 4 with Status := ChannelStatusManuallyDisabled }].map
      (fun c => c.Id)).Nodup ∧
    sampleChannel 3 ∈
      [sampleChannel 3, { sampleChannel 4 with Status := ChannelStatusManuallyDisabled }] ∧
    (sampleChannel 3).Status = ChannelStatusEnabled ∧
    (performHealthCheck
        (sampleDB 1000 [sampleHealth 3 "healthy" 0 0, sampleHealth 4 "healthy" 0 0])
        [sampleChannel 3, { sampleChannel 4 with Status := ChannelStatusManuallyDisabled }]
      ).1.readHealth (sampleChannel 3).Id =
      (if (sampleDB 1000 [sampleHealth 3 "healthy" 0 0, sampleHealth 4 "healthy" 0 0]).now -
          ((sampleDB 1000 [sampleHealth 3 "healthy" 0 0, sampleHealth 4 "healthy" 0 0]).readHealth
            (sampleChannel 3).Id).UpdatedAt > 300 then
        { (sampleDB 1000 [sampleHealth 3 "healthy" 0 0, sampleHealth 4 "healthy" 0 0]).readHealth
            (sampleChannel 3).Id with
          Status := "unknown",
          UpdatedAt :=
            (sampleDB 1000 [sampleHealth 3 "healthy" 0 0, sampleHealth 4 "healthy" 0 0]).now }
      else
        (sampleDB 1000 [sampleHealth 3 "healthy" 0 0, sampleHealth 4 "healthy" 0 0]).readHealth
          (sampleChannel 3).Id) :=
  ⟨rfl, by decide, by decide, rfl,
    ((performHealthCheck_frame
      (sampleDB 1000 [sampleHealth 3 "healthy" 0 0, sampleHealth 4 "healthy" 0 0])
      [sampleChannel 3, { sampleChannel 4 with Status := ChannelStatusManuallyDisabled }]
      (sampleChannel 3) rfl (by decide) (by decide)).1 rfl).1⟩

/-! ## Channel cache -/

theorem matchesRouterChannels_key (key : String) :
    matchesRouterChannels ("router:channels:" ++ key) = true := by
  unfold matchesRouterChannels
  rw [String.data_append]
  simp

theorem Redis.scanDel_Get (r : Redis) (hok : r.failing = false) (key : String) (f : Bool) :
    ({ r.scanDel with failing := f } : Redis).Get ("router:channels:" ++ key) =
      if f then .error "redis error" else .error "redis: nil" := by
  unfold Redis.Get
  cases f with
  | true => simp
  | false =>
    simp only [Bool.false_eq_true, if_false]
    have : ((Redis.scanDel r).entries.find? (fun e =>
        e.1 == "router:channels:" ++ key && decide ((Redis.scanDel r).now < e.2.2))) = none := by
      rw [List.find?_eq_none]
      intro e he
      unfold Redis.scanDel at he
      rw [if_neg (by simp [hok])] at he
      simp only [List.mem_filter] at he
      intro hk
      simp only [Bool.and_eq_true, beq_iff_eq] at hk
      have := he.2
      rw [hk.1, matchesRouterChannels_key] at this
      simp at this
    rw [this]

/-- A call of `GetChannels` that finds nothing in the local cache and nothing usable in
the shared store asks the source of truth and returns its answer. -/
theorem GetChannels_miss (env : CacheEnv) (c : ChannelCache) (group modelName : String)
    (hl : c.localCache = [])
    (hr : c.redis.enabled = false ∨
      ∀ data, c.redis.Get ("router:channels:" ++ cacheKey group modelName) ≠ .ok data) :
    (ChannelCache.GetChannels env c group modelName).1 =
      env.GetSatisfiedChannels group modelName ∧
    (ChannelCache.GetChannels env c group modelName).2.queries =
      c.queries ++ [(group, modelName)] := by
  have hcached : (if c.redis.enabled then
        match c.redis.Get ("router:channels:" ++ cacheKey group modelName) with
        | .ok data =>
          match env.unmarshal data with
          | .ok channels => some channels
          | .error _ => none
        | .error _ => none
      else none) = none := by
    rcases hr with h | h
    · simp [h]
    · cases hg : c.redis.Get ("router:channels:" ++ cacheKey group modelName) with
      | ok data => exact absurd hg (h data)
      | error e => simp
  unfold ChannelCache.GetChannels
  simp only [hl, LRU.Get, List.find?_nil, hcached]
  cases hsrc : env.GetSatisfiedChannels group modelName with
  | error err => exact ⟨rfl, rfl⟩
  | ok channels =>
    refine ⟨rfl, ?_⟩
    simp only [ChannelCache.writeToCache]
    split
    · split <;> rfl
    · rfl

/-- C21 (amended): for every state of the local cache and of the shared store, when the
store is switched off or its commands succeed during `Invalidate`, the next `GetChannels`
(for any group and model, and whether or not the store answers then) calls
`model.GetSatisfiedChannels` for that group and model and returns what it returns,
never an entry cached before. -/
theorem Invalidate_then_GetChannels (env : CacheEnv) (c : ChannelCache) (channelID : Int)
    (group modelName : String) (f : Bool)
    (hok : c.redis.enabled = false ∨ c.redis.failing = false) :
    (ChannelCache.GetChannels env
        { c.Invalidate channelID with
          redis := { (c.Invalidate channelID).redis with failing := f } }
        group modelName).1 = env.GetSatisfiedChannels group modelName ∧
    (ChannelCache.GetChannels env
        { c.Invalidate channelID with
          redis := { (c.Invalidate channelID).redis with failing := f } }
        group modelName).2.queries = c.queries ++ [(group, modelName)] := by
  have hl : (c.Invalidate channelID).localCache = [] := by
    unfold ChannelCache.Invalidate
    simp only [LRU.Purge]
    split <;> rfl
  have hq : (c.Invalidate channelID).queries = c.queries := by
    unfold ChannelCache.Invalidate
    simp only
    split <;> rfl
  have hmiss := GetChannels_miss env
    { c.Invalidate channelID with
      redis := { (c.Invalidate channelID).redis with failing := f } } group modelName hl
    (by
      cases he : c.redis.enabled with
      | false =>
        left
        unfold ChannelCache.Invalidate
        simp [he]
      | true =>
        right
        have hf : c.redis.failing = false := by
          rcases hok with h | h
          · rw [he] at h; cases h
          · exact h
        have hr : (c.Invalidate channelID).redis = c.redis.scanDel := by
          unfold ChannelCache.Invalidate
          simp [he]
        intro data
        simp only [hr]
        rw [Redis.scanDel_Get c.redis hf]
        cases f <;> simp)
  rw [hq] at hmiss
  exact hmiss

/-- Instance of C21 (amended): the shared store and the local cache both hold a list for
`default:m`; after `Invalidate` the call returns the list of the source of truth. -/
theorem Invalidate_then_GetChannels_witness :
    ((Redis.mk true [("router:channels:default:m", "[1]", 100)] 0 false).enabled = false ∨
      (Redis.mk true [("router:channels:default:m", "[1]", 100)] 0 false).failing = false) ∧
    (ChannelCache.GetChannels
      { GetSatisfiedChannels := fun _ _ => .ok [sampleChannel 2],
        marshal := fun _ => .ok "[2]", unmarshal := fun _ => .ok [sampleChannel 1] }
      { (ChannelCache.Invalidate
          { localCache := [("default:m", [sampleChannel 1])],
            redis := Redis.mk true [("router:channels:default:m", "[1]", 100)] 0 false,
            queries := [] } 1) with
        redis := { (ChannelCache.Invalidate
          { localCache := [("default:m", [sampleChannel 1])],
            redis := Redis.mk true [("router:channels:default:m", "[1]", 100)] 0 false,
            queries := [] } 1).redis with failing := false } }
      "default" "m").1 = .ok [sampleChannel 2] :=
  ⟨Or.inr rfl, (Invalidate_then_GetChannels
    { GetSatisfiedChannels := fun _ _ => .ok [sampleChannel 2],
      marshal := fun _ => .ok "[2]", unmarshal := fun _ => .ok [sampleChannel 1] }
    { localCache := [("default:m", [sampleChannel 1])],
      redis := Redis.mk true [("router:channels:default:m", "[1]", 100)] 0 false,
      queries := [] } 1 "default" "m" false (Or.inr rfl)).1⟩

/-- C21 (counterexample): the local cache and the shared store both hold the list `[1]`
for `default:m`, the source of truth holds `[2]`, and the commands of the shared store
fail while `Invalidate` runs, which only logs the error.  Once the store answers again,
the next `GetChannels` returns the cached list `[1]` and makes no call of
`model.GetSatisfiedChannels`. -/
theorem Invalidate_store_down_keeps_entry :
    (ChannelCache.GetChannels
      { GetSatisfiedChannels := fun _ _ => .ok [sampleChannel 2],
        marshal := fun _ => .ok "[2]", unmarshal := fun _ => .ok [sampleChannel 1] }
      { (ChannelCache.Invalidate
          { localCache := [("default:m", [sampleChannel 1])],
            redis := Redis.mk true [("router:channels:default:m", "[1]", 100)] 0 true,
            queries := [] } 1) with
        redis := { (ChannelCache.Invalidate
          { localCache := [("default:m", [sampleChannel 1])],
            redis := Redis.mk true [("router:channels:default:m", "[1]", 100)] 0 true,
            queries := [] } 1).redis with failing := false } }
      "default" "m").1 = .ok [sampleChannel 1] ∧
    (ChannelCache.GetChannels
      { GetSatisfiedChannels := fun _ _ => .ok [sampleChannel 2],
        marshal := fun _ => .ok "[2]", unmarshal := fun _ => .ok [sampleChannel 1] }
      { (ChannelCache.Invalidate
          { localCache := [("default:m", [sampleChannel 1])],
            redis := Redis.mk true [("router:channels:default:m", "[1]", 100)] 0 true,
            queries := [] } 1) with
        redis := { (ChannelCache.Invalidate
          { localCache := [("default:m", [sampleChannel 1])],
            redis := Redis.mk true [("router:channels:default:m", "[1]", 100)] 0 true,
            queries := [] } 1).redis with failing := false } }
      "default" "m").2.queries = [] := by
  exact ⟨rfl, rfl⟩

/-! ## Weighted round-robin: one call and one period -/

/-- One iteration of the second loop of `Select` keeps the selected key the first one of
maximal raised weight. -/
theorem step_first (st1 : WRRState) (P : List Int) (acc : WRRLoop) (id : Int)
    (hinv : WRRLoop.Invariant st1 P acc) (hid : id ∉ P) (hsome : (st1 id).isSome = true)
    (hfirst : ∀ sid, acc.selected = some sid →
      ∃ P1 P2, P = P1 ++ sid :: P2 ∧ ∀ k ∈ P1, st1.raised k < st1.raised sid) :
    ∀ sid, (WeightRoundRobinStrategy.step acc id).selected = some sid →
      ∃ P1 P2, P ++ [id] = P1 ++ sid :: P2 ∧ ∀ k ∈ P1, st1.raised k < st1.raised sid := by
  obtain ⟨h1, h2, h3, h4, h5⟩ := hinv
  obtain ⟨wc, hwc⟩ := Option.isSome_iff_exists.mp hsome
  have hacc : acc.state id = some wc := by rw [h1 id, if_neg hid, hwc]
  have hraised : st1.raised id = (bump wc).CurrentWeight := by
    simp [WRRState.raised, WRRState.currentWeight, WRRState.effectiveWeight, hwc, bump]
  intro sid hsel'
  unfold WeightRoundRobinStrategy.step at hsel'
  rw [hacc] at hsel'
  simp only at hsel'
  by_cases hP : P = []
  · subst hP
    rw [h3 rfl] at hsel'
    have e : sid = id := by simpa using hsel'.symm
    subst e
    exact ⟨[], [], rfl, by simp⟩
  · obtain ⟨sid0, hsid, hsel, hmax⟩ := h4 hP
    have hne : sid0 ≠ id := fun e => hid (e ▸ hsid)
    obtain ⟨wcs, hs⟩ := Option.isSome_iff_exists.mp (h5 sid0 hsid)
    have hb : acc.selected.bind (acc.state.set id (bump wc)) = some (bump wcs) := by
      rw [hsel]
      simp [WRRState.set, hne, h1 sid0, hsid, hs]
    have hrs : st1.raised sid0 = (bump wcs).CurrentWeight := by
      simp [WRRState.raised, WRRState.currentWeight, WRRState.effectiveWeight, hs, bump]
    rw [hb] at hsel'
    simp only at hsel'
    by_cases hgt : (bump wc).CurrentWeight > (bump wcs).CurrentWeight
    · simp only [hgt, decide_True, if_true, Option.some.injEq] at hsel'
      subst hsel'
      refine ⟨P, [], rfl, ?_⟩
      intro k hk
      have := hmax k hk
      rw [hraised]
      rw [hrs] at this
      omega
    · simp only [hgt, decide_False, Bool.false_eq_true, if_false] at hsel'
      rw [hsel] at hsel'
      have e : sid0 = sid := by simpa using hsel'
      subst e
      obtain ⟨P1, P2, hP12, hlt⟩ := hfirst sid0 hsel
      exact ⟨P1, P2 ++ [id], by rw [hP12, List.append_assoc, List.cons_append], hlt⟩

theorem foldl_step_first (st1 : WRRState) (R : List Int) (P : List Int) (acc : WRRLoop)
    (hinv : WRRLoop.Invariant st1 P acc) (hdisj : ∀ id ∈ R, id ∉ P) (hnd : R.Nodup)
    (hsome : ∀ id ∈ R, (st1 id).isSome = true)
    (hfirst : ∀ sid, acc.selected = some sid →
      ∃ P1 P2, P = P1 ++ sid :: P2 ∧ ∀ k ∈ P1, st1.raised k < st1.raised sid) :
    ∀ sid, (R.foldl WeightRoundRobinStrategy.step acc).selected = some sid →
      ∃ P1 P2, P ++ R = P1 ++ sid :: P2 ∧ ∀ k ∈ P1, st1.raised k < st1.raised sid := by
  induction R generalizing P acc with
  | nil => simpa using hfirst
  | cons id rest ih =>
    simp only [List.foldl_cons]
    have hnd2 := List.nodup_cons.mp hnd
    have h1 := step_loopInv st1 P acc id hinv (hdisj id (List.mem_cons_self _ _))
      (hsome id (List.mem_cons_self _ _))
    have h2 := step_first st1 P acc id hinv (hdisj id (List.mem_cons_self _ _))
      (hsome id (List.mem_cons_self _ _)) hfirst
    have := ih (P ++ [id]) (WeightRoundRobinStrategy.step acc id) h1
      (by
        intro k hk hkP
        rcases List.mem_append.mp hkP with h | h
        · exact hdisj k (List.mem_cons_of_mem _ hk) h
        · simp at h; subst h; exact hnd2.1 hk)
      hnd2.2 (fun k hk => hsome k (List.mem_cons_of_mem _ hk)) h2
    simpa [List.append_assoc] using this

/-- What one `Select` does, for any state and any non-empty candidate list with distinct
ids: the candidate returned is the first one of maximal raised weight, every candidate
is stored with its raised weight, the returned one less the total, and no other entry
changes. -/
theorem WeightRoundRobinStrategy_Select_entries (st : WRRState)
    (channels : List ChannelWithMetrics) (hne : channels ≠ [])
    (hnd : (channels.map (fun m => m.Channel.Id)).Nodup) :
    ∃ pre sel post, channels = pre ++ sel :: post ∧
      (∀ m ∈ pre, st.raisedOf m < st.raisedOf sel) ∧
      (∀ m ∈ post, st.raisedOf m ≤ st.raisedOf sel) ∧
      (WeightRoundRobinStrategy.Select st channels).1 = some (st.entry sel).Channel ∧
      (∀ m ∈ channels,
        (WeightRoundRobinStrategy.Select st channels).2 m.Channel.Id =
          some { st.entry m with
            CurrentWeight := st.raisedOf m -
              (if m.Channel.Id = sel.Channel.Id then st.totalOf channels else 0) }) ∧
      (∀ id, id ∉ channels.map (fun m => m.Channel.Id) →
        (WeightRoundRobinStrategy.Select st channels).2 id = st id) := by
  obtain ⟨hc1, hc2⟩ := collect_fst channels hnd st
  have hentry : ∀ m ∈ channels,
      (WeightRoundRobinStrategy.collect st channels).1 m.Channel.Id = some (st.entry m) :=
    fun m hm => hc2 m hm
  generalize hst1 : (WeightRoundRobinStrategy.collect st channels).1 = st1 at hentry hc1
  have hids : (WeightRoundRobinStrategy.collect st channels).2 =
      channels.map (fun m => m.Channel.Id) := collect_snd st channels
  have hsome : ∀ id ∈ channels.map (fun m => m.Channel.Id), (st1 id).isSome = true := by
    intro id hid
    obtain ⟨m, hm, rfl⟩ := List.mem_map.mp hid
    simp [hentry m hm]
  have hinv := foldl_loopInv st1 (channels.map (fun m => m.Channel.Id)) []
    { state := st1, selected := none, totalWeight := 0 }
    ⟨by simp, by simp, by simp, by simp, by simp⟩ (by simp) hnd hsome
  have hfst := foldl_step_first st1 (channels.map (fun m => m.Channel.Id)) []
    { state := st1, selected := none, totalWeight := 0 }
    ⟨by simp, by simp, by simp, by simp, by simp⟩ (by simp) hnd hsome (by simp)
  simp only [List.nil_append] at hinv hfst
  generalize hacc : (channels.map (fun m => m.Channel.Id)).foldl WeightRoundRobinStrategy.step
    { state := st1, selected := none, totalWeight := 0 } = acc at hinv hfst
  obtain ⟨i1, i2, _, i4, _⟩ := hinv
  have hidsne : channels.map (fun m => m.Channel.Id) ≠ [] := by simpa using hne
  obtain ⟨sid, hsid, hsel, hmax⟩ := i4 hidsne
  obtain ⟨P1, P2, hP, hlt⟩ := hfst sid hsel
  obtain ⟨pre, rest, hsplit, hpre, hrest⟩ := List.map_eq_append_iff.mp hP
  obtain ⟨sel, post, hrest2, hselid, hpost⟩ := List.map_eq_cons_iff.mp hrest
  subst hrest2
  have hselmem : sel ∈ channels := by rw [hsplit]; simp
  have hraised : ∀ m ∈ channels, st1.raised m.Channel.Id = st.raisedOf m := by
    intro m hm
    simp [WRRState.raised, WRRState.currentWeight, WRRState.effectiveWeight, hentry m hm,
      WRRState.raisedOf]
  have htotal : acc.totalWeight = st.totalOf channels := by
    rw [i2, WRRState.totalOf, List.map_map]
    apply congrArg
    apply List.map_congr_left
    intro m hm
    simp [WRRState.effectiveWeight, hentry m hm]
  have haccsel : acc.state sel.Channel.Id = some (bump (st.entry sel)) := by
    rw [i1, if_pos (List.mem_map_of_mem _ hselmem), hentry sel hselmem]; rfl
  have hSel : WeightRoundRobinStrategy.Select st channels =
      (some (bump (st.entry sel)).Channel,
        acc.state.set sel.Channel.Id
          { bump (st.entry sel) with
            CurrentWeight := (bump (st.entry sel)).CurrentWeight - acc.totalWeight }) := by
    unfold WeightRoundRobinStrategy.Select
    have : ¬ channels.length = 0 := by simpa using hne
    rw [if_neg this]
    simp only [hst1, hids, hacc, hsel, ← hselid, haccsel]
  refine ⟨pre, sel, post, hsplit, ?_, ?_, by rw [hSel]; rfl, ?_, ?_⟩
  · intro m hm
    have hmem : m ∈ channels := by rw [hsplit]; simp [hm]
    have := hlt m.Channel.Id (by rw [← hpre]; exact List.mem_map_of_mem _ hm)
    rw [← hselid, hraised m hmem, hraised sel hselmem] at this
    exact this
  · intro m hm
    have hmem : m ∈ channels := by rw [hsplit]; simp [hm]
    have := hmax m.Channel.Id (List.mem_map_of_mem _ hmem)
    rw [← hselid, hraised m hmem, hraised sel hselmem] at this
    exact this
  · intro m hm
    rw [hSel]
    simp only [WRRState.set]
    by_cases hmid : m.Channel.Id = sel.Channel.Id
    · have hmeq : m = sel := List.inj_on_of_nodup_map hnd hm hselmem hmid
      subst hmeq
      simp [bump, htotal, WRRState.raisedOf]
    · simp only [hmid, if_false]
      rw [i1, if_pos (List.mem_map_of_mem _ hm), hentry m hm]
      simp [bump, WRRState.raisedOf]
  · intro id hid
    rw [hSel]
    simp only [WRRState.set]
    have hne2 : ¬ id = sel.Channel.Id := by
      intro e
      exact hid (e ▸ List.mem_map_of_mem _ hselmem)
    rw [if_neg hne2, i1, if_neg hid]
    exact hc1 id hid

theorem collect_present (l : List ChannelWithMetrics) (st : WRRState)
    (h : ∀ m ∈ l, (st m.Channel.Id).isSome = true) :
    WeightRoundRobinStrategy.collect st l = (st, l.map (fun m => m.Channel.Id)) := by
  induction l generalizing st with
  | nil => rfl
  | cons m rest ih =>
    have hm := h m (List.mem_cons_self _ _)
    obtain ⟨wc, hwc⟩ := Option.isSome_iff_exists.mp hm
    have hl : WeightRoundRobinStrategy.lookupOrCreate st m = st := by
      unfold WeightRoundRobinStrategy.lookupOrCreate
      rw [hwc]
    simp only [WeightRoundRobinStrategy.collect, hl, List.map_cons]
    rw [ih st (fun x hx => h x (List.mem_cons_of_mem _ hx))]

/-- The first loop of `Select` does nothing more when run a second time. -/
theorem Select_collect (st : WRRState) (channels : List ChannelWithMetrics)
    (hnd : (channels.map (fun m => m.Channel.Id)).Nodup) :
    WeightRoundRobinStrategy.Select (WeightRoundRobinStrategy.collect st channels).1 channels =
      WeightRoundRobinStrategy.Select st channels := by
  have hp : WeightRoundRobinStrategy.collect
      (WeightRoundRobinStrategy.collect st channels).1 channels =
        WeightRoundRobinStrategy.collect st channels := by
    rw [collect_present channels _ (fun m hm => by
      rw [(collect_fst channels hnd st).2 m hm]; rfl)]
    rw [← collect_snd st channels]
  unfold WeightRoundRobinStrategy.Select
  rw [hp]
  by_cases hl : channels.length = 0
  · have : channels = [] := List.length_eq_zero.mp hl
    subst this
    rfl
  · rw [if_neg hl, if_neg hl]

theorem selectN_add (channels : List ChannelWithMetrics) (a b : Nat) (st : WRRState) :
    (WeightRoundRobinStrategy.selectN st channels (a + b)).1 =
      (WeightRoundRobinStrategy.selectN st channels a).1 ++
        (WeightRoundRobinStrategy.selectN
          (WeightRoundRobinStrategy.selectN st channels a).2 channels b).1 := by
  induction a generalizing st with
  | zero => simp [WeightRoundRobinStrategy.selectN]
  | succ a ih =>
    have e : a + 1 + b = (a + b) + 1 := by omega
    rw [e]
    simp only [WeightRoundRobinStrategy.selectN, List.cons_append]
    rw [ih]

/-- The states a new strategy goes through while it serves one fixed candidate list:
nothing is stored outside the candidates' ids, and each candidate's entry is the one
`Select` created, up to the running weight. -/
theorem selectN_canonical (channels : List ChannelWithMetrics) (hne : channels ≠ [])
    (hnd : (channels.map (fun m => m.Channel.Id)).Nodup) (N : Nat) (st : WRRState)
    (h1 : ∀ id, id ∉ channels.map (fun m => m.Channel.Id) → st id = none)
    (h2 : ∀ m ∈ channels, st.entry m =
      { newWeightedChannel m with CurrentWeight := (st.entry m).CurrentWeight }) :
    (∀ id, id ∉ channels.map (fun m => m.Channel.Id) →
      (WeightRoundRobinStrategy.selectN st channels N).2 id = none) ∧
    (∀ m ∈ channels, (WeightRoundRobinStrategy.selectN st channels N).2.entry m =
      { newWeightedChannel m with
        CurrentWeight := ((WeightRoundRobinStrategy.selectN st channels N).2.entry m).CurrentWeight }) ∧
    (0 < N → ∀ m ∈ channels,
      ((WeightRoundRobinStrategy.selectN st channels N).2 m.Channel.Id).isSome = true) := by
  induction N generalizing st with
  | zero => exact ⟨h1, h2, fun h => absurd h (by omega)⟩
  | succ N ih =>
    obtain ⟨pre, sel, post, _, _, _, _, e5, e6⟩ :=
      WeightRoundRobinStrategy_Select_entries st channels hne hnd
    have g1 : ∀ id, id ∉ channels.map (fun m => m.Channel.Id) →
        (WeightRoundRobinStrategy.Select st channels).2 id = none := by
      intro id hid
      rw [e6 id hid]
      exact h1 id hid
    have g2 : ∀ m ∈ channels, (WeightRoundRobinStrategy.Select st channels).2.entry m =
        { newWeightedChannel m with
          CurrentWeight :=
            ((WeightRoundRobinStrategy.Select st channels).2.entry m).CurrentWeight } := by
      intro m hm
      have := e5 m hm
      simp only [WRRState.entry, this, Option.getD_some]
      have h2m := h2 m hm
      simp only [WRRState.entry] at h2m
      rw [h2m]
    have g3 : ∀ m ∈ channels,
        ((WeightRoundRobinStrategy.Select st channels).2 m.Channel.Id).isSome = true := by
      intro m hm
      rw [e5 m hm]; rfl
    obtain ⟨i1, i2, i3⟩ := ih (WeightRoundRobinStrategy.Select st channels).2 g1 g2
    simp only [WeightRoundRobinStrategy.selectN]
    refine ⟨i1, i2, fun _ m hm => ?_⟩
    by_cases hN : 0 < N
    · exact i3 hN m hm
    · have : N = 0 := by omega
      subst this
      simpa [WeightRoundRobinStrategy.selectN] using g3 m hm

theorem selectN_results_of_Select_eq (channels : List ChannelWithMetrics) (st1 st2 : WRRState)
    (h : WeightRoundRobinStrategy.Select st1 channels =
      WeightRoundRobinStrategy.Select st2 channels) (k : Nat) :
    (WeightRoundRobinStrategy.selectN st1 channels k).1 =
      (WeightRoundRobinStrategy.selectN st2 channels k).1 := by
  cases k with
  | zero => rfl
  | succ k => simp only [WeightRoundRobinStrategy.selectN, h]

/-- One period of a new strategy on a fixed candidate list: after as many calls as the
weights add up to, every candidate has been returned as often as its weight says and
every running weight is back at 0. -/
theorem selectN_period (channels : List ChannelWithMetrics) (hne : channels ≠ [])
    (hnd : (channels.map (fun m => m.Channel.Id)).Nodup)
    (hw : ∀ m ∈ channels, 1 ≤ weightOf m) (m : ChannelWithMetrics) (hm : m ∈ channels) :
    (selectionCount m.Channel.Id
      (WeightRoundRobinStrategy.selectN WRRState.empty channels
        (totalWeightOf channels).toNat).1 : Int) = weightOf m ∧
    (WeightRoundRobinStrategy.selectN WRRState.empty channels
      (totalWeightOf channels).toNat).2.currentWeight m.Channel.Id = 0 := by
  have hW := totalWeightOf_pos channels hne hw
  have hcast : (((totalWeightOf channels).toNat : Nat) : Int) = totalWeightOf channels :=
    Int.toNat_of_nonneg (by omega)
  obtain ⟨hb, hcount⟩ := selectN_balanced channels hne hnd hw (totalWeightOf channels).toNat
    WRRState.empty (empty_balanced channels hne hw)
  generalize hst : (WeightRoundRobinStrategy.selectN WRRState.empty channels
    (totalWeightOf channels).toNat) = r at hb hcount
  have hcw : ∀ x ∈ channels, r.2.currentWeight x.Channel.Id =
      totalWeightOf channels * (weightOf x - (selectionCount x.Channel.Id r.1 : Int)) := by
    intro x hx
    have := hcount x hx
    rw [hcast] at this
    have h0 : WRRState.empty.currentWeight x.Channel.Id = 0 := rfl
    rw [h0] at this
    linarith [mul_sub (totalWeightOf channels) (weightOf x) (selectionCount x.Channel.Id r.1 : Int)]
  have hnonneg : ∀ x ∈ channels, 0 ≤ r.2.currentWeight x.Channel.Id := by
    intro x hx
    have hlo := hb.2.2 x hx
    rw [hcw x hx] at hlo ⊢
    by_contra hneg
    have hd : weightOf x - (selectionCount x.Channel.Id r.1 : Int) ≤ -1 := by
      by_contra hd
      have hd2 : 0 ≤ weightOf x - (selectionCount x.Channel.Id r.1 : Int) := by omega
      exact hneg (mul_nonneg (by omega) hd2)
    have := mul_le_mul_of_nonneg_left hd (show (0 : Int) ≤ totalWeightOf channels by omega)
    linarith
  have hzero : r.2.currentWeight m.Channel.Id = 0 := by
    have hle := le_sum_of_nonneg channels (fun x => r.2.currentWeight x.Channel.Id) hnonneg m hm
    rw [hb.2.1] at hle
    have := hnonneg m hm
    simp only at hle
    omega
  refine ⟨?_, hzero⟩
  have h1 := hcw m hm
  rw [hzero] at h1
  have h2 : weightOf m - (selectionCount m.Channel.Id r.1 : Int) = 0 := by
    rcases mul_eq_zero.mp h1.symm with h | h
    · omega
    · exact h
  omega

/-- C29: a new strategy serving a fixed non-empty candidate list with distinct ids and
weights at least 1, without failure or success reports.  After `Σw` calls every
candidate has been returned exactly `wᵢ` times and every running weight is 0 again;
entries exist only for the candidates; the sequence of returned channels repeats with
period `Σw`; and after any number of calls the running weights add up to 0. -/
theorem WeightRoundRobinStrategy_periodic (channels : List ChannelWithMetrics)
    (hne : channels ≠ []) (hnd : (channels.map (fun m => m.Channel.Id)).Nodup)
    (hw : ∀ m ∈ channels, 1 ≤ weightOf m) :
    (∀ m ∈ channels,
      (selectionCount m.Channel.Id
        (WeightRoundRobinStrategy.selectN WRRState.empty channels
          (totalWeightOf channels).toNat).1 : Int) = weightOf m ∧
      (WeightRoundRobinStrategy.selectN WRRState.empty channels
        (totalWeightOf channels).toNat).2.currentWeight m.Channel.Id = 0) ∧
    (∀ k : Nat,
      (WeightRoundRobinStrategy.selectN WRRState.empty channels
        ((totalWeightOf channels).toNat + k)).1 =
        (WeightRoundRobinStrategy.selectN WRRState.empty channels
          (totalWeightOf channels).toNat).1 ++
          (WeightRoundRobinStrategy.selectN WRRState.empty channels k).1) ∧
    (∀ N : Nat,
      (channels.map (fun m =>
        (WeightRoundRobinStrategy.selectN WRRState.empty channels N).2.currentWeight
          m.Channel.Id)).sum = 0 ∧
      ∀ id, id ∉ channels.map (fun m => m.Channel.Id) →
        (WeightRoundRobinStrategy.selectN WRRState.empty channels N).2 id = none) := by
  have hW := totalWeightOf_pos channels hne hw
  have hcanon := fun N => selectN_canonical channels hne hnd N WRRState.empty
    (fun _ _ => rfl) (fun _ _ => rfl)
  refine ⟨fun m hm => selectN_period channels hne hnd hw m hm, ?_, ?_⟩
  · intro k
    rw [selectN_add]
    congr 1
    -- the state after one period is the one the first loop of `Select` builds
    have hstate : (WeightRoundRobinStrategy.selectN WRRState.empty channels
        (totalWeightOf channels).toNat).2 =
          (WeightRoundRobinStrategy.collect WRRState.empty channels).1 := by
      obtain ⟨c1, c2, c3⟩ := hcanon (totalWeightOf channels).toNat
      have hpos : 0 < (totalWeightOf channels).toNat := by omega
      funext id
      by_cases hid : id ∈ channels.map (fun m => m.Channel.Id)
      · obtain ⟨m, hm, rfl⟩ := List.mem_map.mp hid
        rw [(collect_fst channels hnd WRRState.empty).2 m hm]
        obtain ⟨wc, hwc⟩ := Option.isSome_iff_exists.mp (c3 hpos m hm)
        have hz := (selectN_period channels hne hnd hw m hm).2
        have he := c2 m hm
        simp only [WRRState.entry, hwc, Option.getD_some] at he
        simp only [WRRState.currentWeight, hwc] at hz
        rw [hwc, he, hz]
        rfl
      · rw [c1 id hid, (collect_fst channels hnd WRRState.empty).1 id hid]
        rfl
    rw [hstate]
    exact selectN_results_of_Select_eq channels _ _ (Select_collect WRRState.empty channels hnd) k
  · intro N
    obtain ⟨hb, _⟩ := selectN_balanced channels hne hnd hw N WRRState.empty
      (empty_balanced channels hne hw)
    exact ⟨hb.2.1, (hcanon N).1⟩

/-- Instance of C29: weights 1, 1 and 5. -/
theorem WeightRoundRobinStrategy_periodic_witness :
    [sampleCandidate 1 (some 1) none, sampleCandidate 2 (some 1) none,
      sampleCandidate 3 (some 5) none] ≠ [] ∧
    ([sampleCandidate 1 (some 1) none, sampleCandidate 2 (some 1) none,
      sampleCandidate 3 (some 5) none].map (fun m => m.Channel.Id)).Nodup ∧
    (∀ m ∈ [sampleCandidate 1 (some 1) none, sampleCandidate 2 (some 1) none,
      sampleCandidate 3 (some 5) none], 1 ≤ weightOf m) ∧
    ∀ k : Nat,
      (WeightRoundRobinStrategy.selectN WRRState.empty
        [sampleCandidate 1 (some 1) none, sampleCandidate 2 (some 1) none,
          sampleCandidate 3 (some 5) none]
        ((totalWeightOf [sampleCandidate 1 (some 1) none, sampleCandidate 2 (some 1) none,
          sampleCandidate 3 (some 5) none]).toNat + k)).1 =
        (WeightRoundRobinStrategy.selectN WRRState.empty
          [sampleCandidate 1 (some 1) none, sampleCandidate 2 (some 1) none,
            sampleCandidate 3 (some 5) none]
          (totalWeightOf [sampleCandidate 1 (some 1) none, sampleCandidate 2 (some 1) none,
            sampleCandidate 3 (some 5) none]).toNat).1 ++
          (WeightRoundRobinStrategy.selectN WRRState.empty
            [sampleCandidate 1 (some 1) none, sampleCandidate 2 (some 1) none,
              sampleCandidate 3 (some 5) none] k).1 :=
  ⟨by decide, by decide, by decide,
    (WeightRoundRobinStrategy_periodic
      [sampleCandidate 1 (some 1) none, sampleCandidate 2 (some 1) none,
        sampleCandidate 3 (some 5) none] (by decide) (by decide) (by decide)).2.1⟩

end OneApi
